import Mathlib

set_option autoImplicit true

/-!
# SatPhyRxCarrierMarsala: the CRDSA frame decoder with replica correlation

A shallow embedding of `src/model/satellite-phy-rx-carrier-marsala.cc`.

* The frame container `std::map<uint32_t, std::list<crdsaPacketRxParams_s>>` is a
  list of `(slot id, slot content)` entries in iteration order (ascending slot id).
* `NS_FATAL_ERROR` ends the program: functions that can reach it return
  `Except Fault _`.
* `double` values are elements of an arbitrary type `α` carrying the arithmetic
  operations the code uses; `uint32_t` counters are naturals reduced modulo `2^32`.
* Member functions of the base class `SatPhyRxCarrierPerFrame` whose bodies are not
  part of the sources are fields of `Carrier` (pure functions) or are modelled from
  the specification, which is said in their doc comment.
-/

namespace SatPhyRxCarrierPerFrame

/-! ## Data model -/

/-- Record `crdsaPacketRxParams_s`: the fields the Marsala carrier reads or writes.
`rxParams` stands for the pointer to the signal parameters handed to the link results. -/
structure Packet where
  rxParams : Nat
  sourceAddress : Nat
  ownSlotId : Nat
  slotIdsForOtherReplicas : List Nat
  phyError : Bool
  deriving DecidableEq, Repr

/-- Content of one slot, `std::list<crdsaPacketRxParams_s>`, in arrival order. -/
abbrev SlotContent := List Packet

/-- Frame container, `std::map<uint32_t, std::list<crdsaPacketRxParams_s>>`, as the list of
its entries in iteration order. -/
abbrev Container := List (Nat × SlotContent)

/-- The messages of the `NS_FATAL_ERROR` calls. -/
inductive Fault where
  /-- Message "No packet in slot! This should not happen" (line 117). -/
  | noPacketInSlot
  /-- Message "Slot ... not found in frame!" (line 136). -/
  | slotNotFound (slotId : Nat)
  /-- Message "Slot ... does not contain a replica of the current packet!" (line 141). -/
  | noReplicaInSlot (slotId : Nat)
  /-- Message "Found more than one replica in the same slot!" (line 90). -/
  | moreThanOneReplica
  /-- Integrity error of the base class: a sibling slot id is absent from the frame. -/
  | replicaSlotMissing (slotId : Nat)
  /-- Integrity error of the base class: the sibling slot holds no matching replica. -/
  | replicaNotFound (slotId : Nat)
  deriving DecidableEq, Repr

/-- Values passed to the trace sources `m_linkSinrTrace` and `m_marsalaCorrelationRxTrace`. -/
inductive TraceEvent (α : Type) where
  | linkSinr (sinrDb : α)
  | marsalaCorrelationRx (correlations : Nat) (sourceAddress : Nat) (phyError : Bool)
  deriving DecidableEq, Repr

/-- The collaborators of the carrier whose bodies are not part of the sources:
`IsReplica`, `CalculatePacketCompositeSinr` (a member function: it may read the carrier's
frame container), `CheckAgainstLinkResults` (true means decode error) and
`SatUtils::LinearToDb`. -/
structure Carrier (α : Type) where
  IsReplica : Packet → Packet → Bool
  CalculatePacketCompositeSinr : Container → Packet → α
  CheckAgainstLinkResults : α → Nat → Bool
  LinearToDb : α → α

/-- The state a frame decode works on: the carrier's packet container, the output vector
`combinedPacketsForFrame` and the events sent to the trace sources so far. -/
structure State (α : Type) where
  container : Container
  combinedPacketsForFrame : List Packet
  trace : List (TraceEvent α)

/-- Result of a loop run with a bound on its number of iterations. -/
inductive Outcome (σ : Type) where
  | done (s : σ)
  | fatal (f : Fault)
  | outOfFuel

/-- Conversion to `uint32_t`. -/
def u32 (n : Nat) : Nat := n % 4294967296

/-- Lookup `GetCrdsaPacketContainer ().find (slotId)`. -/
def Container.find : Container → Nat → Option SlotContent
  | [], _ => none
  | (k, content) :: others, slotId =>
    if k = slotId then some content else Container.find others slotId

/-- Number of records held in the whole container. -/
def Container.records (cont : Container) : Nat :=
  (cont.map (fun e => e.2.length)).sum

/-- The slot ids present in the container. -/
def Container.keys (cont : Container) : List Nat := cont.map (fun e => e.1)

/-- Assignment `currentPacket->phyError = b`. -/
def Packet.setPhyError (p : Packet) (b : Bool) : Packet := { p with phyError := b }

/-! ## Removal of a decoded packet (base class) -/

/-- Modelled from the spec: `SatPhyRxCarrierPerFrame::EliminateInterference` is declared in
the base class and its body is not part of the sources. It is called with the map iterator
of a slot from which the decoded record has just been taken out. By Invariant B a slot
entry of the frame holds at least one record, so the entry is dropped when nothing is left
in it; the interference seen by the remaining records is the content of the slot. The
result is what stands at the place of the entry afterwards. -/
def EliminateInterference (iter : Nat × SlotContent) (_processedPacket : Packet) : Container :=
  if iter.2.isEmpty then [] else [iter]

/-- Modelled from the spec: one round of the loop of
`SatPhyRxCarrierPerFrame::FindAndRemoveReplicas`, whose body is not part of the sources
(section 4.1, step 4): locate the sibling slot, remove the matching replica of the same
logical packet from it, and eliminate its interference; a sibling slot id absent from the
frame, or a sibling slot without a matching replica, is a fatal integrity error. -/
def removeReplicaInSlot (c : Carrier α) (packet : Packet) (slotId : Nat) :
    Container → Except Fault Container
  | [] => .error (Fault.replicaSlotMissing slotId)
  | (k, content) :: others =>
    if k = slotId then
      if content.any (c.IsReplica packet) then
        .ok (EliminateInterference (k, content.eraseP (c.IsReplica packet)) packet ++ others)
      else .error (Fault.replicaNotFound slotId)
    else
      match removeReplicaInSlot c packet slotId others with
      | .error f => .error f
      | .ok others1 => .ok ((k, content) :: others1)

/-- Loop of `FindAndRemoveReplicas` over a list of sibling slot ids. -/
def removeReplicasIn (c : Carrier α) (packet : Packet) : List Nat → Container →
    Except Fault Container
  | [], cont => .ok cont
  | slotId :: others, cont =>
    match removeReplicaInSlot c packet slotId cont with
    | .error f => .error f
    | .ok cont1 => removeReplicasIn c packet others cont1

/-- Modelled from the spec: `SatPhyRxCarrierPerFrame::FindAndRemoveReplicas`, whose body is
not part of the sources: for every sibling slot id of the packet, in order, the matching
replica is removed from that slot (section 4.1, step 4). -/
def FindAndRemoveReplicas (c : Carrier α) (packet : Packet) (cont : Container) :
    Except Fault Container :=
  removeReplicasIn c packet packet.slotIdsForOtherReplicas cont

/-- Lines 181-190: the record at `currentPacket` has been taken out of its slot, which now
holds `slotContent`; `before` and `after` are the entries around the slot. -/
def commitDecoded (c : Carrier α) (before : Container) (slotId : Nat) (slotContent : SlotContent)
    (after : Container) (processedPacket : Packet) (combinedPacketsForFrame : List Packet)
    (trace : List (TraceEvent α)) : Except Fault (State α) :=
  match FindAndRemoveReplicas c processedPacket
      (before ++ EliminateInterference (slotId, slotContent) processedPacket ++ after) with
  | .error f => .error f
  | .ok cont =>
    .ok { container := cont
          combinedPacketsForFrame := combinedPacketsForFrame ++ [processedPacket]
          trace := trace }

/-- How the loop over the records of one slot ends: with a decoded packet (`return true`)
or at the end of the slot, whose records carry their new `phyError`. -/
inductive SlotScan (α : Type) where
  | decoded (st : State α)
  | next (slotContent : SlotContent) (trace : List (TraceEvent α))

/-! ## The SIC engine (base class) -/

/-- Modelled from the spec: the scan of one slot by a decode pass of the base class
`SatPhyRxCarrierPerFrame`, whose body is not part of the sources (section 4.1, steps 1-4):
the composite SINR of the candidate is computed and submitted to the link results; on
failure the frame is left unchanged and the scan advances; on success the candidate is
removed from its slot and its replicas from the sibling slots, the record is appended to
the decoded output and the pass returns. The SINR of an evaluated candidate goes to the
telemetry (section 6). -/
def decodeSlot (c : Carrier α) (before : Container) (slotId : Nat) (after : Container)
    (combinedPacketsForFrame : List Packet) :
    SlotContent → List (TraceEvent α) → SlotContent → Except Fault (SlotScan α)
  | scanned, trace, [] => .ok (SlotScan.next scanned trace)
  | scanned, trace, candidate :: others =>
    let sinr := c.CalculatePacketCompositeSinr
      (before ++ (slotId, scanned ++ candidate :: others) :: after) candidate
    let trace1 := trace ++ [TraceEvent.linkSinr (c.LinearToDb sinr)]
    if c.CheckAgainstLinkResults sinr candidate.rxParams then
      decodeSlot c before slotId after combinedPacketsForFrame (scanned ++ [candidate]) trace1
        others
    else
      match commitDecoded c before slotId (scanned ++ others) after candidate
          combinedPacketsForFrame trace1 with
      | .error f => .error f
      | .ok st => .ok (SlotScan.decoded st)

/-- Modelled from the spec: the scan of the slots by a decode pass of the base class, in
ascending slot id order (section 4.1); an empty slot reached during the iteration is a
fatal integrity error (section 7), and the pass returns false when no candidate of any
slot succeeds (step 5). -/
def decodeContainer (c : Carrier α) (combinedPacketsForFrame : List Packet) :
    Container → List (TraceEvent α) → Container → Except Fault (Bool × State α)
  | before, trace, [] =>
    .ok (false, { container := before
                  combinedPacketsForFrame := combinedPacketsForFrame
                  trace := trace })
  | before, trace, (slotId, slotContent) :: after =>
    if slotContent.length < 1 then .error Fault.noPacketInSlot
    else
      match decodeSlot c before slotId after combinedPacketsForFrame [] trace slotContent with
      | .error f => .error f
      | .ok (SlotScan.decoded st) => .ok (true, st)
      | .ok (SlotScan.next slotContent1 trace1) =>
        decodeContainer c combinedPacketsForFrame (before ++ [(slotId, slotContent1)]) trace1
          after

/-- Modelled from the spec: the contract `DecodePass(FrameCollection) → bool madeProgress`
of the SIC engine (section 4.1); the body of the base class is not part of the sources. -/
def DecodePass (c : Carrier α) (st : State α) : Except Fault (Bool × State α) :=
  decodeContainer c st.combinedPacketsForFrame [] st.trace st.container

/-- Modelled from the spec: `SatPhyRxCarrierPerFrame::PerformSicCycles`, whose body is not
part of the sources: the decode pass is called repeatedly until it returns false
(section 4.1). The first argument bounds the number of passes. -/
def PerformSicCycles (c : Carrier α) : Nat → State α → Outcome (State α)
  | 0, _ => Outcome.outOfFuel
  | fuel + 1, st =>
    match DecodePass c st with
    | .error f => Outcome.fatal f
    | .ok (true, st1) => PerformSicCycles c fuel st1
    | .ok (false, st1) => Outcome.done st1

end SatPhyRxCarrierPerFrame

namespace SatPhyRxCarrierMarsala

open SatPhyRxCarrierPerFrame

/-! ## `SatPhyRxCarrierMarsala::CheckReplicaInSlot` -/

/-- The loop of `CheckReplicaInSlot`, started with a value of `replicaFound`. -/
def checkReplicaLoop (c : Carrier α) (packet : Packet) : SlotContent → Bool → Except Fault Bool
  | [], replicaFound => .ok replicaFound
  | currentPacket :: others, replicaFound =>
    if c.IsReplica packet currentPacket then
      if replicaFound then .error Fault.moreThanOneReplica
      else checkReplicaLoop c packet others true
    else checkReplicaLoop c packet others replicaFound

/-- Function `SatPhyRxCarrierMarsala::CheckReplicaInSlot` (lines 77-97). -/
def CheckReplicaInSlot (c : Carrier α) (slotContent : SlotContent) (packet : Packet) :
    Except Fault Bool :=
  checkReplicaLoop c packet slotContent false

/-! ## `SatPhyRxCarrierMarsala::PerformMarsala` -/

/-- The loop over `currentPacket->slotIdsForOtherReplicas` (lines 128-145): looks every
sibling slot up, checks that it holds a replica and adds its size to
`packetsInSlotsCount`. -/
def countPacketsInReplicaSlots (c : Carrier α) (cont : Container) (currentPacket : Packet) :
    List Nat → Nat → Except Fault Nat
  | [], packetsInSlotsCount => .ok packetsInSlotsCount
  | replicaSlotId :: others, packetsInSlotsCount =>
    match cont.find replicaSlotId with
    | none => .error (Fault.slotNotFound replicaSlotId)
    | some replicaSlot =>
      match CheckReplicaInSlot c replicaSlot currentPacket with
      | .error f => .error f
      | .ok false => .error (Fault.noReplicaInSlot replicaSlotId)
      | .ok true =>
        countPacketsInReplicaSlots c cont currentPacket others
          (u32 (packetsInSlotsCount + replicaSlot.length))

/-- The expression `replicasCount / (ratioOfInterferentPerReplica + (1 / sinr))` with
`ratioOfInterferentPerReplica = (double (packetsInSlotsCount) / replicasCount) - 1`
(lines 151 and 161); the integer operands are converted to `double`. -/
def correlatedSinrOf [NatCast α] [Add α] [Sub α] [Div α]
    (packetsInSlotsCount replicasCount : Nat) (sinr : α) : α :=
  let ratioOfInterferentPerReplica : α :=
    ((packetsInSlotsCount : α) / (replicasCount : α)) - ((1 : Nat) : α)
  (replicasCount : α) / (ratioOfInterferentPerReplica + ((1 : Nat) : α) / sinr)

/-- The loop `for (i = nbSlots - otherReplicasCount; i < nbSlots; ++i) correlations *= i`
(lines 170-174) in `uint32_t` arithmetic. -/
def correlationsOf (nbSlots otherReplicasCount : Nat) : Nat :=
  let first := u32 (nbSlots + 4294967296 - otherReplicasCount)
  (List.range' first (nbSlots - first)).foldl (fun correlations i => u32 (correlations * i)) 1

/-- What the body of the inner loop computes for one candidate before it decides
(lines 126-175). -/
structure Evaluation (α : Type) where
  packetsInSlotsCount : Nat
  replicasCount : Nat
  sinr : α
  correlatedSinr : α
  phyError : Bool
  correlations : Nat

/-- Lines 126-175 for the candidate `currentPacket` of the slot `slotContent`, in the
container `cont`. -/
def evaluateCandidate [NatCast α] [Add α] [Sub α] [Div α] (c : Carrier α) (nbSlots : Nat)
    (cont : Container) (slotContent : SlotContent) (currentPacket : Packet) :
    Except Fault (Evaluation α) :=
  match countPacketsInReplicaSlots c cont currentPacket currentPacket.slotIdsForOtherReplicas
      (u32 slotContent.length) with
  | .error f => .error f
  | .ok packetsInSlotsCount =>
    let otherReplicasCount := u32 currentPacket.slotIdsForOtherReplicas.length
    let replicasCount := u32 (1 + otherReplicasCount)
    let sinr := c.CalculatePacketCompositeSinr cont currentPacket
    let correlatedSinr := correlatedSinrOf packetsInSlotsCount replicasCount sinr
    .ok { packetsInSlotsCount := packetsInSlotsCount
          replicasCount := replicasCount
          sinr := sinr
          correlatedSinr := correlatedSinr
          phyError := c.CheckAgainstLinkResults correlatedSinr currentPacket.rxParams
          correlations := correlationsOf nbSlots otherReplicasCount }

/-- The two trace calls made for an evaluated candidate (lines 159 and 175). -/
def evaluationEvents (c : Carrier α) (currentPacket : Packet) (ev : Evaluation α) :
    List (TraceEvent α) :=
  [TraceEvent.linkSinr (c.LinearToDb ev.sinr),
   TraceEvent.marsalaCorrelationRx ev.correlations currentPacket.sourceAddress ev.phyError]

/-- The inner loop of `PerformMarsala` (lines 121-192) over the records of the slot
`slotId`. `scanned` are the records of the slot already passed (with their `phyError`
written), the last argument the records from `currentPacket` on; `before` and `after` are
the entries of the container around the slot. -/
def scanSlot [NatCast α] [Add α] [Sub α] [Div α] (c : Carrier α) (nbSlots : Nat)
    (before : Container) (slotId : Nat) (after : Container)
    (combinedPacketsForFrame : List Packet) :
    SlotContent → List (TraceEvent α) → SlotContent → Except Fault (SlotScan α)
  | scanned, trace, [] => .ok (SlotScan.next scanned trace)
  | scanned, trace, currentPacket :: others =>
    let slotContent := scanned ++ currentPacket :: others
    match evaluateCandidate c nbSlots (before ++ (slotId, slotContent) :: after) slotContent
        currentPacket with
    | .error f => .error f
    | .ok ev =>
      let trace1 := trace ++ evaluationEvents c currentPacket ev
      if ev.phyError then
        scanSlot c nbSlots before slotId after combinedPacketsForFrame
          (scanned ++ [currentPacket.setPhyError true]) trace1 others
      else
        match commitDecoded c before slotId (scanned ++ others) after
            (currentPacket.setPhyError false) combinedPacketsForFrame trace1 with
        | .error f => .error f
        | .ok st => .ok (SlotScan.decoded st)

/-- The outer loop of `PerformMarsala` (lines 110-193): `before` are the entries already
passed, the last argument the entries from `iter` on. -/
def scanContainer [NatCast α] [Add α] [Sub α] [Div α] (c : Carrier α) (nbSlots : Nat)
    (combinedPacketsForFrame : List Packet) :
    Container → List (TraceEvent α) → Container → Except Fault (Bool × State α)
  | before, trace, [] =>
    .ok (false, { container := before
                  combinedPacketsForFrame := combinedPacketsForFrame
                  trace := trace })
  | before, trace, (slotId, slotContent) :: after =>
    if slotContent.length < 1 then .error Fault.noPacketInSlot
    else
      match scanSlot c nbSlots before slotId after combinedPacketsForFrame [] trace
          slotContent with
      | .error f => .error f
      | .ok (SlotScan.decoded st) => .ok (true, st)
      | .ok (SlotScan.next slotContent1 trace1) =>
        scanContainer c nbSlots combinedPacketsForFrame (before ++ [(slotId, slotContent1)])
          trace1 after

/-- Function `SatPhyRxCarrierMarsala::PerformMarsala` (lines 100-196). -/
def PerformMarsala [NatCast α] [Add α] [Sub α] [Div α] (c : Carrier α) (st : State α) :
    Except Fault (Bool × State α) :=
  let nbSlots := u32 st.container.length
  scanContainer c nbSlots st.combinedPacketsForFrame [] st.trace st.container

/-! ## Notions used to state the properties of the correlation pass -/

/-- Sum of the current sizes of the slots a candidate occupies, as the specification words
it: the size of its home slot plus the sizes of the slots found under its sibling slot ids,
in list order. -/
def occupancy (cont : Container) (slotContent : SlotContent) (packet : Packet) : Nat :=
  slotContent.length +
    (packet.slotIdsForOtherReplicas.map (fun slotId => ((cont.find slotId).getD []).length)).sum

/-- The formula of the specification, `combinedSinr = R / (interferentRatio + 1 / singleSinr)`
with `interferentRatio = occupancy / R - 1`; the numerals are read in `α` through the
conversion from the integers, as the code does. -/
def combinedSinr [NatCast α] [Add α] [Sub α] [Div α] (R occupancy : Nat) (singleSinr : α) : α :=
  let interferentRatio : α := (occupancy : α) / (R : α) - ((1 : Nat) : α)
  (R : α) / (interferentRatio + ((1 : Nat) : α) / singleSinr)

/-- The interferent ratio of the formula, `occupancy / R - 1`, as the code computes it
(line 151). -/
def interferentRatio [NatCast α] [Sub α] [Div α] (R occupancy : Nat) : α :=
  (occupancy : α) / (R : α) - ((1 : Nat) : α)

/-- The denominator of the formula, `interferentRatio + 1 / singleSinr`, as the code
computes it (line 161). -/
def formulaDenominator [NatCast α] [Add α] [Sub α] [Div α] (R occupancy : Nat)
    (singleSinr : α) : α :=
  interferentRatio R occupancy + ((1 : Nat) : α) / singleSinr

/-- The records of a slot once the scan of `PerformMarsala` has passed them without
decoding: each carries `phyError = true`, the verdict written at line 168. -/
def rejected (slotContent : SlotContent) : SlotContent :=
  slotContent.map (fun p => p.setPhyError true)

/-- The entries of the container once the scan has passed them without decoding. -/
def rejectedSlots (cont : Container) : Container :=
  cont.map (fun e => (e.1, rejected e.2))

/-- A place of the scan: the candidate `current` of the slot `slotId`, between the records
`scanned` and `others` of its slot and the entries `before` and `after` of the container. -/
structure Position where
  before : Container
  slotId : Nat
  scanned : SlotContent
  current : Packet
  others : SlotContent
  after : Container
  deriving DecidableEq, Repr

/-- The container a position was cut out of. -/
def Position.container (P : Position) : Container :=
  P.before ++ (P.slotId, P.scanned ++ P.current :: P.others) :: P.after

/-- The slot of the candidate as the scan finds it when it stands on the candidate: the
records passed carry their verdict. -/
def Position.slotView (P : Position) : SlotContent :=
  rejected P.scanned ++ P.current :: P.others

/-- The container as the scan finds it when it stands on the candidate. -/
def Position.view (P : Position) : Container :=
  rejectedSlots P.before ++ (P.slotId, P.slotView) :: P.after

/-- The places of the records of one slot, in arrival order. -/
def slotPositions (before : Container) (slotId : Nat) (after : Container) :
    SlotContent → SlotContent → List Position
  | _, [] => []
  | scanned, p :: others =>
    { before := before, slotId := slotId, scanned := scanned, current := p, others := others,
      after := after } :: slotPositions before slotId after (scanned ++ [p]) others

/-- The places of the records of the entries from some entry on, entry by entry. -/
def positionsFrom : Container → Container → List Position
  | _, [] => []
  | before, (slotId, slotContent) :: after =>
    slotPositions before slotId after [] slotContent ++
      positionsFrom (before ++ [(slotId, slotContent)]) after

/-- The candidates of a container in the order of the scan: slots in the order of the
container (ascending slot id), the records of a slot in arrival order. -/
def positions (cont : Container) : List Position := positionsFrom [] cont

/-- The verdict of the link results on the combined SINR of the candidate at a position
(true: decode error), or the fatal error its integrity checks end in. -/
def verdictAt [NatCast α] [Add α] [Sub α] [Div α] (c : Carrier α) (nbSlots : Nat)
    (P : Position) : Except Fault Bool :=
  match evaluateCandidate c nbSlots P.view P.slotView P.current with
  | .error f => .error f
  | .ok ev => .ok ev.phyError

/-- The trace events of the evaluation of the candidate at a position. -/
def eventsAt [NatCast α] [Add α] [Sub α] [Div α] (c : Carrier α) (nbSlots : Nat)
    (P : Position) : List (TraceEvent α) :=
  match evaluateCandidate c nbSlots P.view P.slotView P.current with
  | .error _ => []
  | .ok ev => evaluationEvents c P.current ev

/-- The removal of the candidate at a position once the link results accepted it
(lines 181-190). -/
def commitAt (c : Carrier α) (P : Position) (combinedPacketsForFrame : List Packet)
    (trace : List (TraceEvent α)) : Except Fault (State α) :=
  commitDecoded c (rejectedSlots P.before) P.slotId (rejected P.scanned ++ P.others) P.after
    (P.current.setPhyError false) combinedPacketsForFrame trace

/-- The trace events of the evaluations of the candidates at a list of positions. -/
def eventsOf [NatCast α] [Add α] [Sub α] [Div α] (c : Carrier α) (nbSlots : Nat) :
    List Position → List (TraceEvent α)
  | [] => []
  | P :: others => eventsAt c nbSlots P ++ eventsOf c nbSlots others

/-- What the scan does at the first candidate that is not rejected: it ends in the fatal
error of the integrity checks of the candidate, or it removes the accepted candidate. -/
def stopAt [NatCast α] [Add α] [Sub α] [Div α] (c : Carrier α) (nbSlots : Nat)
    (combinedPacketsForFrame : List Packet) (trace : List (TraceEvent α)) (P : Position) :
    Except Fault (State α) :=
  match verdictAt c nbSlots P with
  | .error f => .error f
  | .ok _ => commitAt c P combinedPacketsForFrame (trace ++ eventsAt c nbSlots P)

/-- The value `PerformMarsala` returns when its scan stops at a position: the fatal error,
or true with the state the removal left. -/
def stopResult (r : Except Fault (State α)) : Except Fault (Bool × State α) :=
  match r with
  | .error f => .error f
  | .ok st => .ok (true, st)

/-! ## `SatPhyRxCarrierMarsala::PerformSicCycles` -/

/-- The statement `do { body } while (condition)`, with a bound on the number of rounds. -/
def doWhile (body : σ → Outcome σ) (condition : σ → Except Fault (Bool × σ)) :
    Nat → σ → Outcome σ
  | 0, _ => Outcome.outOfFuel
  | fuel + 1, s =>
    match body s with
    | Outcome.outOfFuel => Outcome.outOfFuel
    | Outcome.fatal f => Outcome.fatal f
    | Outcome.done s1 =>
      match condition s1 with
      | .error f => Outcome.fatal f
      | .ok (true, s2) => doWhile body condition fuel s2
      | .ok (false, s2) => Outcome.done s2

/-- Function `SatPhyRxCarrierMarsala::PerformSicCycles` (lines 63-74):
`do { SatPhyRxCarrierPerFrame::PerformSicCycles (..); } while (PerformMarsala (..));`.
The bound `fuel` limits the rounds of this loop and of the loop of the base class. -/
def PerformSicCycles [NatCast α] [Add α] [Sub α] [Div α] (c : Carrier α) (fuel : Nat)
    (st : State α) : Outcome (State α) :=
  doWhile (SatPhyRxCarrierPerFrame.PerformSicCycles c fuel) (PerformMarsala c) fuel st

/-! ## Assumptions on the replica relation and the replica consistency of a frame -/

/-- The replica relation does not read the decode-error flag of the records it compares. -/
def FlagBlind (c : Carrier α) : Prop :=
  ∀ (p q : Packet) (b1 b2 : Bool),
    c.IsReplica (p.setPhyError b1) (q.setPhyError b2) = c.IsReplica p q

/-- The container with the decode-error flag of every record cleared. -/
def unflagged (cont : Container) : Container :=
  cont.map (fun e => (e.1, e.2.map (fun p => p.setPhyError false)))

/-! ## Example carrier and frames -/

/-- Whether two records declare the same set of slots (own slot and sibling slots). -/
def sameSlotIds (p q : Packet) : Bool :=
  (p.ownSlotId :: p.slotIdsForOtherReplicas).all
      (fun s => (q.ownSlotId :: q.slotIdsForOtherReplicas).contains s) &&
    (q.ownSlotId :: q.slotIdsForOtherReplicas).all
      (fun s => (p.ownSlotId :: p.slotIdsForOtherReplicas).contains s)

/-- An example carrier over the rationals: two records are replicas when they have the same
source address and declare the same slots; the composite SINR of a record is a tenth of the
number held under `rxParams`; the link results report a decode error below the threshold
one half. -/
def exampleCarrier : Carrier ℚ where
  IsReplica p q := p.sourceAddress == q.sourceAddress && sameSlotIds p q
  CalculatePacketCompositeSinr _ p := (p.rxParams : ℚ) / 10
  CheckAgainstLinkResults v _ := decide (v < 1 / 2)
  LinearToDb x := x

/-- An example record that is not yet decoded. -/
def exampleRecord (sourceAddress sinrTenths ownSlotId : Nat) (others : List Nat) : Packet :=
  { rxParams := sinrTenths, sourceAddress := sourceAddress, ownSlotId := ownSlotId,
    slotIdsForOtherReplicas := others, phyError := false }

/-- A frame with a weak packet of two replicas (source 7) and two strong packets of one
replica (sources 8 and 9). -/
def exampleFrame : Container :=
  [(1, [exampleRecord 7 2 1 [2]]),
   (2, [exampleRecord 7 2 2 [1], exampleRecord 8 20 2 []]),
   (3, [exampleRecord 9 20 3 []])]

/-! ## The calls made by `SatPhyRxCarrierMarsala::PerformSicCycles` -/

/-- A completed call made by the loop of `PerformSicCycles`: of the SIC cycles of the base
class, or of `PerformMarsala` together with the value it returned. -/
inductive Call where
  | sicCycles
  | marsala (success : Bool)
  deriving DecidableEq, Repr

/-- The body of the loop, keeping a log of the completed calls beside the state. -/
def loggedBody (body : σ → Outcome σ) : σ × List Call → Outcome (σ × List Call)
  | (s, log) =>
    match body s with
    | Outcome.outOfFuel => Outcome.outOfFuel
    | Outcome.fatal f => Outcome.fatal f
    | Outcome.done s1 => Outcome.done (s1, log ++ [Call.sicCycles])

/-- The condition of the loop, keeping a log of the completed calls beside the state. -/
def loggedCondition (condition : σ → Except Fault (Bool × σ)) :
    σ × List Call → Except Fault (Bool × (σ × List Call))
  | (s, log) =>
    match condition s with
    | .error f => .error f
    | .ok (b, s1) => .ok (b, (s1, log ++ [Call.marsala b]))

/-- The calls of a run in which `k` correlation passes succeed: `k` times the SIC cycles
followed by a successful correlation pass, then the SIC cycles and a correlation pass
without success. -/
def alternation : Nat → List Call
  | 0 => [Call.sicCycles, Call.marsala false]
  | k + 1 => Call.sicCycles :: Call.marsala true :: alternation k

/-- The frame of scenario 3: one packet (source 7) with three replicas in the slots 1, 2
and 3, each with the composite SINR one fifth. -/
def threeReplicasFrame : Container :=
  [(1, [exampleRecord 7 2 1 [2, 3]]),
   (2, [exampleRecord 7 2 2 [1, 3]]),
   (3, [exampleRecord 7 2 3 [1, 2]])]

/-- Every record carries, as its own slot id, the id of the slot that holds it. -/
def OwnSlotIsHome (cont : Container) : Prop :=
  ∀ e ∈ cont, ∀ p ∈ e.2, p.ownSlotId = e.1

/-- The replicas of one packet declare the same slots: a slot id declared as a sibling by a
replica is a sibling slot id or the own slot id of every other replica. -/
def ReplicasDeclareSameSlots (c : Carrier α) : Prop :=
  ∀ q r : Packet, c.IsReplica q r = true →
    ∀ x ∈ r.slotIdsForOtherReplicas, x ∈ q.slotIdsForOtherReplicas ∨ x = q.ownSlotId

/-- Some record of the container declares the sibling slot id `x`, and `x` is not the id of
a slot of the container. -/
def DeclaresAbsentSlot (x : Nat) (cont : Container) : Prop :=
  cont.find x = none ∧ ∃ e ∈ cont, ∃ r ∈ e.2, x ∈ r.slotIdsForOtherReplicas

/-- The first container holds, slot by slot, only records that the second one holds in a
slot of the same id. -/
def SubContainer (cont1 cont : Container) : Prop :=
  ∀ e1 ∈ cont1, ∃ e ∈ cont, e1.1 = e.1 ∧ ∀ p ∈ e1.2, p ∈ e.2

/-- The replica relation relates the records of one logical packet: it is reflexive,
symmetric and transitive, and it does not read the decode-error flag. -/
structure ReplicaEquivalence (c : Carrier α) : Prop where
  refl : ∀ p, c.IsReplica p p = true
  symm : ∀ p q, c.IsReplica p q = true → c.IsReplica q p = true
  trans : ∀ p q r, c.IsReplica p q = true → c.IsReplica q r = true → c.IsReplica p r = true
  flagBlind : FlagBlind c

/-- Invariant A (replica consistency) of a frame, which is a map (slot ids in strictly
ascending order): for every record, each slot of the frame holds exactly one replica of it
when it is its home slot or one of its declared sibling slots, and none otherwise; the
declared sibling slot ids are distinct, differ from the home slot and are slots of the
frame. So the records of a logical packet sit in exactly `1 + |sibling slot ids|` slots. -/
structure InvariantA (c : Carrier α) (cont : Container) : Prop where
  ascending : cont.keys.Pairwise (fun a b => a < b)
  placed : ∀ e ∈ cont, ∀ p ∈ e.2, ∀ e2 ∈ cont,
    e2.2.countP (c.IsReplica p) =
      if e2.1 = e.1 ∨ e2.1 ∈ p.slotIdsForOtherReplicas then 1 else 0
  declared : ∀ e ∈ cont, ∀ p ∈ e.2,
    p.slotIdsForOtherReplicas.Nodup ∧ e.1 ∉ p.slotIdsForOtherReplicas ∧
      ∀ x ∈ p.slotIdsForOtherReplicas, x ∈ cont.keys

/-- What the frame decode keeps true from pass to pass on a frame that satisfies
Invariant A, `start` being the records of the frame when the decode starts: the container
satisfies Invariant A; no record of the container is a replica of a decoded record; no two
decoded records are replicas of each other; every decoded record and every record of the
container is a replica of a record of the start. -/
structure DecodeInvariant (c : Carrier α) (start : List Packet) (st : State α) : Prop where
  consistent : InvariantA c st.container
  removed : ∀ d ∈ st.combinedPacketsForFrame, ∀ e ∈ st.container, ∀ r ∈ e.2,
    c.IsReplica d r = false
  distinct : st.combinedPacketsForFrame.Pairwise (fun a b => c.IsReplica a b = false)
  decodedFrom : ∀ d ∈ st.combinedPacketsForFrame, ∃ r0 ∈ start, c.IsReplica r0 d = true
  recordsFrom : ∀ e ∈ st.container, ∀ r ∈ e.2, ∃ r0 ∈ start, c.IsReplica r0 r = true

/-- The container once the replicas of a packet have been taken out of the slots with the
given ids, a slot being dropped when nothing is left in it. -/
def withoutReplicas (c : Carrier α) (p : Packet) (slotIds : List Nat) : Container → Container
  | [] => []
  | e :: rest =>
    (if e.1 ∈ slotIds then
      EliminateInterference (e.1, e.2.filter (fun r => !c.IsReplica p r)) p
    else [e]) ++ withoutReplicas c p slotIds rest

/-- The records of a container, slot after slot. -/
def allRecords : Container → List Packet
  | [] => []
  | e :: rest => e.2 ++ allRecords rest

/-- One record for each logical packet among the given records. -/
def representatives (c : Carrier α) : List Packet → List Packet
  | [] => []
  | p :: rest =>
    if (representatives c rest).any (fun r => c.IsReplica r p) then representatives c rest
    else p :: representatives c rest

/-- The number of distinct logical packets present in a container. -/
def distinctPackets (c : Carrier α) (cont : Container) : Nat :=
  (representatives c (allRecords cont)).length

/-- A frame that breaks Invariant A: its only slot holds two records of one logical
packet. -/
def duplicateFrame : Container :=
  [(1, [exampleRecord 7 20 1 [], exampleRecord 7 20 1 []])]

/-- A frame whose only record declares the sibling slot 9, which is not a slot of the
frame. -/
def orphanFrame : Container :=
  [(1, [exampleRecord 7 2 1 [9]])]

/-- A frame in which the record of slot 1 declares the sibling slot 2, which holds a record
of another packet only. -/
def mismatchFrame : Container :=
  [(1, [exampleRecord 7 2 1 [2]]),
   (2, [exampleRecord 8 20 2 []])]

/-- A frame with a weak packet of two replicas, which the correlation pass rejects. -/
def weakFrame : Container :=
  [(1, [exampleRecord 7 2 1 [2]]),
   (2, [exampleRecord 7 2 2 [1]])]


/-! ## The correlation pass with another value reported as the counter

To state that the correlation counter is no control input, the loops of `PerformMarsala`
are repeated here with one change: the value handed to the trace source as the counter is
`counter currentPacket`, for an arbitrary function `counter`, instead of the product of
lines 170-174. With the counter of the code the loops below are those of the code. -/

/-- The counter of the code (lines 147 and 170-174) as a function of the candidate, for a
frame of `nbSlots` slots. -/
def sourceCounter (nbSlots : Nat) (currentPacket : Packet) : Nat :=
  correlationsOf nbSlots (u32 currentPacket.slotIdsForOtherReplicas.length)

/-- Lines 126-175 with `counter currentPacket` in the place of the counter; every other
value is the one `evaluateCandidate` computes. -/
def evaluateCandidateWith [NatCast α] [Add α] [Sub α] [Div α] (counter : Packet → Nat)
    (c : Carrier α) (cont : Container) (slotContent : SlotContent) (currentPacket : Packet) :
    Except Fault (Evaluation α) :=
  match countPacketsInReplicaSlots c cont currentPacket currentPacket.slotIdsForOtherReplicas
      (u32 slotContent.length) with
  | .error f => .error f
  | .ok packetsInSlotsCount =>
    let otherReplicasCount := u32 currentPacket.slotIdsForOtherReplicas.length
    let replicasCount := u32 (1 + otherReplicasCount)
    let sinr := c.CalculatePacketCompositeSinr cont currentPacket
    let correlatedSinr := correlatedSinrOf packetsInSlotsCount replicasCount sinr
    .ok { packetsInSlotsCount := packetsInSlotsCount
          replicasCount := replicasCount
          sinr := sinr
          correlatedSinr := correlatedSinr
          phyError := c.CheckAgainstLinkResults correlatedSinr currentPacket.rxParams
          correlations := counter currentPacket }

/-- The inner loop of `PerformMarsala` (lines 121-192) with `counter currentPacket` in the
place of the counter. -/
def scanSlotWith [NatCast α] [Add α] [Sub α] [Div α] (counter : Packet → Nat) (c : Carrier α)
    (before : Container) (slotId : Nat) (after : Container)
    (combinedPacketsForFrame : List Packet) :
    SlotContent → List (TraceEvent α) → SlotContent → Except Fault (SlotScan α)
  | scanned, trace, [] => .ok (SlotScan.next scanned trace)
  | scanned, trace, currentPacket :: others =>
    let slotContent := scanned ++ currentPacket :: others
    match evaluateCandidateWith counter c (before ++ (slotId, slotContent) :: after) slotContent
        currentPacket with
    | .error f => .error f
    | .ok ev =>
      let trace1 := trace ++ evaluationEvents c currentPacket ev
      if ev.phyError then
        scanSlotWith counter c before slotId after combinedPacketsForFrame
          (scanned ++ [currentPacket.setPhyError true]) trace1 others
      else
        match commitDecoded c before slotId (scanned ++ others) after
            (currentPacket.setPhyError false) combinedPacketsForFrame trace1 with
        | .error f => .error f
        | .ok st => .ok (SlotScan.decoded st)

/-- The outer loop of `PerformMarsala` (lines 110-193) with `counter currentPacket` in the
place of the counter. -/
def scanContainerWith [NatCast α] [Add α] [Sub α] [Div α] (counter : Packet → Nat)
    (c : Carrier α) (combinedPacketsForFrame : List Packet) :
    Container → List (TraceEvent α) → Container → Except Fault (Bool × State α)
  | before, trace, [] =>
    .ok (false, { container := before
                  combinedPacketsForFrame := combinedPacketsForFrame
                  trace := trace })
  | before, trace, (slotId, slotContent) :: after =>
    if slotContent.length < 1 then .error Fault.noPacketInSlot
    else
      match scanSlotWith counter c before slotId after combinedPacketsForFrame [] trace
          slotContent with
      | .error f => .error f
      | .ok (SlotScan.decoded st) => .ok (true, st)
      | .ok (SlotScan.next slotContent1 trace1) =>
        scanContainerWith counter c combinedPacketsForFrame (before ++ [(slotId, slotContent1)])
          trace1 after

/-- Function `PerformMarsala` with `counter currentPacket` in the place of the counter. -/
def PerformMarsalaWith [NatCast α] [Add α] [Sub α] [Div α] (counter : Packet → Nat)
    (c : Carrier α) (st : State α) : Except Fault (Bool × State α) :=
  scanContainerWith counter c st.combinedPacketsForFrame [] st.trace st.container

/-- A trace event without the value of the correlation counter. -/
def eraseCounter : TraceEvent α → TraceEvent α
  | TraceEvent.linkSinr sinrDb => TraceEvent.linkSinr sinrDb
  | TraceEvent.marsalaCorrelationRx _ sourceAddress phyError =>
    TraceEvent.marsalaCorrelationRx 0 sourceAddress phyError

/-- What a call of the correlation pass decides and leaves: the fatal error, or the value
returned, the container, the decoded output, and the trace without the values of the
counter. -/
def decodingOf (r : Except Fault (Bool × State α)) :
    Except Fault (Bool × Container × List Packet × List (TraceEvent α)) :=
  match r with
  | .error f => .error f
  | .ok (b, s) => .ok (b, s.container, s.combinedPacketsForFrame, s.trace.map eraseCounter)

end SatPhyRxCarrierMarsala

/-!
# SatQueue: the packet queue of `src/model/satellite-queue.cc`

* `std::queue<Ptr<Packet>> m_packets` is the list of the queued packets, the front first.
* The `uint32_t` members are naturals reduced modulo `2^32` where the code does arithmetic
  on them (the header that declares them is not part of the sources; `m_maxPackets` and
  `m_maxBytes` are `uint32_t` by their attribute checkers, and the byte counters are taken
  to be `uint32_t` as well).
* A null `Ptr<Packet>` returned by `DoDequeue` and `DoPeek` is `none`.
* `Queue::Drop` of the base class and the event callbacks are calls to code outside the
  sources: the state keeps a log of the packets handed to `Drop` and of the calls made to
  the callbacks.
-/

namespace SatQueue

/-- Conversion to `uint32_t`. -/
def u32 (n : Nat) : Nat := n % 4294967296

/-- A packet behind a non-null `Ptr<Packet>`: an identity and its size in bytes. -/
structure Packet where
  uid : Nat
  size : Nat
  deriving DecidableEq, Repr

/-- Call `p->GetSize ()`, a `uint32_t`. -/
def Packet.GetSize (p : Packet) : Nat := u32 p.size

/-- Enumeration `SatQueue::QueueMode`. -/
inductive QueueMode where
  | QUEUE_MODE_PACKETS
  | QUEUE_MODE_BYTES
  deriving DecidableEq, Repr

/-- Enumeration `SatQueue::QueueEvent_t`, the events of the code shown. -/
inductive QueueEvent_t where
  | FIRST_BUFFERED_PKT
  | BUFFER_EMPTY
  deriving DecidableEq, Repr

/-- The members of a `SatQueue` the code shown reads or writes. A callback of
`m_queueEventCallbacks` is `none` when it is null, else it has an identity; `calls` logs
the calls made to the callbacks and `dropped` the packets handed to `Queue::Drop`. -/
structure State where
  m_packets : List Packet
  m_maxPackets : Nat
  m_maxBytes : Nat
  m_bytesInQueue : Nat
  m_mode : QueueMode
  m_enquedBytesSinceReset : Nat
  m_dequedBytesSinceReset : Nat
  m_queueEventCallbacks : List (Option Nat)
  calls : List (Nat × QueueEvent_t)
  dropped : List Packet
  deriving DecidableEq, Repr

/-- Function `SatQueue::SendEvent` (lines 239-251): every callback that is not null is
called with the event. -/
def SendEvent (q : State) (event : QueueEvent_t) : State :=
  { q with calls := q.calls ++
      q.m_queueEventCallbacks.filterMap (fun cb => cb.map (fun id => (id, event))) }

/-- Call `Drop (p)` of the base class `Queue`. -/
def Drop (q : State) (p : Packet) : State :=
  { q with dropped := q.dropped ++ [p] }

/-- Function `SatQueue::DoEnqueue` (lines 108-142). -/
def DoEnqueue (q : State) (p : Packet) : Bool × State :=
  if q.m_mode = QueueMode.QUEUE_MODE_PACKETS ∧ q.m_packets.length ≥ q.m_maxPackets then
    (false, Drop q p)
  else if q.m_mode = QueueMode.QUEUE_MODE_BYTES ∧
      u32 (q.m_bytesInQueue + p.GetSize) ≥ q.m_maxBytes then
    (false, Drop q p)
  else
    let q1 := if q.m_packets.isEmpty then SendEvent q QueueEvent_t.FIRST_BUFFERED_PKT else q
    (true, { q1 with
      m_bytesInQueue := u32 (q1.m_bytesInQueue + p.GetSize)
      m_packets := q1.m_packets ++ [p]
      m_enquedBytesSinceReset := u32 (q1.m_enquedBytesSinceReset + p.GetSize) })

/-- Function `SatQueue::DoDequeue` (lines 144-173). -/
def DoDequeue (q : State) : Option Packet × State :=
  match q.m_packets with
  | [] => (none, q)
  | p :: rest =>
    let q1 : State := { q with
      m_packets := rest
      m_bytesInQueue := u32 (q.m_bytesInQueue + 4294967296 - p.GetSize)
      m_dequedBytesSinceReset := u32 (q.m_dequedBytesSinceReset + p.GetSize) }
    (some p, if rest.isEmpty then SendEvent q1 QueueEvent_t.BUFFER_EMPTY else q1)

/-- Function `SatQueue::DoPeek` (lines 175-192), a `const` member function. -/
def DoPeek (q : State) : Option Packet :=
  match q.m_packets with
  | [] => none
  | p :: _ => some p

/-! ## Sequences of calls -/

/-- A call of `DoEnqueue` or of `DoDequeue`. -/
inductive Operation where
  | enqueue (p : Packet)
  | dequeue
  deriving DecidableEq, Repr

/-- A queue together with the packets its `DoEnqueue` calls accepted and the packets its
`DoDequeue` calls returned so far, both in order. -/
structure History where
  queue : State
  accepted : List Packet
  dequeued : List Packet

/-- One call, recorded in the history. -/
def History.step (h : History) : Operation → History
  | Operation.enqueue p =>
    let r := DoEnqueue h.queue p
    { queue := r.2
      accepted := if r.1 then h.accepted ++ [p] else h.accepted
      dequeued := h.dequeued }
  | Operation.dequeue =>
    let r := DoDequeue h.queue
    { queue := r.2
      accepted := h.accepted
      dequeued := match r.1 with
        | none => h.dequeued
        | some p => h.dequeued ++ [p] }

/-- A sequence of calls on a queue, from an empty history. -/
def run (q : State) (operations : List Operation) : History :=
  operations.foldl History.step { queue := q, accepted := [], dequeued := [] }

/-- A queue as the constructor and the attributes leave it: no packet, no byte counted. -/
def emptyQueue (mode : QueueMode) (maxPackets maxBytes : Nat) : State :=
  { m_packets := [], m_maxPackets := maxPackets, m_maxBytes := maxBytes, m_bytesInQueue := 0,
    m_mode := mode, m_enquedBytesSinceReset := 0, m_dequedBytesSinceReset := 0,
    m_queueEventCallbacks := [], calls := [], dropped := [] }

end SatQueue

/-!
# SatChannel: `StartTx` and `ScheduleRx` of `src/model/satellite-channel.cc`

* `Simulator::ScheduleWithContext` is a call to the simulator: `StartTx` returns the list
  of the receptions it scheduled, in the order of the calls.
* `NS_FATAL_ERROR` ends the program: `StartTx` returns `Except Fault _`.
* `Time` values are integers (a number of time steps).
-/

namespace SatChannel

/-- Class `Mac48Address` of the library: the value of the address, and what its member
functions `IsBroadcast ()` and `IsGroup ()` answer. -/
structure Mac48Address where
  value : Nat
  IsBroadcast : Bool
  IsGroup : Bool
  deriving DecidableEq, Repr

/-- Class `SatMacTag`: the addresses the tag of a packet carries. -/
structure SatMacTag where
  destAddress : Mac48Address
  sourceAddress : Mac48Address
  deriving DecidableEq, Repr

/-- A packet of a burst: its MAC tag, `none` when `PeekPacketTag` finds none. -/
structure Packet where
  uid : Nat
  macTag : Option SatMacTag
  deriving DecidableEq, Repr

/-- Enumeration `SatChannel::SatChannelFwdMode_e`, the values of `m_rxMode`; `unsupported`
stands for any value that is none of the three. -/
inductive RxMode where
  | ONLY_DEST_NODE
  | ONLY_DEST_BEAM
  | ALL_BEAMS
  | unsupported
  deriving DecidableEq, Repr

/-- Enumeration `SatEnums::ChannelType_t`. -/
inductive ChannelType_t where
  | UNKNOWN_CH
  | FORWARD_FEEDER_CH
  | FORWARD_USER_CH
  | RETURN_USER_CH
  | RETURN_FEEDER_CH
  deriving DecidableEq, Repr

/-- A receiver `Ptr<SatPhyRx>`: what `GetBeamId ()`, `GetAddress ()`, `GetMobility ()` and
`GetDevice ()->GetNode ()->GetId ()` return. -/
structure SatPhyRx where
  beamId : Nat
  address : Mac48Address
  mobility : Nat
  nodeId : Nat
  deriving DecidableEq, Repr

/-- The fields of `SatSignalParameters` that `StartTx` and `ScheduleRx` read: `m_phyTx` is
`none` for a null pointer, else the mobility model of the transmitter. -/
structure SatSignalParameters where
  m_phyTx : Option Nat
  m_beamId : Nat
  m_packetsInBurst : List Packet
  m_duration : Int
  deriving DecidableEq, Repr

/-- The members of a `SatChannel` that `StartTx` and `ScheduleRx` read: `m_propagationDelay`
is `none` for a null pointer, else the function `GetDelay` of the model, from the mobility
models of the sender and of the receiver. -/
structure Channel where
  m_rxMode : RxMode
  m_phyList : List SatPhyRx
  m_channelType : ChannelType_t
  m_propagationDelay : Option (Nat → Nat → Int)

/-- The messages of the `NS_FATAL_ERROR` calls of `StartTx`, and its assertion. -/
inductive Fault where
  /-- Assertion `NS_ASSERT_MSG (txParams->m_phyTx, "NULL phyTx")` (line 147). -/
  | nullPhyTx
  /-- Message "MAC tag was not found from the packet!" (line 189). -/
  | macTagNotFound
  /-- Message "Unsupported channel type!" (line 208). -/
  | unsupportedChannelType
  /-- Message "Unsupported SatChannel RxMode!" (line 253). -/
  | unsupportedRxMode
  deriving DecidableEq, Repr

/-- A call `Simulator::ScheduleWithContext (dstNode, delay, &SatChannel::StartRx, this,
rxParams, receiver)`; `rxParams` is the copy of the signal parameters. -/
structure ScheduledRx where
  context : Nat
  delay : Int
  rxParams : SatSignalParameters
  receiver : SatPhyRx
  deriving DecidableEq, Repr

/-- The delay `ScheduleRx` computes (lines 264-303) for a transmission of the given
duration, between the mobility models of the sender and of the receiver. -/
def rxDelay (ch : Channel) (senderMobility receiverMobility : Nat) (duration : Int) : Int :=
  match ch.m_propagationDelay with
  | none => 0
  | some GetDelay =>
    let delay := GetDelay senderMobility receiverMobility
    match ch.m_channelType with
    | ChannelType_t.RETURN_FEEDER_CH | ChannelType_t.FORWARD_USER_CH =>
      if delay > duration then delay - duration else 0
    | _ => delay

/-- Function `SatChannel::ScheduleRx` (lines 259-308); `senderMobility` is
`txParams->m_phyTx->GetMobility ()`. -/
def ScheduleRx (ch : Channel) (txParams : SatSignalParameters) (senderMobility : Nat)
    (receiver : SatPhyRx) : ScheduledRx :=
  { context := receiver.nodeId
    delay := rxDelay ch senderMobility receiver.mobility txParams.m_duration
    rxParams := txParams
    receiver := receiver }

/-- The condition of line 195: the destination is the address of the receiver, or a
broadcast or group address. -/
def isForReceiver (dest : Mac48Address) (receiver : SatPhyRx) : Bool :=
  dest == receiver.address || dest.IsBroadcast || dest.IsGroup

/-- The loop over the packets of the burst (lines 182-203): true when it ends in a call of
`ScheduleRx` (and the `break`), false when it reaches the end of the burst. -/
def packetLoop (receiver : SatPhyRx) : List Packet → Except Fault Bool
  | [] => .ok false
  | packet :: others =>
    match packet.macTag with
    | none => .error Fault.macTagNotFound
    | some macTag =>
      if isForReceiver macTag.destAddress receiver then .ok true
      else packetLoop receiver others

/-- The loop over the receivers in the mode `ONLY_DEST_NODE` (lines 160-213); `scheduled`
are the receptions scheduled so far. -/
def destNodeLoop (ch : Channel) (txParams : SatSignalParameters) (senderMobility : Nat) :
    List SatPhyRx → List ScheduledRx → Except Fault (List ScheduledRx)
  | [], scheduled => .ok scheduled
  | receiver :: others, scheduled =>
    if receiver.beamId = txParams.m_beamId then
      match ch.m_channelType with
      | ChannelType_t.FORWARD_FEEDER_CH | ChannelType_t.RETURN_USER_CH =>
        destNodeLoop ch txParams senderMobility others
          (scheduled ++ [ScheduleRx ch txParams senderMobility receiver])
      | ChannelType_t.FORWARD_USER_CH | ChannelType_t.RETURN_FEEDER_CH =>
        match packetLoop receiver txParams.m_packetsInBurst with
        | .error f => .error f
        | .ok true =>
          destNodeLoop ch txParams senderMobility others
            (scheduled ++ [ScheduleRx ch txParams senderMobility receiver])
        | .ok false => destNodeLoop ch txParams senderMobility others scheduled
      | ChannelType_t.UNKNOWN_CH => .error Fault.unsupportedChannelType
    else destNodeLoop ch txParams senderMobility others scheduled

/-- The loop over the receivers in the mode `ONLY_DEST_BEAM` (lines 223-232). -/
def destBeamLoop (ch : Channel) (txParams : SatSignalParameters) (senderMobility : Nat) :
    List SatPhyRx → List ScheduledRx → List ScheduledRx
  | [], scheduled => scheduled
  | receiver :: others, scheduled =>
    if receiver.beamId = txParams.m_beamId then
      destBeamLoop ch txParams senderMobility others
        (scheduled ++ [ScheduleRx ch txParams senderMobility receiver])
    else destBeamLoop ch txParams senderMobility others scheduled

/-- The loop over the receivers in the mode `ALL_BEAMS` (lines 243-248). -/
def allBeamsLoop (ch : Channel) (txParams : SatSignalParameters) (senderMobility : Nat) :
    List SatPhyRx → List ScheduledRx → List ScheduledRx
  | [], scheduled => scheduled
  | receiver :: others, scheduled =>
    allBeamsLoop ch txParams senderMobility others
      (scheduled ++ [ScheduleRx ch txParams senderMobility receiver])

/-- Function `SatChannel::StartTx` (lines 143-257): the receptions it schedules, in the
order of the calls of `ScheduleRx`. -/
def StartTx (ch : Channel) (txParams : SatSignalParameters) : Except Fault (List ScheduledRx) :=
  match txParams.m_phyTx with
  | none => .error Fault.nullPhyTx
  | some senderMobility =>
    match ch.m_rxMode with
    | RxMode.ONLY_DEST_NODE => destNodeLoop ch txParams senderMobility ch.m_phyList []
    | RxMode.ONLY_DEST_BEAM => .ok (destBeamLoop ch txParams senderMobility ch.m_phyList [])
    | RxMode.ALL_BEAMS => .ok (allBeamsLoop ch txParams senderMobility ch.m_phyList [])
    | RxMode.unsupported => .error Fault.unsupportedRxMode

/-- Whether some packet of the burst carries a MAC tag whose destination is the address of
the receiver, or a broadcast or group address. -/
def addressedTo (txParams : SatSignalParameters) (receiver : SatPhyRx) : Bool :=
  txParams.m_packetsInBurst.any (fun packet =>
    match packet.macTag with
    | none => false
    | some macTag => isForReceiver macTag.destAddress receiver)

/-! ## Example channel -/

/-- A unicast address. -/
def unicast (value : Nat) : Mac48Address :=
  { value := value, IsBroadcast := false, IsGroup := false }

/-- A receiver of the examples: the address and the node id are its number. -/
def exampleRx (number beamId : Nat) : SatPhyRx :=
  { beamId := beamId, address := unicast number, mobility := number, nodeId := number }

/-- A packet of the examples with a MAC tag for the receiver of the given number. -/
def packetFor (uid number : Nat) : Packet :=
  { uid := uid, macTag := some { destAddress := unicast number, sourceAddress := unicast 0 } }

/-- A channel of the examples with three receivers, two of them in beam 1, and the
propagation delay 10. -/
def exampleChannel (rxMode : RxMode) (channelType : ChannelType_t) : Channel :=
  { m_rxMode := rxMode
    m_phyList := [exampleRx 1 1, exampleRx 2 2, exampleRx 3 1]
    m_channelType := channelType
    m_propagationDelay := some (fun _ _ => 10) }

/-- A transmission of the examples in beam 1, of duration 4. -/
def exampleTx (packets : List Packet) : SatSignalParameters :=
  { m_phyTx := some 0, m_beamId := 1, m_packetsInBurst := packets, m_duration := 4 }

end SatChannel

/-!
# SatConf: `Configure` of `src/helper/satellite-conf.cc`

* `double` values are elements of a type `α` with the conversion from the integers and
  the division; the comparisons `!=` and `>` of the code are operations that come with the
  type (`Comparison α`): nothing is assumed of them, so that a value may differ from
  itself, as the NaN of `double` does.
* `NS_FATAL_ERROR` ends the program: `Configure` returns `Except Fault _`.
* The classes `SatFwdCarrierConf`, `SatWaveformConf`, `SatSuperframeConf` and
  `SatSuperframeSeq` are not part of the sources: their objects are records of the
  arguments they were created and configured with.
-/

namespace SatConf

/-- Conversion to `uint32_t`. -/
def u32 (n : Nat) : Nat := n % 4294967296

/-- An object `SatFwdCarrierConf`, created from the allocated bandwidth, the roll-off factor
and the spacing factor. -/
structure SatFwdCarrierConf (α : Type) where
  allocatedBandwidthHz : α
  rollOffFactor : α
  spacingFactor : α
  deriving Repr

/-- An object `SatSuperframeConf`: the configuration it was created for
(`CreateSuperframeConf`) and the bandwidth `Configure` was called with. -/
structure SatSuperframeConf (α : Type) where
  configuration : Nat
  bandwidthHz : α
  waveformConf : String
  deriving Repr

/-- An object `SatSuperframeSeq`: the waveform configurations and the superframes added to
it, in order. -/
structure SatSuperframeSeq (α : Type) where
  waveformConfs : List String
  superframes : List (SatSuperframeConf α)
  deriving Repr

/-- The members of a `SatConf` that `Configure` reads or writes. -/
structure State (α : Type) where
  m_fwdFeederLinkBandwidthHz : α
  m_fwdUserLinkBandwidthHz : α
  m_rtnFeederLinkBandwidthHz : α
  m_rtnUserLinkBandwidthHz : α
  m_userLinkChannelCount : Nat
  m_feederLinkChannelCount : Nat
  m_SuperFrameConfForSeq0 : Nat
  m_fwdCarrierAllocatedBandwidthHz : α
  m_fwdCarrierRollOffFactor : α
  m_fwdCarrierSpacingFactor : α
  m_forwardLinkCarrierConf : List (SatFwdCarrierConf α)
  m_superframeSeq : Option (SatSuperframeSeq α)
  deriving Repr

/-- The comparisons of `double` values that `Configure` makes. -/
structure Comparison (α : Type) where
  /-- Operator `!=`. -/
  ne : α → α → Bool
  /-- Operator `>`. -/
  gt : α → α → Bool

/-- The messages of the `NS_FATAL_ERROR` calls of `Configure`. -/
inductive Fault where
  /-- Message "Channel bandwidths for forward feeder and user links are not equal!!!". -/
  | fwdChannelBandwidthsNotEqual
  /-- Message "Fwd Link carrier bandwidth exceeds channel bandwidth!!!". -/
  | fwdCarrierExceedsChannel
  /-- Message "Bandwidths of return feeder and user links are not equal!!!". -/
  | rtnBandwidthsNotEqual
  deriving DecidableEq, Repr

/-- The expression `m_fwdFeederLinkBandwidthHz / m_feederLinkChannelCount` (line 159). -/
def fwdFeederLinkChannelBandwidthHz [NatCast α] [Div α] (s : State α) : α :=
  s.m_fwdFeederLinkBandwidthHz / (s.m_feederLinkChannelCount : α)

/-- The expression `m_fwdUserLinkBandwidthHz / m_userLinkChannelCount` (line 160). -/
def fwdUserLinkChannelBandwidthHz [NatCast α] [Div α] (s : State α) : α :=
  s.m_fwdUserLinkBandwidthHz / (s.m_userLinkChannelCount : α)

/-- The expression `m_rtnFeederLinkBandwidthHz / m_feederLinkChannelCount` (line 180). -/
def rtnFeederLinkBandwidthHz [NatCast α] [Div α] (s : State α) : α :=
  s.m_rtnFeederLinkBandwidthHz / (s.m_feederLinkChannelCount : α)

/-- The expression `m_rtnUserLinkBandwidthHz / m_userLinkChannelCount` (line 181). -/
def rtnUserLinkBandwidthHz [NatCast α] [Div α] (s : State α) : α :=
  s.m_rtnUserLinkBandwidthHz / (s.m_userLinkChannelCount : α)

/-- Function `SatConf::Configure` (lines 152-204). -/
def Configure [NatCast α] [Div α] (cmp : Comparison α) (s : State α) (wfConf : String) :
    Except Fault (State α) :=
  if cmp.ne (fwdFeederLinkChannelBandwidthHz s) (fwdUserLinkChannelBandwidthHz s) then
    .error Fault.fwdChannelBandwidthsNotEqual
  else if cmp.gt s.m_fwdCarrierAllocatedBandwidthHz (fwdFeederLinkChannelBandwidthHz s) then
    .error Fault.fwdCarrierExceedsChannel
  else
    let fwdCarrierConf : SatFwdCarrierConf α :=
      { allocatedBandwidthHz := s.m_fwdCarrierAllocatedBandwidthHz
        rollOffFactor := s.m_fwdCarrierRollOffFactor
        spacingFactor := s.m_fwdCarrierSpacingFactor }
    let s1 : State α :=
      { s with m_forwardLinkCarrierConf := s.m_forwardLinkCarrierConf ++ [fwdCarrierConf] }
    if cmp.ne (rtnFeederLinkBandwidthHz s1) (rtnUserLinkBandwidthHz s1) then
      .error Fault.rtnBandwidthsNotEqual
    else
      let superFrameConf : SatSuperframeConf α :=
        { configuration := s1.m_SuperFrameConfForSeq0
          bandwidthHz := rtnUserLinkBandwidthHz s1
          waveformConf := wfConf }
      let superframeSeq : SatSuperframeSeq α :=
        { waveformConfs := [wfConf], superframes := [superFrameConf] }
      .ok { s1 with m_superframeSeq := some superframeSeq }

/-- Function `SatConf::GetFwdLinkCarrierCount` (lines 446-452): the size of the container,
returned as a `uint32_t`. -/
def GetFwdLinkCarrierCount (s : State α) : Nat := u32 s.m_forwardLinkCarrierConf.length

end SatConf

/-!
# The arithmetic of the type `double`

The sources compute the combined SINR and the channel bandwidths in the type `double`.
The functions of the model take the number type as a parameter; `Binary64` is the instance
that computes as the program does: the values of IEEE 754 binary64 with the operations
rounded to the nearest value, ties to even, gradual underflow, overflow to the infinities,
signed zeros and NaN.
-/

namespace IEEE754

/-- A value of the type `double`. A finite value is `± significand * 2 ^ exponent` in the
encoding of the format, which is unique: `significand < 2 ^ 53`, `-1074 ≤ exponent ≤ 971`,
and `2 ^ 52 ≤ significand` (a normal number) unless `exponent = -1074` (a subnormal number
or a zero). -/
inductive Binary64 where
  | finite (negative : Bool) (significand : Nat) (exponent : Int)
  | infinite (negative : Bool)
  | nan
  deriving DecidableEq, Repr

/-- The number of binary digits of `n`, counted in at most `fuel` steps. -/
def bitLengthAux : Nat → Nat → Nat
  | 0, _ => 0
  | fuel + 1, n => if n = 0 then 0 else bitLengthAux fuel (n / 2) + 1

/-- The number of binary digits of `n`: `2 ^ (bitLength n - 1) ≤ n < 2 ^ bitLength n` for
`n ≠ 0`. -/
def bitLength (n : Nat) : Nat := bitLengthAux n n

/-- The value of the format nearest to `± n / d` (for `d ≠ 0`), ties to even: with `e` the
exponent of `n / d` (`2 ^ e ≤ n / d < 2 ^ (e + 1)`), the quantum is `2 ^ q` for
`q = max e (-1022) - 52`, and `n / d` is rounded to a multiple `m * 2 ^ q` of it; a
significand that reaches `2 ^ 53` is written `2 ^ 52` with the next exponent, and a result
beyond the largest finite value is an infinity. -/
def roundRatio (negative : Bool) (n d : Nat) : Binary64 :=
  if n = 0 then Binary64.finite negative 0 (-1074)
  else
    let e0 : Int := (bitLength n : Int) - (bitLength d : Int)
    let e : Int := if n * 2 ^ (-e0).toNat < d * 2 ^ e0.toNat then e0 - 1 else e0
    let q : Int := (if e < -1022 then -1022 else e) - 52
    let num := n * 2 ^ (-q).toNat
    let den := d * 2 ^ q.toNat
    let f := num / den
    let r := num % den
    let m := if 2 * r < den then f else if den < 2 * r then f + 1
      else if f % 2 = 0 then f else f + 1
    if m = 9007199254740992 then
      (if 971 < q + 1 then Binary64.infinite negative
       else Binary64.finite negative 4503599627370496 (q + 1))
    else if 971 < q then Binary64.infinite negative
    else Binary64.finite negative m q

/-- Conversion of an unsigned integer to `double`. -/
def ofNat (n : Nat) : Binary64 := roundRatio false n 1

/-- Unary minus. -/
def neg : Binary64 → Binary64
  | .finite s m q => .finite (!s) m q
  | .infinite s => .infinite (!s)
  | .nan => .nan

/-- The exponent two finite values are aligned to: the smaller of the two exponents, the
exponent of a zero not counting. -/
def alignment (ma : Nat) (qa : Int) (mb : Nat) (qb : Int) : Int :=
  if ma = 0 then qb else if mb = 0 then qa else if qa ≤ qb then qa else qb

/-- The integer `± m * 2 ^ (q - q0)`, the finite value `± m * 2 ^ q` counted in units of
`2 ^ q0`. -/
def scaled (negative : Bool) (m : Nat) (q q0 : Int) : Int :=
  if negative then -((m * 2 ^ (q - q0).toNat : Nat) : Int)
  else ((m * 2 ^ (q - q0).toNat : Nat) : Int)

/-- Operator `+`: the exact sum, rounded; an exact sum zero is `+0`, unless both terms are
`-0`. -/
def add : Binary64 → Binary64 → Binary64
  | .nan, _ => .nan
  | _, .nan => .nan
  | .infinite s, .infinite t => if s = t then .infinite s else .nan
  | .infinite s, .finite _ _ _ => .infinite s
  | .finite _ _ _, .infinite t => .infinite t
  | .finite s ma qa, .finite t mb qb =>
    let q0 : Int := alignment ma qa mb qb
    let sum : Int := scaled s ma qa q0 + scaled t mb qb q0
    if sum = 0 then .finite (s && t) 0 (-1074)
    else roundRatio (decide (sum < 0)) (sum.natAbs * 2 ^ q0.toNat) (2 ^ (-q0).toNat)

/-- Operator `-`. -/
def sub (x y : Binary64) : Binary64 := add x (neg y)

/-- Operator `*`: the exact product, rounded. -/
def mul : Binary64 → Binary64 → Binary64
  | .nan, _ => .nan
  | _, .nan => .nan
  | .infinite s, .infinite t => .infinite (xor s t)
  | .infinite s, .finite t m _ => if m = 0 then .nan else .infinite (xor s t)
  | .finite s m _, .infinite t => if m = 0 then .nan else .infinite (xor s t)
  | .finite s ma qa, .finite t mb qb =>
    roundRatio (xor s t) (ma * mb * 2 ^ (qa + qb).toNat) (2 ^ (-(qa + qb)).toNat)

/-- Operator `/`: the exact quotient, rounded; `0 / 0` is NaN and the quotient of another
finite value by a zero is an infinity. -/
def div : Binary64 → Binary64 → Binary64
  | .nan, _ => .nan
  | _, .nan => .nan
  | .infinite _, .infinite _ => .nan
  | .infinite s, .finite t _ _ => .infinite (xor s t)
  | .finite s _ _, .infinite t => .finite (xor s t) 0 (-1074)
  | .finite s ma qa, .finite t mb qb =>
    if mb = 0 then (if ma = 0 then .nan else .infinite (xor s t))
    else roundRatio (xor s t) (ma * 2 ^ (qa - qb).toNat) (mb * 2 ^ (qb - qa).toNat)

/-- Operator `<`: false when an operand is NaN. -/
def lt : Binary64 → Binary64 → Bool
  | .nan, _ => false
  | _, .nan => false
  | .infinite s, .infinite t => s && !t
  | .infinite s, .finite _ _ _ => s
  | .finite _ _ _, .infinite t => !t
  | .finite s ma qa, .finite t mb qb =>
    let q0 : Int := alignment ma qa mb qb
    decide (scaled s ma qa q0 < scaled t mb qb q0)

/-- Operator `!=`: true when an operand is NaN; the two zeros are equal. -/
def ne : Binary64 → Binary64 → Bool
  | .nan, _ => true
  | _, .nan => true
  | .infinite s, .infinite t => s != t
  | .infinite _, .finite _ _ _ => true
  | .finite _ _ _, .infinite _ => true
  | .finite s ma qa, .finite t mb qb =>
    let q0 : Int := alignment ma qa mb qb
    decide (scaled s ma qa q0 ≠ scaled t mb qb q0)

instance : NatCast Binary64 := ⟨ofNat⟩

instance : Add Binary64 := ⟨add⟩

instance : Sub Binary64 := ⟨sub⟩

instance : Mul Binary64 := ⟨mul⟩

instance : Div Binary64 := ⟨div⟩

end IEEE754

namespace SatPhyRxCarrierMarsala

open SatPhyRxCarrierPerFrame IEEE754

end SatPhyRxCarrierMarsala

namespace SatConf

open IEEE754

/-- The comparisons of the type `double`. -/
def doubleComparison : Comparison Binary64 where
  ne := IEEE754.ne
  gt a b := IEEE754.lt b a

/-- A configuration with the default values of the attributes: 2 GHz in 16 feeder channels
and 0.5 GHz in 4 user channels on both links, carriers of 0.125 GHz with the roll-off 0.20
and the spacing 0. -/
def defaultConf : State Binary64 :=
  { m_fwdFeederLinkBandwidthHz := ((2000000000 : Nat) : Binary64)
    m_fwdUserLinkBandwidthHz := ((500000000 : Nat) : Binary64)
    m_rtnFeederLinkBandwidthHz := ((2000000000 : Nat) : Binary64)
    m_rtnUserLinkBandwidthHz := ((500000000 : Nat) : Binary64)
    m_userLinkChannelCount := 4
    m_feederLinkChannelCount := 16
    m_SuperFrameConfForSeq0 := 0
    m_fwdCarrierAllocatedBandwidthHz := ((125000000 : Nat) : Binary64)
    m_fwdCarrierRollOffFactor := ((1 : Nat) : Binary64) / ((5 : Nat) : Binary64)
    m_fwdCarrierSpacingFactor := ((0 : Nat) : Binary64)
    m_forwardLinkCarrierConf := []
    m_superframeSeq := none }

/-- The members as the constructor `SatConf::SatConf` leaves them (lines 120-142): every
bandwidth and factor is 0.0 and both channel counts are 0. -/
def constructorState : State Binary64 :=
  { m_fwdFeederLinkBandwidthHz := ((0 : Nat) : Binary64)
    m_fwdUserLinkBandwidthHz := ((0 : Nat) : Binary64)
    m_rtnFeederLinkBandwidthHz := ((0 : Nat) : Binary64)
    m_rtnUserLinkBandwidthHz := ((0 : Nat) : Binary64)
    m_userLinkChannelCount := 0
    m_feederLinkChannelCount := 0
    m_SuperFrameConfForSeq0 := 0
    m_fwdCarrierAllocatedBandwidthHz := ((0 : Nat) : Binary64)
    m_fwdCarrierRollOffFactor := ((0 : Nat) : Binary64)
    m_fwdCarrierSpacingFactor := ((0 : Nat) : Binary64)
    m_forwardLinkCarrierConf := []
    m_superframeSeq := none }

end SatConf

namespace SatPhyRxCarrierMarsala

open SatPhyRxCarrierPerFrame

/-! ## The combined SINR (C1) -/

theorem u32_add_u32 (a b : Nat) : u32 (u32 a + b) = u32 (a + b) := by
  unfold u32; omega

theorem u32_of_lt {n : Nat} (h : n < 4294967296) : u32 n = n := by
  unfold u32; omega

/-- The sibling loop, when it ends without a fatal error, has added the sizes of the
slots found under the sibling slot ids. -/
theorem countPacketsInReplicaSlots_ok (c : Carrier α) (cont : Container) (p : Packet) :
    ∀ (ids : List Nat) (start n : Nat),
      countPacketsInReplicaSlots c cont p ids (u32 start) = .ok n →
      n = u32 (start + (ids.map (fun slotId => ((cont.find slotId).getD []).length)).sum) := by
  intro ids
  induction ids with
  | nil =>
    intro start n h
    simp only [countPacketsInReplicaSlots, Except.ok.injEq] at h
    simp [← h]
  | cons x xs ih =>
    intro start n h
    unfold countPacketsInReplicaSlots at h
    split at h
    · simp at h
    · rename_i replicaSlot hfind
      split at h
      · simp at h
      · simp at h
      · rw [u32_add_u32] at h
        have := ih _ _ h
        rw [this]
        simp [hfind, Nat.add_assoc]

/-- Claim C1: for every candidate that `PerformMarsala` evaluates and whose integrity checks
pass, with the counters in the range of `uint32_t`, the value submitted to the link results
is `combinedSinr = R / (interferentRatio + 1 / singleSinr)`, where `R` is one plus the number
of sibling slot ids, `occupancy` is the current size of the home slot plus the sum, in list
order, of the current sizes of the sibling slots, `interferentRatio = occupancy / R - 1` and
`singleSinr` is the composite SINR of the candidate; the verdict written to the candidate is
the one of the link results on that value. -/
theorem C1_combined_sinr_submitted [NatCast α] [Add α] [Sub α] [Div α] (c : Carrier α)
    (nbSlots : Nat) (cont : Container) (slotContent : SlotContent) (currentPacket : Packet)
    (ev : Evaluation α)
    (hcount : occupancy cont slotContent currentPacket < 4294967296)
    (hreplicas : 1 + currentPacket.slotIdsForOtherReplicas.length < 4294967296)
    (h : evaluateCandidate c nbSlots cont slotContent currentPacket = .ok ev) :
    ev.sinr = c.CalculatePacketCompositeSinr cont currentPacket ∧
    ev.correlatedSinr =
      combinedSinr (1 + currentPacket.slotIdsForOtherReplicas.length)
        (occupancy cont slotContent currentPacket) ev.sinr ∧
    ev.phyError = c.CheckAgainstLinkResults
      (combinedSinr (1 + currentPacket.slotIdsForOtherReplicas.length)
        (occupancy cont slotContent currentPacket)
        (c.CalculatePacketCompositeSinr cont currentPacket)) currentPacket.rxParams := by
  unfold evaluateCandidate at h
  split at h
  · simp at h
  · rename_i n hn
    have hn1 := countPacketsInReplicaSlots_ok c cont currentPacket _ _ _ hn
    have hocc : n = occupancy cont slotContent currentPacket := by
      rw [hn1]; exact u32_of_lt hcount
    have hlen : u32 currentPacket.slotIdsForOtherReplicas.length =
        currentPacket.slotIdsForOtherReplicas.length := u32_of_lt (by omega)
    have hR : u32 (1 + u32 currentPacket.slotIdsForOtherReplicas.length) =
        1 + currentPacket.slotIdsForOtherReplicas.length := by
      rw [hlen]; exact u32_of_lt hreplicas
    simp only [Except.ok.injEq] at h
    subst h
    simp only [hR, hocc, correlatedSinrOf, combinedSinr, and_self]


/-! ## The scan of `PerformMarsala`, position by position -/

section Scan

variable {α : Type} [NatCast α] [Add α] [Sub α] [Div α] (c : Carrier α) (nb : Nat)

theorem rejected_append (xs ys : SlotContent) :
    rejected (xs ++ ys) = rejected xs ++ rejected ys := by
  simp [rejected]

theorem rejectedSlots_append (xs ys : Container) :
    rejectedSlots (xs ++ ys) = rejectedSlots xs ++ rejectedSlots ys := by
  simp [rejectedSlots]

/-- One round of the inner loop, read at the position of the current record. -/
theorem scanSlot_cons (B : Container) (k : Nat) (A : Container) (dec : List Packet)
    (S : SlotContent) (tr : List (TraceEvent α)) (p : Packet) (rest : SlotContent) :
    scanSlot c nb (rejectedSlots B) k A dec (rejected S) tr (p :: rest) =
      match verdictAt c nb ⟨B, k, S, p, rest, A⟩ with
      | .ok true =>
        scanSlot c nb (rejectedSlots B) k A dec (rejected (S ++ [p]))
          (tr ++ eventsAt c nb ⟨B, k, S, p, rest, A⟩) rest
      | _ =>
        match stopAt c nb dec tr ⟨B, k, S, p, rest, A⟩ with
        | .error f => .error f
        | .ok st => .ok (SlotScan.decoded st) := by
  rw [scanSlot]
  simp only [verdictAt, eventsAt, stopAt, commitAt, Position.view, Position.slotView]
  cases h : evaluateCandidate c nb (rejectedSlots B ++ (k, rejected S ++ p :: rest) :: A)
      (rejected S ++ p :: rest) p with
  | error f => simp
  | ok ev =>
    cases hv : ev.phyError with
    | true => simp [hv, rejected_append, rejected]
    | false =>
      simp only [hv]
      cases commitDecoded c (rejectedSlots B) k (rejected S ++ rest) A (p.setPhyError false) dec
        (tr ++ evaluationEvents c p ev) <;> simp

/-- When every record of the rest of the slot is rejected, the inner loop reaches the end
of the slot. -/
theorem scanSlot_allRejected (B : Container) (k : Nat) (A : Container) (dec : List Packet) :
    ∀ (todo S : SlotContent) (tr : List (TraceEvent α)),
      (∀ P ∈ slotPositions B k A S todo, verdictAt c nb P = .ok true) →
      scanSlot c nb (rejectedSlots B) k A dec (rejected S) tr todo =
        .ok (SlotScan.next (rejected (S ++ todo))
          (tr ++ eventsOf c nb (slotPositions B k A S todo))) := by
  intro todo
  induction todo with
  | nil => intro S tr _; simp [scanSlot, slotPositions, eventsOf]
  | cons p rest ih =>
    intro S tr h
    rw [scanSlot_cons]
    have hp := h ⟨B, k, S, p, rest, A⟩ (by simp [slotPositions])
    rw [hp]
    simp only
    rw [ih (S ++ [p]) _ (fun P hP => h P (by simp [slotPositions, hP]))]
    simp [slotPositions, eventsOf, List.append_assoc]

/-- The inner loop stops at the first record that is not rejected. -/
theorem scanSlot_first (B : Container) (k : Nat) (A : Container) (dec : List Packet) :
    ∀ (todo S : SlotContent) (tr : List (TraceEvent α)) (L1 : List Position) (P : Position)
      (L2 : List Position),
      slotPositions B k A S todo = L1 ++ P :: L2 →
      (∀ Q ∈ L1, verdictAt c nb Q = .ok true) →
      verdictAt c nb P ≠ .ok true →
      scanSlot c nb (rejectedSlots B) k A dec (rejected S) tr todo =
        match stopAt c nb dec (tr ++ eventsOf c nb L1) P with
        | .error f => .error f
        | .ok st => .ok (SlotScan.decoded st) := by
  intro todo
  induction todo with
  | nil => intro S tr L1 P L2 h; simp [slotPositions] at h
  | cons p rest ih =>
    intro S tr L1 P L2 h hL1 hP
    rw [scanSlot_cons]
    cases L1 with
    | nil =>
      simp only [slotPositions, List.nil_append, List.cons.injEq] at h
      obtain ⟨h1, _⟩ := h
      subst h1
      simp only [eventsOf, List.append_nil]
    | cons Q L1 =>
      simp only [slotPositions, List.cons_append, List.cons.injEq] at h
      obtain ⟨h1, h2⟩ := h
      have hQ := hL1 Q (by simp)
      rw [h1, hQ]
      simp only
      rw [ih (S ++ [p]) _ L1 P L2 h2 (fun R hR => hL1 R (by simp [hR])) hP]
      simp [eventsOf, List.append_assoc]

end Scan


/-! ## The positions of a container -/

theorem mem_slotPositions (B : Container) (k : Nat) (A : Container) (P : Position) :
    ∀ (todo S : SlotContent), P ∈ slotPositions B k A S todo ↔
      ∃ t1 t2, todo = t1 ++ P.current :: t2 ∧ P.scanned = S ++ t1 ∧ P.others = t2 ∧
        P.before = B ∧ P.slotId = k ∧ P.after = A := by
  intro todo
  induction todo with
  | nil => intro S; simp [slotPositions]
  | cons p rest ih =>
    intro S
    simp only [slotPositions, List.mem_cons, ih]
    constructor
    · rintro (h | ⟨t1, t2, h1, h2, h3, h4, h5, h6⟩)
      · subst h; exact ⟨[], rest, by simp⟩
      · exact ⟨p :: t1, t2, by simp [h1], by simp [h2], h3, h4, h5, h6⟩
    · rintro ⟨t1, t2, h1, h2, h3, h4, h5, h6⟩
      cases t1 with
      | nil =>
        left
        simp only [List.nil_append, List.cons.injEq] at h1
        obtain ⟨hp, hr⟩ := h1
        cases P
        simp_all
      | cons q t1 =>
        right
        simp only [List.cons_append, List.cons.injEq] at h1
        obtain ⟨hp, hr⟩ := h1
        exact ⟨t1, t2, hr, by simp [h2, hp], h3, h4, h5, h6⟩

theorem mem_positionsFrom (P : Position) :
    ∀ (todo B : Container), P ∈ positionsFrom B todo ↔
      ∃ T1 T2, todo = T1 ++ (P.slotId, P.scanned ++ P.current :: P.others) :: T2 ∧
        P.before = B ++ T1 ∧ P.after = T2 := by
  intro todo
  induction todo with
  | nil => intro B; simp [positionsFrom]
  | cons e rest ih =>
    intro B
    obtain ⟨k, content⟩ := e
    simp only [positionsFrom, List.mem_append, ih, mem_slotPositions]
    constructor
    · rintro (⟨t1, t2, h1, h2, h3, h4, h5, h6⟩ | ⟨T1, T2, h1, h2, h3⟩)
      · refine ⟨[], rest, ?_, by simp [h4], h6⟩
        simp [h1, h2, h3, h5]
      · exact ⟨(k, content) :: T1, T2, by simp [h1], by simp [h2], h3⟩
    · rintro ⟨T1, T2, h1, h2, h3⟩
      cases T1 with
      | nil =>
        left
        simp only [List.nil_append, List.cons.injEq, Prod.mk.injEq] at h1
        obtain ⟨⟨hk, hc⟩, hr⟩ := h1
        exact ⟨P.scanned, P.others, by simp [hc], by simp, rfl, by simpa using h2, hk.symm,
          by rw [h3, hr]⟩
      | cons e T1 =>
        right
        simp only [List.cons_append, List.cons.injEq] at h1
        obtain ⟨he, hr⟩ := h1
        exact ⟨T1, T2, hr, by simp [h2, he], h3⟩

/-- Every position of a container is cut out of that container. -/
theorem container_of_mem_positions {cont : Container} {P : Position} (h : P ∈ positions cont) :
    P.container = cont := by
  obtain ⟨T1, T2, h1, h2, h3⟩ := (mem_positionsFrom P cont []).1 h
  simp [Position.container, h1, h2, h3]

/-- Every record of a container stands at one of its positions. -/
theorem exists_position_of_mem {cont : Container} {e : Nat × SlotContent} {p : Packet}
    (he : e ∈ cont) (hp : p ∈ e.2) :
    ∃ P ∈ positions cont, P.slotId = e.1 ∧ P.current = p ∧
      P.scanned ++ P.current :: P.others = e.2 := by
  obtain ⟨T1, T2, hT⟩ := List.append_of_mem he
  obtain ⟨t1, t2, ht⟩ := List.append_of_mem hp
  refine ⟨⟨T1, e.1, t1, p, t2, T2⟩, ?_, rfl, rfl, ht.symm⟩
  rw [positions, mem_positionsFrom]
  exact ⟨T1, T2, by simp [hT, ← ht], by simp, rfl⟩

theorem map_current_slotPositions (B : Container) (k : Nat) (A : Container) :
    ∀ (todo S : SlotContent),
      (slotPositions B k A S todo).map (fun P => P.current) = todo := by
  intro todo
  induction todo with
  | nil => intro S; rfl
  | cons p rest ih => intro S; simp [slotPositions, ih]

theorem map_current_positionsFrom :
    ∀ (todo B : Container),
      (positionsFrom B todo).map (fun P => P.current) = allRecords todo := by
  intro todo
  induction todo with
  | nil => intro B; rfl
  | cons e rest ih =>
    intro B
    obtain ⟨k, content⟩ := e
    simp [positionsFrom, allRecords, map_current_slotPositions, ih]

/-- The candidates at the positions of a container are its records, slot after slot and in
arrival order within a slot. -/
theorem map_current_positions (cont : Container) :
    (positions cont).map (fun P => P.current) = allRecords cont :=
  map_current_positionsFrom cont []

/-! ## Splitting a list at its first element without a property -/

theorem first_not_or_all {β : Type} (Q : β → Prop) :
    ∀ L : List β, (∀ x ∈ L, Q x) ∨
      ∃ L1 x L2, L = L1 ++ x :: L2 ∧ (∀ y ∈ L1, Q y) ∧ ¬ Q x := by
  intro L
  induction L with
  | nil => left; simp
  | cons a L ih =>
    by_cases ha : Q a
    · rcases ih with h | ⟨L1, x, L2, h1, h2, h3⟩
      · left; simpa [ha] using h
      · right
        exact ⟨a :: L1, x, L2, by simp [h1], by simpa [ha] using h2, h3⟩
    · right; exact ⟨[], a, L, rfl, by simp, ha⟩

theorem first_not_unique {β : Type} (Q : β → Prop) :
    ∀ (L1 X1 : List β) (x y : β) (L2 X2 : List β),
      L1 ++ x :: L2 = X1 ++ y :: X2 → (∀ z ∈ L1, Q z) → (∀ z ∈ X1, Q z) → ¬ Q x → ¬ Q y →
      L1 = X1 ∧ x = y ∧ L2 = X2 := by
  intro L1
  induction L1 with
  | nil =>
    intro X1 x y L2 X2 h _ hX hx _
    cases X1 with
    | nil => simpa using h
    | cons a X1 =>
      simp only [List.nil_append, List.cons_append, List.cons.injEq] at h
      exact absurd (hX a (by simp)) (h.1 ▸ hx)
  | cons a L1 ih =>
    intro X1 x y L2 X2 h hL hX hx hy
    cases X1 with
    | nil =>
      simp only [List.nil_append, List.cons_append, List.cons.injEq] at h
      exact absurd (hL a (by simp)) (h.1 ▸ hy)
    | cons b X1 =>
      simp only [List.cons_append, List.cons.injEq] at h
      obtain ⟨h1, h2, h3⟩ := ih X1 x y L2 X2 h.2 (fun z hz => hL z (by simp [hz]))
        (fun z hz => hX z (by simp [hz])) hx hy
      exact ⟨by rw [h.1, h1], h2, h3⟩

/-- A prefix whose elements all have the property ends before the first element without
it. -/
theorem split_before_first_not {β : Type} (Q : β → Prop) :
    ∀ (X Y L1 : List β) (x : β) (L2 : List β),
      X ++ Y = L1 ++ x :: L2 → (∀ z ∈ X, Q z) → ¬ Q x →
      ∃ L1r, L1 = X ++ L1r ∧ Y = L1r ++ x :: L2 := by
  intro X
  induction X with
  | nil => intro Y L1 x L2 h _ _; exact ⟨L1, by simp, by simpa using h⟩
  | cons a X ih =>
    intro Y L1 x L2 h hX hx
    cases L1 with
    | nil =>
      simp only [List.cons_append, List.nil_append, List.cons.injEq] at h
      exact absurd (hX a (by simp)) (h.1 ▸ hx)
    | cons b L1 =>
      simp only [List.cons_append, List.cons.injEq] at h
      obtain ⟨L1r, h1, h2⟩ := ih Y L1 x L2 h.2 (fun z hz => hX z (by simp [hz])) hx
      exact ⟨L1r, by simp [h.1, h1], h2⟩


section Scan

variable {α : Type} [NatCast α] [Add α] [Sub α] [Div α] (c : Carrier α) (nb : Nat)

theorem eventsOf_append (L1 L2 : List Position) :
    eventsOf c nb (L1 ++ L2) = eventsOf c nb L1 ++ eventsOf c nb L2 := by
  induction L1 with
  | nil => simp [eventsOf]
  | cons P L1 ih => simp [eventsOf, ih, List.append_assoc]

theorem rejectedSlots_snoc (B : Container) (k : Nat) (content : SlotContent) :
    rejectedSlots (B ++ [(k, content)]) = rejectedSlots B ++ [(k, rejected content)] := by
  simp [rejectedSlots]

theorem rejected_nil : rejected [] = [] := rfl

theorem slotPositions_nil_iff (B : Container) (k : Nat) (A : Container) (S todo : SlotContent) :
    slotPositions B k A S todo = [] ↔ todo = [] := by
  cases todo <;> simp [slotPositions]

/-- When every slot holds a record and every candidate is rejected, the outer loop reaches
the end of the container and returns false. -/
theorem scanContainer_allRejected (dec : List Packet) :
    ∀ (todo B : Container) (tr : List (TraceEvent α)),
      (∀ e ∈ todo, e.2 ≠ []) →
      (∀ P ∈ positionsFrom B todo, verdictAt c nb P = .ok true) →
      scanContainer c nb dec (rejectedSlots B) tr todo =
        .ok (false, { container := rejectedSlots (B ++ todo)
                      combinedPacketsForFrame := dec
                      trace := tr ++ eventsOf c nb (positionsFrom B todo) }) := by
  intro todo
  induction todo with
  | nil => intro B tr _ _; simp [scanContainer, positionsFrom, eventsOf]
  | cons e rest ih =>
    intro B tr hne hrej
    obtain ⟨k, content⟩ := e
    have hc : content ≠ [] := hne (k, content) (by simp)
    have hlen : ¬ content.length < 1 := by
      cases content with
      | nil => exact absurd rfl hc
      | cons a l => simp
    rw [scanContainer, if_neg hlen]
    have h1 := scanSlot_allRejected c nb B k rest dec content [] tr
      (fun P hP => hrej P (by simp [positionsFrom, hP]))
    simp only [rejected_nil, List.nil_append] at h1
    rw [h1]
    simp only
    have h2 := ih (B ++ [(k, content)]) (tr ++ eventsOf c nb (slotPositions B k rest [] content))
      (fun e he => hne e (by simp [he])) (fun P hP => hrej P (by simp [positionsFrom, hP]))
    rw [rejectedSlots_snoc] at h2
    rw [h2]
    simp [positionsFrom, eventsOf_append, List.append_assoc]

/-- The outer loop stops at the first candidate that is not rejected, when the slots before
it hold records. -/
theorem scanContainer_first (dec : List Packet) :
    ∀ (todo B : Container) (tr : List (TraceEvent α)) (L1 : List Position) (P : Position)
      (L2 : List Position),
      positionsFrom B todo = L1 ++ P :: L2 →
      (∀ Q ∈ L1, verdictAt c nb Q = .ok true) →
      verdictAt c nb P ≠ .ok true →
      (∀ e ∈ P.before, e.2 ≠ []) →
      scanContainer c nb dec (rejectedSlots B) tr todo =
        stopResult (stopAt c nb dec (tr ++ eventsOf c nb L1) P) := by
  intro todo
  induction todo with
  | nil => intro B tr L1 P L2 h; simp [positionsFrom] at h
  | cons e rest ih =>
    intro B tr L1 P L2 h hL1 hP hne
    obtain ⟨k, content⟩ := e
    rw [positionsFrom] at h
    rcases first_not_or_all (fun Q => verdictAt c nb Q = .ok true)
        (slotPositions B k rest [] content) with hall | ⟨X1, R, X2, hX, hX1, hR⟩
    · -- the whole slot is rejected: the position lies in a later slot
      obtain ⟨L1r, hL1r, hY⟩ := split_before_first_not _ _ _ _ _ _ h hall hP
      have hmem : P ∈ positionsFrom (B ++ [(k, content)]) rest := by rw [hY]; simp
      obtain ⟨T1, T2, _, hb, _⟩ := (mem_positionsFrom P _ _).1 hmem
      have hc : content ≠ [] := hne (k, content) (by rw [hb]; simp)
      have hlen : ¬ content.length < 1 := by
        cases content with
        | nil => exact absurd rfl hc
        | cons a l => simp
      rw [scanContainer, if_neg hlen]
      have h1 := scanSlot_allRejected c nb B k rest dec content [] tr hall
      simp only [rejected_nil, List.nil_append] at h1
      rw [h1]
      simp only
      have h2 := ih (B ++ [(k, content)])
        (tr ++ eventsOf c nb (slotPositions B k rest [] content)) L1r P L2 hY
        (fun Q hQ => hL1 Q (by rw [hL1r]; simp [hQ])) hP hne
      rw [rejectedSlots_snoc] at h2
      rw [h2, hL1r]
      simp [eventsOf_append, List.append_assoc]
    · -- the position lies in this slot
      rw [hX, List.append_assoc, List.cons_append] at h
      obtain ⟨e1, e2, _⟩ := first_not_unique _ _ _ _ _ _ _ h hX1 hL1 hR hP
      subst e1 e2
      have hc : content ≠ [] := by
        intro hc
        rw [hc] at hX
        simp [slotPositions] at hX
      have hlen : ¬ content.length < 1 := by
        cases content with
        | nil => exact absurd rfl hc
        | cons a l => simp
      rw [scanContainer, if_neg hlen]
      have h1 := scanSlot_first c nb B k rest dec content [] tr X1 R X2 hX hX1 hR
      simp only [rejected_nil] at h1
      rw [h1]
      cases stopAt c nb dec (tr ++ eventsOf c nb X1) R <;> simp [stopResult]

/-- The outer loop ends in a fatal error at the first empty slot, when the candidates of
the slots before it are rejected. -/
theorem scanContainer_emptySlot (dec : List Packet) (k : Nat) (T2 : Container) :
    ∀ (T1 B : Container) (tr : List (TraceEvent α)),
      (∀ e ∈ T1, e.2 ≠ []) →
      (∀ P ∈ positionsFrom B (T1 ++ (k, []) :: T2), P.before.length < B.length + T1.length →
        verdictAt c nb P = .ok true) →
      scanContainer c nb dec (rejectedSlots B) tr (T1 ++ (k, []) :: T2) =
        .error Fault.noPacketInSlot := by
  intro T1
  induction T1 with
  | nil => intro B tr _ _; simp [scanContainer]
  | cons e rest ih =>
    intro B tr hne hrej
    obtain ⟨k1, content⟩ := e
    have hc : content ≠ [] := hne (k1, content) (by simp)
    have hlen : ¬ content.length < 1 := by
      cases content with
      | nil => exact absurd rfl hc
      | cons a l => simp
    rw [List.cons_append, scanContainer, if_neg hlen]
    have h1 := scanSlot_allRejected c nb B k1 (rest ++ (k, []) :: T2) dec content [] tr
      (fun P hP => hrej P (by simp [positionsFrom, hP]) (by
        rw [((mem_slotPositions _ _ _ _ _ _).1 hP).choose_spec.choose_spec.2.2.2.1]
        simp))
    simp only [rejected_nil, List.nil_append] at h1
    rw [h1]
    simp only
    have h2 := ih (B ++ [(k1, content)])
      (tr ++ eventsOf c nb (slotPositions B k1 (rest ++ (k, []) :: T2) [] content))
      (fun e he => hne e (by simp [he]))
      (fun P hP hl => hrej P (by simp [positionsFrom, hP]) (by
        simp only [List.length_append, List.length_cons, List.length_nil] at hl ⊢
        omega))
    rw [rejectedSlots_snoc] at h2
    rw [h2]

end Scan


section Scan

variable {α : Type} [NatCast α] [Add α] [Sub α] [Div α] (c : Carrier α) (nb : Nat)

/-- The three ways a scan can go, read off the container: every candidate is rejected; or
there is a first candidate that is not rejected, behind slots that hold records; or there
is a first empty slot, behind rejected candidates. -/
theorem positionsFrom_cases :
    ∀ (todo B : Container), (∀ e ∈ B, e.2 ≠ []) →
      ((∀ e ∈ todo, e.2 ≠ []) ∧ ∀ P ∈ positionsFrom B todo, verdictAt c nb P = .ok true) ∨
      (∃ L1 P L2, positionsFrom B todo = L1 ++ P :: L2 ∧
        (∀ Q ∈ L1, verdictAt c nb Q = .ok true) ∧ verdictAt c nb P ≠ .ok true ∧
        ∀ e ∈ P.before, e.2 ≠ []) ∨
      (∃ T1 k T2, todo = T1 ++ (k, []) :: T2 ∧ (∀ e ∈ T1, e.2 ≠ []) ∧
        ∀ P ∈ positionsFrom B todo, P.before.length < B.length + T1.length →
          verdictAt c nb P = .ok true) := by
  intro todo
  induction todo with
  | nil => intro B _; left; simp [positionsFrom]
  | cons e rest ih =>
    intro B hB
    obtain ⟨k, content⟩ := e
    by_cases hc : content = []
    · right; right
      refine ⟨[], k, rest, by simp [hc], by simp, ?_⟩
      intro P hP hl
      obtain ⟨T1, T2, _, hb, _⟩ := (mem_positionsFrom P _ _).1 hP
      rw [hb] at hl
      simp at hl
    · rcases first_not_or_all (fun Q => verdictAt c nb Q = .ok true)
          (slotPositions B k rest [] content) with hall | ⟨X1, R, X2, hX, hX1, hR⟩
      · have hB1 : ∀ e ∈ B ++ [(k, content)], e.2 ≠ [] := by
          intro e he
          rcases List.mem_append.1 he with h | h
          · exact hB e h
          · simp only [List.mem_singleton] at h
            rw [h]; exact hc
        rcases ih (B ++ [(k, content)]) hB1 with ⟨h1, h2⟩ | ⟨L1, P, L2, h1, h2, h3, h4⟩ |
            ⟨T1, k1, T2, h1, h2, h3⟩
        · left
          refine ⟨?_, ?_⟩
          · intro e he
            rcases List.mem_cons.1 he with h | h
            · rw [h]; exact hc
            · exact h1 e h
          · intro P hP
            rw [positionsFrom] at hP
            rcases List.mem_append.1 hP with h | h
            · exact hall P h
            · exact h2 P h
        · right; left
          refine ⟨slotPositions B k rest [] content ++ L1, P, L2, ?_, ?_, h3, h4⟩
          · rw [positionsFrom, h1, List.append_assoc]
          · intro Q hQ
            rcases List.mem_append.1 hQ with h | h
            · exact hall Q h
            · exact h2 Q h
        · right; right
          refine ⟨(k, content) :: T1, k1, T2, by simp [h1], ?_, ?_⟩
          · intro e he
            rcases List.mem_cons.1 he with h | h
            · rw [h]; exact hc
            · exact h2 e h
          · intro P hP hl
            rw [positionsFrom] at hP
            rcases List.mem_append.1 hP with h | h
            · exact hall P h
            · apply h3 P h
              simp only [List.length_append, List.length_cons, List.length_nil] at hl ⊢
              omega
      · right; left
        refine ⟨X1, R, X2 ++ positionsFrom (B ++ [(k, content)]) rest, ?_, hX1, hR, ?_⟩
        · rw [positionsFrom, hX]; simp
        · have hmem : R ∈ slotPositions B k rest [] content := by rw [hX]; simp
          obtain ⟨t1, t2, _, _, _, hb, _, _⟩ := (mem_slotPositions _ _ _ _ _ _).1 hmem
          rw [hb]; exact hB

theorem rejectedSlots_nil : rejectedSlots [] = [] := rfl

/-- The three ways a call of `PerformMarsala` can go: it returns false when every slot
holds a record and every candidate is rejected; it stops at the first candidate that is not
rejected; or it ends in a fatal error at the first empty slot. -/
theorem PerformMarsala_cases (st : State α) :
    ((∀ e ∈ st.container, e.2 ≠ []) ∧
      (∀ P ∈ positions st.container, verdictAt c (u32 st.container.length) P = .ok true) ∧
      PerformMarsala c st =
        .ok (false, { container := rejectedSlots st.container
                      combinedPacketsForFrame := st.combinedPacketsForFrame
                      trace := st.trace ++
                        eventsOf c (u32 st.container.length) (positions st.container) })) ∨
    (∃ L1 P L2, positions st.container = L1 ++ P :: L2 ∧
      (∀ Q ∈ L1, verdictAt c (u32 st.container.length) Q = .ok true) ∧
      verdictAt c (u32 st.container.length) P ≠ .ok true ∧
      (∀ e ∈ P.before, e.2 ≠ []) ∧
      PerformMarsala c st =
        stopResult (stopAt c (u32 st.container.length) st.combinedPacketsForFrame
          (st.trace ++ eventsOf c (u32 st.container.length) L1) P)) ∨
    (∃ T1 k T2, st.container = T1 ++ (k, []) :: T2 ∧ (∀ e ∈ T1, e.2 ≠ []) ∧
      (∀ P ∈ positions st.container, P.before.length < T1.length →
        verdictAt c (u32 st.container.length) P = .ok true) ∧
      PerformMarsala c st = .error Fault.noPacketInSlot) := by
  rcases positionsFrom_cases c (u32 st.container.length) st.container [] (by simp) with
    ⟨h1, h2⟩ | ⟨L1, P, L2, h1, h2, h3, h4⟩ | ⟨T1, k, T2, h1, h2, h3⟩
  · left
    refine ⟨h1, h2, ?_⟩
    have := scanContainer_allRejected c (u32 st.container.length) st.combinedPacketsForFrame
      st.container [] st.trace h1 h2
    simpa [PerformMarsala, rejectedSlots_nil, positions] using this
  · right; left
    refine ⟨L1, P, L2, h1, h2, h3, h4, ?_⟩
    have := scanContainer_first c (u32 st.container.length) st.combinedPacketsForFrame
      st.container [] st.trace L1 P L2 h1 h2 h3 h4
    simpa [PerformMarsala, rejectedSlots_nil] using this
  · right; right
    refine ⟨T1, k, T2, h1, h2, ?_, ?_⟩
    · intro P hP hl
      exact h3 P hP (by simpa using hl)
    · have := scanContainer_emptySlot c (u32 st.container.length) st.combinedPacketsForFrame
        k T2 T1 [] st.trace h2 (by rw [← h1]; exact h3)
      rw [← h1] at this
      simpa [PerformMarsala, rejectedSlots_nil] using this

end Scan


/-! ## A successful correlation pass (C2) -/

/-- What the removal of an accepted candidate leaves, when it meets no fatal error. -/
theorem commitDecoded_ok {α : Type} (c : Carrier α) {B : Container} {k : Nat} {content : SlotContent} {A : Container}
    {p : Packet} {dec : List Packet} {tr : List (TraceEvent α)} {st1 : State α}
    (h : commitDecoded c B k content A p dec tr = .ok st1) :
    st1.combinedPacketsForFrame = dec ++ [p] ∧ st1.trace = tr ∧
      FindAndRemoveReplicas c p (B ++ EliminateInterference (k, content) p ++ A) =
        .ok st1.container := by
  unfold commitDecoded at h
  split at h
  · simp at h
  · rename_i cont hc
    simp only [Except.ok.injEq] at h
    subst h
    exact ⟨rfl, rfl, hc⟩

theorem stopResult_ok {α : Type} {r : Except Fault (State α)} {b : Bool} {st1 : State α}
    (h : stopResult r = .ok (b, st1)) : b = true ∧ r = .ok st1 := by
  unfold stopResult at h
  split at h
  · simp at h
  · simp only [Except.ok.injEq, Prod.mk.injEq] at h
    exact ⟨h.1.symm, by rw [h.2]⟩

section

variable {α : Type} [NatCast α] [Add α] [Sub α] [Div α] (c : Carrier α) (nb : Nat)

/-- A scan that stops at a position and returns a value has accepted the candidate there. -/
theorem stopAt_ok {dec : List Packet} {tr : List (TraceEvent α)} {P : Position}
    {st1 : State α} (h : stopAt c nb dec tr P = .ok st1)
    (hP : verdictAt c nb P ≠ .ok true) :
    verdictAt c nb P = .ok false ∧ commitAt c P dec (tr ++ eventsAt c nb P) = .ok st1 := by
  unfold stopAt at h
  split at h
  · simp at h
  · rename_i b hb
    refine ⟨?_, h⟩
    cases b with
    | true => exact absurd hb hP
    | false => exact hb

end

/-- Claim C2: on a frame on which `PerformMarsala` meets no integrity fault (the call returns
a value), if the combined SINR of some candidate is accepted by the link results, then the
call returns true and appends exactly one record to the end of the decoded output, the output
held before being kept in front in its order; the record is the first accepted candidate in
the order of the scan (slots by ascending slot id, the records of a slot in arrival order):
every candidate before it is rejected; and no candidate after it is evaluated: the trace
receives the events of the candidates up to it and no other. The verdict on a candidate is
taken on the frame as the scan finds it, the candidates before it carrying their verdict. -/
theorem C2_first_accepted_candidate_is_decoded {α : Type} [NatCast α] [Add α] [Sub α] [Div α]
    (c : Carrier α) (st : State α) (r : Bool × State α)
    (hrun : PerformMarsala c st = .ok r)
    (P0 : Position) (hP0 : P0 ∈ positions st.container)
    (haccepted : verdictAt c (u32 st.container.length) P0 = .ok false) :
    r.1 = true ∧
    ∃ L1 P L2, positions st.container = L1 ++ P :: L2 ∧
      (∀ Q ∈ L1, verdictAt c (u32 st.container.length) Q = .ok true) ∧
      verdictAt c (u32 st.container.length) P = .ok false ∧
      r.2.combinedPacketsForFrame =
        st.combinedPacketsForFrame ++ [P.current.setPhyError false] ∧
      r.2.trace = st.trace ++ eventsOf c (u32 st.container.length) (L1 ++ [P]) := by
  obtain ⟨b, st1⟩ := r
  rcases PerformMarsala_cases c st with ⟨_, h2, _⟩ | ⟨L1, P, L2, h1, h2, h3, _, h5⟩ |
      ⟨_, _, _, _, _, _, h4⟩
  · rw [h2 P0 hP0] at haccepted
    simp at haccepted
  · rw [h5] at hrun
    obtain ⟨hb, hstop⟩ := stopResult_ok hrun
    obtain ⟨hv, hcommit⟩ := stopAt_ok c _ hstop h3
    obtain ⟨hdec, htr, _⟩ := commitDecoded_ok c hcommit
    refine ⟨hb, L1, P, L2, h1, h2, hv, hdec, ?_⟩
    simp only [htr, eventsOf_append, eventsOf, List.append_nil, List.append_assoc]
  · rw [h4] at hrun
    simp at hrun

/-- Witness of C2 on the example frame: the packet of source 9 is accepted, and the call
decodes the packet of source 8, the first accepted candidate. -/
theorem C2_first_accepted_candidate_is_decoded_witness :
    (exampleRecord 8 20 2 []).setPhyError false = exampleRecord 8 20 2 [] ∧
    ((true, ({ container :=
                [(1, [(exampleRecord 7 2 1 [2]).setPhyError true]),
                 (2, [(exampleRecord 7 2 2 [1]).setPhyError true]),
                 (3, [exampleRecord 9 20 3 []])]
               combinedPacketsForFrame := [exampleRecord 8 20 2 []]
               trace := [TraceEvent.linkSinr (1 / 5), TraceEvent.marsalaCorrelationRx 2 7 true,
                 TraceEvent.linkSinr (1 / 5), TraceEvent.marsalaCorrelationRx 2 7 true,
                 TraceEvent.linkSinr 2, TraceEvent.marsalaCorrelationRx 1 8 false] } :
                State ℚ)).1 = true ∧
      ∃ L1 P L2, positions exampleFrame = L1 ++ P :: L2 ∧
        (∀ Q ∈ L1, verdictAt exampleCarrier (u32 exampleFrame.length) Q = .ok true) ∧
        verdictAt exampleCarrier (u32 exampleFrame.length) P = .ok false ∧
        [exampleRecord 8 20 2 []] = [] ++ [P.current.setPhyError false] ∧
        [TraceEvent.linkSinr (1 / 5), TraceEvent.marsalaCorrelationRx 2 7 true,
          TraceEvent.linkSinr (1 / 5), TraceEvent.marsalaCorrelationRx 2 7 true,
          TraceEvent.linkSinr 2, TraceEvent.marsalaCorrelationRx 1 8 false] =
          [] ++ eventsOf exampleCarrier (u32 exampleFrame.length) (L1 ++ [P])) :=
  ⟨rfl,
   C2_first_accepted_candidate_is_decoded exampleCarrier
    { container := exampleFrame, combinedPacketsForFrame := [], trace := [] } _
    (by with_unfolding_all rfl)
    { before := [(1, [exampleRecord 7 2 1 [2]]),
                 (2, [exampleRecord 7 2 2 [1], exampleRecord 8 20 2 []])]
      slotId := 3, scanned := [], current := exampleRecord 9 20 3 [], others := [], after := [] }
    (by decide)
    (by with_unfolding_all rfl)⟩


/-! ## The loop of `PerformSicCycles` (C3) -/

/-- A completed run of the loop, replayed with the log of its calls. -/
theorem doWhile_logged {σ : Type} (body : σ → Outcome σ)
    (condition : σ → Except Fault (Bool × σ)) :
    ∀ (n : Nat) (s out : σ) (log0 : List Call),
      doWhile body condition n s = Outcome.done out →
      ∃ k, k < n ∧ doWhile (loggedBody body) (loggedCondition condition) n (s, log0) =
        Outcome.done (out, log0 ++ alternation k) := by
  intro n
  induction n with
  | zero => intro s out log0 h; simp [doWhile] at h
  | succ n ih =>
    intro s out log0 h
    rw [doWhile] at h
    rw [doWhile]
    cases hb : body s with
    | outOfFuel => rw [hb] at h; simp at h
    | fatal f => rw [hb] at h; simp at h
    | done s1 =>
      rw [hb] at h
      simp only at h
      simp only [loggedBody, hb]
      cases hc : condition s1 with
      | error f => rw [hc] at h; simp at h
      | ok r =>
        obtain ⟨b, s2⟩ := r
        rw [hc] at h
        cases b with
        | true =>
          simp only at h
          obtain ⟨k, hk, hrun⟩ := ih s2 out (log0 ++ [Call.sicCycles] ++ [Call.marsala true]) h
          refine ⟨k + 1, by omega, ?_⟩
          simp only [loggedCondition, hc]
          rw [hrun]
          simp [alternation]
        | false =>
          simp only [Outcome.done.injEq] at h
          subst h
          refine ⟨0, by omega, ?_⟩
          simp [loggedCondition, hc, alternation]

theorem count_sicCycles_alternation (k : Nat) :
    (alternation k).count Call.sicCycles = k + 1 := by
  induction k with
  | zero => decide
  | succ k ih => simp [alternation, ih]

theorem count_marsala_true_alternation (k : Nat) :
    (alternation k).count (Call.marsala true) = k := by
  induction k with
  | zero => decide
  | succ k ih => simp [alternation, ih]

theorem count_marsala_false_alternation (k : Nat) :
    (alternation k).count (Call.marsala false) = 1 := by
  induction k with
  | zero => decide
  | succ k ih => simp [alternation, ih]

theorem getLast_alternation (k : Nat) :
    (alternation k).getLast? = some (Call.marsala false) := by
  induction k with
  | zero => rfl
  | succ k ih =>
    cases k with
    | zero => rfl
    | succ k =>
      rw [alternation, List.getLast?_cons_cons]
      rw [alternation] at ih ⊢
      rw [List.getLast?_cons_cons]
      exact ih

/-- Claim C3: `SatPhyRxCarrierMarsala::PerformSicCycles` runs the SIC cycles of the base class
first, then one correlation pass, and repeats both as long as the correlation pass reports a
success; it returns right after the first correlation pass without success. For every
completed run there is a number `k` of successful correlation passes such that the calls
made are, in order, `k` times (SIC cycles, successful correlation pass) followed by (SIC
cycles, correlation pass without success): the SIC cycles are run `k + 1` times and the
correlation pass `k + 1` times, strictly alternating and starting with the SIC cycles. -/
theorem C3_sic_and_correlation_alternate {α : Type} [NatCast α] [Add α] [Sub α] [Div α]
    (c : Carrier α) (fuel : Nat) (st out : State α)
    (hrun : PerformSicCycles c fuel st = Outcome.done out) :
    ∃ k,
      doWhile (loggedBody (SatPhyRxCarrierPerFrame.PerformSicCycles c fuel))
          (loggedCondition (PerformMarsala c)) fuel (st, []) =
        Outcome.done (out, alternation k) ∧
      (alternation k).count Call.sicCycles = k + 1 ∧
      (alternation k).count (Call.marsala true) = k ∧
      (alternation k).count (Call.marsala false) = 1 ∧
      (alternation k).getLast? = some (Call.marsala false) := by
  obtain ⟨k, _, hk⟩ := doWhile_logged _ _ fuel st out [] hrun
  exact ⟨k, by simpa using hk, count_sicCycles_alternation k,
    count_marsala_true_alternation k, count_marsala_false_alternation k,
    getLast_alternation k⟩


/-! ## The integrity checks of a candidate (C5, C6) -/

/-- The loop of `CheckReplicaInSlot` in terms of the number of replicas in the slot. -/
theorem checkReplicaLoop_eq (c : Carrier α) (p : Packet) :
    ∀ (content : SlotContent) (found : Bool),
      checkReplicaLoop c p content found =
        if 2 ≤ content.countP (c.IsReplica p) + found.toNat then
          .error Fault.moreThanOneReplica
        else .ok (decide (1 ≤ content.countP (c.IsReplica p) + found.toNat)) := by
  intro content
  induction content with
  | nil => intro found; cases found <;> simp [checkReplicaLoop]
  | cons q rest ih =>
    intro found
    rw [checkReplicaLoop]
    by_cases hq : c.IsReplica p q = true
    · rw [if_pos hq, List.countP_cons_of_pos _ _ hq]
      cases found with
      | true =>
        have : 2 ≤ List.countP (c.IsReplica p) rest + 1 + true.toNat := by simp
        simp [this]
      | false =>
        simp only [Bool.false_eq_true, ↓reduceIte, ih, Bool.toNat_true, Bool.toNat_false,
          Nat.add_zero]
    · rw [if_neg hq, List.countP_cons_of_neg _ _ hq, ih]

/-- The result of `CheckReplicaInSlot` in terms of the number of replicas in the slot. -/
theorem CheckReplicaInSlot_eq (c : Carrier α) (content : SlotContent) (p : Packet) :
    CheckReplicaInSlot c content p =
      if 2 ≤ content.countP (c.IsReplica p) then .error Fault.moreThanOneReplica
      else .ok (decide (1 ≤ content.countP (c.IsReplica p))) := by
  rw [CheckReplicaInSlot, checkReplicaLoop_eq]
  simp

theorem CheckReplicaInSlot_true_iff (c : Carrier α) (content : SlotContent) (p : Packet) :
    CheckReplicaInSlot c content p = .ok true ↔ content.countP (c.IsReplica p) = 1 := by
  rw [CheckReplicaInSlot_eq]
  split
  · rename_i h
    constructor
    · intro h1; simp at h1
    · intro h1; omega
  · rename_i h
    simp only [Except.ok.injEq, decide_eq_true_eq]
    omega

/-- The sibling loop ends without a fatal error exactly when every sibling slot is present
and holds one replica. -/
theorem countPacketsInReplicaSlots_isOk (c : Carrier α) (cont : Container) (p : Packet) :
    ∀ (ids : List Nat) (n : Nat),
      (∃ m, countPacketsInReplicaSlots c cont p ids n = .ok m) ↔
        ∀ x ∈ ids, ∃ content, cont.find x = some content ∧
          content.countP (c.IsReplica p) = 1 := by
  intro ids
  induction ids with
  | nil => intro n; simp [countPacketsInReplicaSlots]
  | cons y ys ih =>
    intro n
    rw [countPacketsInReplicaSlots]
    cases hf : cont.find y with
    | none => simp [hf]
    | some content =>
      simp only [List.mem_cons, forall_eq_or_imp, hf, Option.some.injEq, exists_eq_left']
      cases hc : CheckReplicaInSlot c content p with
      | error f =>
        have : ¬ content.countP (c.IsReplica p) = 1 := by
          rw [← CheckReplicaInSlot_true_iff, hc]; simp
        simp [this]
      | ok b =>
        cases b with
        | false =>
          have : ¬ content.countP (c.IsReplica p) = 1 := by
            rw [← CheckReplicaInSlot_true_iff, hc]; simp
          simp [this]
        | true =>
          have : content.countP (c.IsReplica p) = 1 := by
            rw [← CheckReplicaInSlot_true_iff, hc]
          simp only [this, true_and]
          exact ih _

section

variable {α : Type} [NatCast α] [Add α] [Sub α] [Div α] (c : Carrier α) (nb : Nat)

/-- The integrity checks of the candidate at a position pass exactly when every sibling
slot id of the candidate is present in the container, as the scan finds it, with one
replica of the candidate in its slot. -/
theorem verdictAt_isOk (P : Position) :
    (∃ b, verdictAt c nb P = .ok b) ↔
      ∀ x ∈ P.current.slotIdsForOtherReplicas, ∃ content, P.view.find x = some content ∧
        content.countP (c.IsReplica P.current) = 1 := by
  rw [← countPacketsInReplicaSlots_isOk c P.view P.current _ (u32 P.slotView.length)]
  unfold verdictAt evaluateCandidate
  cases countPacketsInReplicaSlots c P.view P.current P.current.slotIdsForOtherReplicas
    (u32 P.slotView.length) <;> simp

end

/-- Claim C5: `PerformMarsala` ends in a fatal error whenever a candidate that it scans, the
candidates before it being rejected, has a sibling slot id whose slot is present in the frame
but holds no replica of the candidate; the call then returns no value, so it appends nothing
to the decoded output. -/
theorem C5_sibling_slot_without_replica_is_fatal {α : Type} [NatCast α] [Add α] [Sub α]
    [Div α] (c : Carrier α) (st : State α) (L1 : List Position) (P : Position)
    (L2 : List Position) (x : Nat) (content : SlotContent)
    (hP : positions st.container = L1 ++ P :: L2)
    (hbefore : ∀ Q ∈ L1, verdictAt c (u32 st.container.length) Q = .ok true)
    (hx : x ∈ P.current.slotIdsForOtherReplicas)
    (hpresent : P.view.find x = some content)
    (hnone : ∀ r ∈ content, c.IsReplica P.current r = false) :
    ∃ f, PerformMarsala c st = .error f := by
  have hv : ∀ b, verdictAt c (u32 st.container.length) P ≠ .ok b := by
    intro b hb
    obtain ⟨content1, h1, h2⟩ := (verdictAt_isOk c _ P).1 ⟨b, hb⟩ x hx
    rw [hpresent] at h1
    simp only [Option.some.injEq] at h1
    subst h1
    have h0 : content.countP (c.IsReplica P.current) = 0 := by
      rw [List.countP_eq_zero]
      intro r hr
      simp [hnone r hr]
    omega
  rcases PerformMarsala_cases c st with ⟨_, h2, _⟩ | ⟨X1, R, X2, h1, h2, h3, _, h5⟩ |
      ⟨_, _, _, _, _, _, h4⟩
  · exact absurd (h2 P (by rw [hP]; simp)) (hv true)
  · rw [hP] at h1
    obtain ⟨_, e2, _⟩ := first_not_unique _ _ _ _ _ _ _ h1 hbefore h2 (hv true) h3
    subst e2
    rw [h5]
    unfold stopAt
    cases hvP : verdictAt c (u32 st.container.length) P with
    | error f => exact ⟨f, by simp [stopResult]⟩
    | ok b => exact absurd hvP (hv b)
  · exact ⟨_, h4⟩


/-! ## Records up to their decode-error flag -/

theorem setPhyError_setPhyError (p : Packet) (b1 b2 : Bool) :
    (p.setPhyError b1).setPhyError b2 = p.setPhyError b2 := rfl

theorem setPhyError_slotIds (p : Packet) (b : Bool) :
    (p.setPhyError b).slotIdsForOtherReplicas = p.slotIdsForOtherReplicas := rfl

theorem setPhyError_ownSlotId (p : Packet) (b : Bool) :
    (p.setPhyError b).ownSlotId = p.ownSlotId := rfl

theorem setPhyError_self (p : Packet) : p.setPhyError p.phyError = p := by
  cases p; rfl

theorem FlagBlind.left {c : Carrier α} (h : FlagBlind c) (p q : Packet) (b : Bool) :
    c.IsReplica (p.setPhyError b) q = c.IsReplica p q := by
  have := h p q b q.phyError
  rwa [setPhyError_self] at this

theorem FlagBlind.right {c : Carrier α} (h : FlagBlind c) (p q : Packet) (b : Bool) :
    c.IsReplica p (q.setPhyError b) = c.IsReplica p q := by
  have := h p q p.phyError b
  rwa [setPhyError_self] at this

theorem FlagBlind.eq_of_unflag {c : Carrier α} (h : FlagBlind c) {p1 p2 q1 q2 : Packet}
    (hp : p1.setPhyError false = p2.setPhyError false)
    (hq : q1.setPhyError false = q2.setPhyError false) :
    c.IsReplica p1 q1 = c.IsReplica p2 q2 := by
  rw [← h p1 q1 false false, ← h p2 q2 false false, hp, hq]

theorem FlagBlind.countP_eq {c : Carrier α} (h : FlagBlind c) {p1 p2 : Packet}
    (hp : p1.setPhyError false = p2.setPhyError false) :
    ∀ (l1 l2 : SlotContent),
      l1.map (fun p => p.setPhyError false) = l2.map (fun p => p.setPhyError false) →
      l1.countP (c.IsReplica p1) = l2.countP (c.IsReplica p2) := by
  intro l1
  induction l1 with
  | nil =>
    intro l2 hl
    cases l2 with
    | nil => rfl
    | cons b l2 => simp at hl
  | cons a l1 ih =>
    intro l2 hl
    cases l2 with
    | nil => simp at hl
    | cons b l2 =>
      simp only [List.map_cons, List.cons.injEq] at hl
      simp only [List.countP_cons, ih l2 hl.2, h.eq_of_unflag hp hl.1]

theorem find_unflagged (x : Nat) :
    ∀ (cont : Container), (unflagged cont).find x =
      (cont.find x).map (fun content => content.map (fun p => p.setPhyError false)) := by
  intro cont
  induction cont with
  | nil => rfl
  | cons e rest ih =>
    obtain ⟨k, content⟩ := e
    simp only [unflagged, List.map_cons, Container.find]
    by_cases hk : k = x
    · simp [hk]
    · simp only [hk, ↓reduceIte]
      exact ih

/-- Two containers that differ in decode-error flags only hold, under a slot id, slots that
differ in decode-error flags only. -/
theorem find_of_unflagged_eq {F1 F2 : Container} (h : unflagged F1 = unflagged F2) {x : Nat}
    {c1 : SlotContent} (h1 : F1.find x = some c1) :
    ∃ c2, F2.find x = some c2 ∧
      c1.map (fun p => p.setPhyError false) = c2.map (fun p => p.setPhyError false) := by
  have e1 := find_unflagged x F1
  have e2 := find_unflagged x F2
  rw [h, e2, h1] at e1
  cases hf : F2.find x with
  | none => rw [hf] at e1; simp at e1
  | some c2 =>
    rw [hf] at e1
    simp only [Option.map_some', Option.some.injEq] at e1
    exact ⟨c2, rfl, e1.symm⟩

theorem unflagged_append (F1 F2 : Container) :
    unflagged (F1 ++ F2) = unflagged F1 ++ unflagged F2 := by
  simp [unflagged]

theorem map_unflag_rejected (content : SlotContent) :
    (rejected content).map (fun p => p.setPhyError false) =
      content.map (fun p => p.setPhyError false) := by
  simp [rejected, Function.comp_def, setPhyError_setPhyError]

theorem unflagged_rejectedSlots (F : Container) :
    unflagged (rejectedSlots F) = unflagged F := by
  simp only [unflagged, rejectedSlots, List.map_map]
  apply List.map_congr_left
  intro e _
  simp [map_unflag_rejected]

/-- The container as the scan finds it at a position differs from the container in
decode-error flags only. -/
theorem unflagged_view (P : Position) : unflagged P.view = unflagged P.container := by
  simp only [Position.view, Position.container, Position.slotView, unflagged_append,
    unflagged_rejectedSlots]
  simp [unflagged, map_unflag_rejected]


/-- Claim C6: `PerformMarsala` ends in the fatal error "No packet in slot" whenever its scan
reaches a slot that is present in the container but holds no record (the slots before it
hold records and their candidates are rejected). Conversely, if `PerformMarsala` returns
false, then every slot present in the frame holds a record, and every record has each of its
sibling slot ids present in the frame with exactly one replica of it, in the frame as the
scan finds it at this record; when the replica relation does not read the decode-error flag,
this holds in the frame the call leaves. -/
theorem C6_empty_slot_is_fatal_and_false_means_consistent {α : Type} [NatCast α] [Add α]
    [Sub α] [Div α] (c : Carrier α) (st : State α) :
    (∀ T1 k T2, st.container = T1 ++ (k, []) :: T2 → (∀ e ∈ T1, e.2 ≠ []) →
      (∀ P ∈ positions st.container, P.before.length < T1.length →
        verdictAt c (u32 st.container.length) P = .ok true) →
      PerformMarsala c st = .error Fault.noPacketInSlot) ∧
    (∀ st1, PerformMarsala c st = .ok (false, st1) →
      (∀ e ∈ st.container, e.2 ≠ []) ∧
      (∀ P ∈ positions st.container, ∀ x ∈ P.current.slotIdsForOtherReplicas,
        ∃ content, P.view.find x = some content ∧
          content.countP (c.IsReplica P.current) = 1) ∧
      (FlagBlind c →
        (∀ e ∈ st1.container, e.2 ≠ []) ∧
        ∀ e ∈ st1.container, ∀ p ∈ e.2, ∀ x ∈ p.slotIdsForOtherReplicas,
          ∃ content, st1.container.find x = some content ∧
            content.countP (c.IsReplica p) = 1)) := by
  constructor
  · intro T1 k T2 hT hne hrej
    have := scanContainer_emptySlot c (u32 st.container.length) st.combinedPacketsForFrame
      k T2 T1 [] st.trace hne (by
        intro P hP hl
        rw [← hT] at hP
        exact hrej P hP (by simpa using hl))
    rw [← hT] at this
    simpa [PerformMarsala, rejectedSlots_nil] using this
  · intro st1 hrun
    rcases PerformMarsala_cases c st with ⟨h1, h2, h3⟩ | ⟨L1, P, L2, _, _, _, _, h5⟩ |
        ⟨_, _, _, _, _, _, h4⟩
    · have hview : ∀ P ∈ positions st.container, ∀ x ∈ P.current.slotIdsForOtherReplicas,
          ∃ content, P.view.find x = some content ∧
            content.countP (c.IsReplica P.current) = 1 :=
        fun P hP => (verdictAt_isOk c _ P).1 ⟨true, h2 P hP⟩
      refine ⟨h1, hview, ?_⟩
      intro hflag
      rw [h3] at hrun
      simp only [Except.ok.injEq, Prod.mk.injEq, true_and] at hrun
      subst hrun
      simp only
      constructor
      · intro e he
        simp only [rejectedSlots, List.mem_map] at he
        obtain ⟨e0, he0, rfl⟩ := he
        have := h1 e0 he0
        simpa [rejected] using this
      · intro e he p hp x hx
        simp only [rejectedSlots, List.mem_map] at he
        obtain ⟨e0, he0, rfl⟩ := he
        simp only [rejected, List.mem_map] at hp
        obtain ⟨p0, hp0, rfl⟩ := hp
        obtain ⟨P, hP, _, hcur, _⟩ := exists_position_of_mem he0 hp0
        obtain ⟨content, hfind, hcount⟩ := hview P hP x (by rw [hcur]; exact hx)
        have hsame : unflagged P.view = unflagged (rejectedSlots st.container) := by
          rw [unflagged_view, unflagged_rejectedSlots, container_of_mem_positions hP]
        obtain ⟨c2, hc2, hmap⟩ := find_of_unflagged_eq hsame hfind
        refine ⟨c2, hc2, ?_⟩
        rw [← hcount, hcur]
        exact (hflag.countP_eq (by simp [setPhyError_setPhyError]) _ _ hmap).symm
    · rw [h5] at hrun
      have := (stopResult_ok hrun).1
      simp at this
    · rw [h4] at hrun
      simp at hrun

end SatPhyRxCarrierMarsala

namespace SatPhyRxCarrierPerFrame

/-! ## The removal of a decoded packet -/

theorem records_append (F1 F2 : Container) :
    Container.records (F1 ++ F2) = Container.records F1 + Container.records F2 := by
  simp [Container.records]

theorem records_cons (e : Nat × SlotContent) (F : Container) :
    Container.records (e :: F) = e.2.length + Container.records F := by
  simp [Container.records]

theorem records_nil : Container.records [] = 0 := rfl

theorem records_EliminateInterference (k : Nat) (content : SlotContent) (p : Packet) :
    Container.records (EliminateInterference (k, content) p) = content.length := by
  unfold EliminateInterference
  cases content <;> simp [Container.records]

/-- What one round of the removal of the replicas does, when it meets no fatal error: the
first slot under the sibling slot id holds a replica, the first one is taken out, and the
slot is dropped when nothing is left in it. -/
theorem removeReplicaInSlot_ok (c : Carrier α) (p : Packet) (y : Nat) :
    ∀ (cont cont1 : Container), removeReplicaInSlot c p y cont = .ok cont1 →
      ∃ B content A, cont = B ++ (y, content) :: A ∧ (∀ e ∈ B, e.1 ≠ y) ∧
        content.any (c.IsReplica p) = true ∧
        cont1 = B ++ EliminateInterference (y, content.eraseP (c.IsReplica p)) p ++ A := by
  intro cont
  induction cont with
  | nil => intro cont1 h; simp [removeReplicaInSlot] at h
  | cons e rest ih =>
    intro cont1 h
    obtain ⟨k, content⟩ := e
    rw [removeReplicaInSlot] at h
    by_cases hk : k = y
    · rw [if_pos hk] at h
      by_cases hany : content.any (c.IsReplica p) = true
      · rw [if_pos hany] at h
        simp only [Except.ok.injEq] at h
        exact ⟨[], content, rest, by simp [hk], by simp, hany, by simp [← h, hk]⟩
      · rw [if_neg hany] at h
        simp at h
    · rw [if_neg hk] at h
      cases hr : removeReplicaInSlot c p y rest with
      | error f => rw [hr] at h; simp at h
      | ok rest1 =>
        rw [hr] at h
        simp only [Except.ok.injEq] at h
        obtain ⟨B, content1, A, h1, h2, h3, h4⟩ := ih rest1 hr
        refine ⟨(k, content) :: B, content1, A, by simp [h1], ?_, h3, by simp [← h, h4]⟩
        intro e he
        rcases List.mem_cons.1 he with h5 | h5
        · rw [h5]; exact hk
        · exact h2 e h5

/-- One round of the removal takes one record out of the container. -/
theorem records_removeReplicaInSlot {c : Carrier α} {p : Packet} {y : Nat}
    {cont cont1 : Container} (h : removeReplicaInSlot c p y cont = .ok cont1) :
    Container.records cont1 + 1 = Container.records cont := by
  obtain ⟨B, content, A, h1, _, h3, h4⟩ := removeReplicaInSlot_ok c p y cont cont1 h
  rw [h1, h4, records_append, records_append, records_append, records_cons,
    records_EliminateInterference]
  have hlen : (content.eraseP (c.IsReplica p)).length = content.length - 1 := by
    rw [List.length_eraseP]
    simp [h3]
  have hpos : 0 < content.length := by
    cases content with
    | nil => simp at h3
    | cons a l => simp
  simp only
  omega

theorem records_removeReplicasIn {c : Carrier α} {p : Packet} :
    ∀ (ids : List Nat) (cont cont1 : Container), removeReplicasIn c p ids cont = .ok cont1 →
      Container.records cont1 + ids.length = Container.records cont := by
  intro ids
  induction ids with
  | nil => intro cont cont1 h; simp [removeReplicasIn] at h; simp [h]
  | cons y ys ih =>
    intro cont cont1 h
    rw [removeReplicasIn] at h
    cases hr : removeReplicaInSlot c p y cont with
    | error f => rw [hr] at h; simp at h
    | ok cont2 =>
      rw [hr] at h
      have h1 := records_removeReplicaInSlot hr
      have h2 := ih cont2 cont1 h
      simp only [List.length_cons]
      omega

/-- The removal of a decoded packet takes the record and one replica per sibling slot id
out of the container, and appends the record to the decoded output. -/
theorem records_commitDecoded {c : Carrier α} {B : Container} {k : Nat}
    {content : SlotContent} {A : Container} {p : Packet} {dec : List Packet}
    {tr : List (TraceEvent α)} {st1 : State α}
    (h : commitDecoded c B k content A p dec tr = .ok st1) :
    Container.records st1.container + p.slotIdsForOtherReplicas.length =
      Container.records B + content.length + Container.records A ∧
    st1.combinedPacketsForFrame = dec ++ [p] ∧ st1.trace = tr := by
  unfold commitDecoded at h
  split at h
  · simp at h
  · rename_i cont hc
    simp only [Except.ok.injEq] at h
    subst h
    have := records_removeReplicasIn _ _ _ hc
    rw [records_append, records_append, records_EliminateInterference] at this
    exact ⟨this, rfl, rfl⟩

/-! ## The decode pass of the SIC engine -/

/-- How the scan of a slot by the decode pass ends when it meets no fatal error: at the end
of the slot, which is left as it was, or with the removal of one of its records. -/
theorem decodeSlot_ok (c : Carrier α) (B : Container) (k : Nat) (A : Container)
    (dec : List Packet) :
    ∀ (todo S : SlotContent) (tr : List (TraceEvent α)) (r : SlotScan α),
      decodeSlot c B k A dec S tr todo = .ok r →
      (∃ tr1, r = SlotScan.next (S ++ todo) tr1) ∨
      (∃ st1 t1 q t2 tr1, r = SlotScan.decoded st1 ∧ todo = t1 ++ q :: t2 ∧
        commitDecoded c B k (S ++ t1 ++ t2) A q dec tr1 = .ok st1) := by
  intro todo
  induction todo with
  | nil =>
    intro S tr r h
    simp only [decodeSlot, Except.ok.injEq] at h
    left; exact ⟨tr, by simp [← h]⟩
  | cons p rest ih =>
    intro S tr r h
    rw [decodeSlot] at h
    split at h
    · rcases ih _ _ _ h with ⟨tr1, h1⟩ | ⟨st1, t1, q, t2, tr1, h1, h2, h3⟩
      · left; exact ⟨tr1, by simp [h1]⟩
      · right
        exact ⟨st1, p :: t1, q, t2, tr1, h1, by simp [h2], by simpa using h3⟩
    · right
      split at h
      · simp at h
      · rename_i st hc
        simp only [Except.ok.injEq] at h
        exact ⟨st, [], p, rest, _, h.symm, rfl, by simpa using hc⟩

/-- How the decode pass ends when it meets no fatal error: it returns false and leaves the
container and the decoded output as they were, or it returns true after the removal of one
record. -/
theorem decodeContainer_ok (c : Carrier α) (dec : List Packet) :
    ∀ (todo B : Container) (tr : List (TraceEvent α)) (b : Bool) (st1 : State α),
      decodeContainer c dec B tr todo = .ok (b, st1) →
      (b = false ∧ st1.container = B ++ todo ∧ st1.combinedPacketsForFrame = dec) ∨
      (b = true ∧ ∃ T1 k t1 q t2 T2 tr1, todo = T1 ++ (k, t1 ++ q :: t2) :: T2 ∧
        commitDecoded c (B ++ T1) k (t1 ++ t2) T2 q dec tr1 = .ok st1) := by
  intro todo
  induction todo with
  | nil =>
    intro B tr b st1 h
    simp only [decodeContainer, Except.ok.injEq, Prod.mk.injEq] at h
    left
    obtain ⟨h1, h2⟩ := h
    subst h2
    exact ⟨h1.symm, by simp, rfl⟩
  | cons e rest ih =>
    intro B tr b st1 h
    obtain ⟨k, content⟩ := e
    rw [decodeContainer] at h
    split at h
    · simp at h
    · split at h
      · simp at h
      · rename_i st hs
        simp only [Except.ok.injEq, Prod.mk.injEq] at h
        obtain ⟨h1, h2⟩ := h
        subst h2
        rcases decodeSlot_ok c B k rest dec content [] tr _ hs with ⟨tr1, h3⟩ |
            ⟨st2, t1, q, t2, tr1, h3, h4, h5⟩
        · simp at h3
        · right
          simp only [SlotScan.decoded.injEq] at h3
          subst h3
          exact ⟨h1.symm, [], k, t1, q, t2, rest, tr1, by simp [h4], by simpa using h5⟩
      · rename_i content1 tr1 hs
        rcases decodeSlot_ok c B k rest dec content [] tr _ hs with ⟨tr2, h3⟩ |
            ⟨st2, t1, q, t2, tr2, h3, _, _⟩
        · simp only [List.nil_append, SlotScan.next.injEq] at h3
          obtain ⟨h3, _⟩ := h3
          subst h3
          rcases ih _ _ _ _ h with ⟨h4, h5, h6⟩ | ⟨h4, T1, k1, t1, q, t2, T2, tr3, h5, h6⟩
          · left; exact ⟨h4, by simp [h5], h6⟩
          · right
            exact ⟨h4, (k, content1) :: T1, k1, t1, q, t2, T2, tr3, by simp [h5],
              by simpa using h6⟩
        · simp at h3

/-- How `DecodePass` ends when it meets no fatal error. -/
theorem DecodePass_ok {c : Carrier α} {st : State α} {b : Bool} {st1 : State α}
    (h : DecodePass c st = .ok (b, st1)) :
    (b = false ∧ st1.container = st.container ∧
      st1.combinedPacketsForFrame = st.combinedPacketsForFrame) ∨
    (b = true ∧ ∃ B k t1 q t2 A tr1, st.container = B ++ (k, t1 ++ q :: t2) :: A ∧
      commitDecoded c B k (t1 ++ t2) A q st.combinedPacketsForFrame tr1 = .ok st1) := by
  rcases decodeContainer_ok c _ _ _ _ _ _ h with ⟨h1, h2, h3⟩ |
      ⟨h1, T1, k, t1, q, t2, T2, tr1, h2, h3⟩
  · left; exact ⟨h1, by simpa using h2, h3⟩
  · right; exact ⟨h1, T1, k, t1, q, t2, T2, tr1, h2, by simpa using h3⟩

end SatPhyRxCarrierPerFrame

namespace SatPhyRxCarrierMarsala

open SatPhyRxCarrierPerFrame

/-! ## Termination of the decoding loops (C8) -/

theorem length_rejected (content : SlotContent) : (rejected content).length = content.length := by
  simp [rejected]

theorem records_rejectedSlots (F : Container) :
    Container.records (rejectedSlots F) = Container.records F := by
  simp [Container.records, rejectedSlots, Function.comp_def, length_rejected]

theorem length_rejectedSlots (F : Container) : (rejectedSlots F).length = F.length := by
  simp [rejectedSlots]

theorem records_view (P : Position) :
    Container.records P.view = Container.records P.container := by
  simp [Position.view, Position.container, Position.slotView, records_append, records_cons,
    records_rejectedSlots, length_rejected]

theorem records_container (P : Position) :
    Container.records P.container =
      Container.records P.before + (P.scanned.length + P.others.length + 1) +
        Container.records P.after := by
  simp [Position.container, records_append, records_cons]
  omega

section

variable {α : Type} [NatCast α] [Add α] [Sub α] [Div α] (c : Carrier α)

/-- How `PerformMarsala` ends when it meets no fatal error: it returns false and leaves the
records in their slots, with the verdict written to them, and the decoded output as it was;
or it returns true after the removal of the first accepted candidate. -/
theorem PerformMarsala_ok {st : State α} {b : Bool} {st1 : State α}
    (h : PerformMarsala c st = .ok (b, st1)) :
    (b = false ∧ st1.container = rejectedSlots st.container ∧
      st1.combinedPacketsForFrame = st.combinedPacketsForFrame) ∨
    (b = true ∧ ∃ P ∈ positions st.container, ∃ tr1,
      verdictAt c (u32 st.container.length) P = .ok false ∧
      commitAt c P st.combinedPacketsForFrame tr1 = .ok st1) := by
  rcases PerformMarsala_cases c st with ⟨_, _, h3⟩ | ⟨L1, P, L2, h1, _, h3, _, h5⟩ |
      ⟨_, _, _, _, _, _, h4⟩
  · rw [h3] at h
    simp only [Except.ok.injEq, Prod.mk.injEq] at h
    obtain ⟨h1, h2⟩ := h
    subst h2
    left; exact ⟨h1.symm, rfl, rfl⟩
  · rw [h5] at h
    obtain ⟨hb, hstop⟩ := stopResult_ok h
    obtain ⟨hv, hcommit⟩ := stopAt_ok c _ hstop h3
    right
    exact ⟨hb, P, by rw [h1]; simp, _, hv, hcommit⟩
  · rw [h4] at h
    simp at h

/-- A successful correlation pass takes at least one record out of the container and
appends one record to the decoded output. -/
theorem PerformMarsala_true_records {st st1 : State α}
    (h : PerformMarsala c st = .ok (true, st1)) :
    Container.records st1.container < Container.records st.container ∧
      st1.combinedPacketsForFrame.length = st.combinedPacketsForFrame.length + 1 := by
  rcases PerformMarsala_ok c h with ⟨hb, _⟩ | ⟨_, P, hP, tr1, _, hcommit⟩
  · simp at hb
  · obtain ⟨h1, h2, _⟩ := records_commitDecoded hcommit
    have h3 := records_container P
    rw [container_of_mem_positions hP] at h3
    rw [records_rejectedSlots, List.length_append, length_rejected] at h1
    constructor
    · omega
    · simp [h2]

/-- A correlation pass without success keeps the records and the decoded output. -/
theorem PerformMarsala_false_records {st st1 : State α}
    (h : PerformMarsala c st = .ok (false, st1)) :
    Container.records st1.container = Container.records st.container ∧
      st1.combinedPacketsForFrame = st.combinedPacketsForFrame := by
  rcases PerformMarsala_ok c h with ⟨_, h1, h2⟩ | ⟨hb, _⟩
  · exact ⟨by rw [h1, records_rejectedSlots], h2⟩
  · simp at hb

end

/-- A successful decode pass takes at least one record out of the container and appends one
record to the decoded output. -/
theorem DecodePass_true_records {c : Carrier α} {st st1 : State α}
    (h : DecodePass c st = .ok (true, st1)) :
    Container.records st1.container < Container.records st.container ∧
      st1.combinedPacketsForFrame.length = st.combinedPacketsForFrame.length + 1 := by
  rcases DecodePass_ok h with ⟨hb, _⟩ | ⟨_, B, k, t1, q, t2, A, tr1, h1, hcommit⟩
  · simp at hb
  · obtain ⟨h2, h3, _⟩ := records_commitDecoded hcommit
    rw [h1, records_append, records_cons]
    simp only [List.length_append, List.length_cons] at h2 ⊢
    constructor
    · omega
    · simp [h3]

/-- The SIC cycles of the base class end when the bound exceeds the number of records; they
take as many records out of the container as they append to the decoded output, or more. -/
theorem base_PerformSicCycles_terminates (c : Carrier α) :
    ∀ (fuel : Nat) (st : State α), Container.records st.container < fuel →
      SatPhyRxCarrierPerFrame.PerformSicCycles c fuel st ≠ Outcome.outOfFuel ∧
      ∀ out, SatPhyRxCarrierPerFrame.PerformSicCycles c fuel st = Outcome.done out →
        out.combinedPacketsForFrame.length + Container.records out.container ≤
          st.combinedPacketsForFrame.length + Container.records st.container ∧
        st.combinedPacketsForFrame.length ≤ out.combinedPacketsForFrame.length := by
  intro fuel
  induction fuel with
  | zero => intro st h; omega
  | succ n ih =>
    intro st hlt
    rw [SatPhyRxCarrierPerFrame.PerformSicCycles]
    cases hd : DecodePass c st with
    | error f => simp
    | ok r =>
      obtain ⟨b, st1⟩ := r
      cases b with
      | true =>
        obtain ⟨h1, h2⟩ := DecodePass_true_records hd
        obtain ⟨h3, h4⟩ := ih st1 (by omega)
        refine ⟨h3, ?_⟩
        intro out hout
        obtain ⟨h5, h6⟩ := h4 out hout
        constructor <;> omega
      | false =>
        rcases DecodePass_ok hd with ⟨_, h1, h2⟩ | ⟨hb, _⟩
        · simp only [ne_eq, reduceCtorEq, not_false_eq_true, Outcome.done.injEq, true_and]
          intro out hout
          subst hout
          rw [h1, h2]
          exact ⟨Nat.le_refl _, Nat.le_refl _⟩
        · simp at hb

/-- The loop of `SatPhyRxCarrierMarsala::PerformSicCycles` ends when the bounds exceed the
number of records. -/
theorem doWhile_terminates {α : Type} [NatCast α] [Add α] [Sub α] [Div α] (c : Carrier α)
    (fuel0 : Nat) :
    ∀ (n : Nat) (st : State α), Container.records st.container < n →
      Container.records st.container < fuel0 →
      doWhile (SatPhyRxCarrierPerFrame.PerformSicCycles c fuel0) (PerformMarsala c) n st ≠
        Outcome.outOfFuel ∧
      ∀ out, doWhile (SatPhyRxCarrierPerFrame.PerformSicCycles c fuel0) (PerformMarsala c) n
          st = Outcome.done out →
        out.combinedPacketsForFrame.length + Container.records out.container ≤
          st.combinedPacketsForFrame.length + Container.records st.container ∧
        st.combinedPacketsForFrame.length ≤ out.combinedPacketsForFrame.length := by
  intro n
  induction n with
  | zero => intro st h; omega
  | succ n ih =>
    intro st hlt hlt0
    rw [doWhile]
    obtain ⟨hb1, hb2⟩ := base_PerformSicCycles_terminates c fuel0 st hlt0
    cases hbase : SatPhyRxCarrierPerFrame.PerformSicCycles c fuel0 st with
    | outOfFuel => exact absurd hbase hb1
    | fatal f => simp
    | done s1 =>
      obtain ⟨h1, h2⟩ := hb2 s1 hbase
      simp only
      cases hm : PerformMarsala c s1 with
      | error f => simp
      | ok r =>
        obtain ⟨b, s2⟩ := r
        cases b with
        | true =>
          obtain ⟨h3, h4⟩ := PerformMarsala_true_records c hm
          obtain ⟨h5, h6⟩ := ih s2 (by omega) (by omega)
          refine ⟨h5, ?_⟩
          intro out hout
          obtain ⟨h7, h8⟩ := h6 out hout
          constructor <;> omega
        | false =>
          obtain ⟨h3, h4⟩ := PerformMarsala_false_records c hm
          simp only [ne_eq, reduceCtorEq, not_false_eq_true, Outcome.done.injEq, true_and]
          intro out hout
          subst hout
          rw [h3, h4]
          constructor <;> omega

/-- Claim C8: the loop of `SatPhyRxCarrierMarsala::PerformSicCycles` terminates. Each
successful pass, of the SIC engine or of the correlation, strictly reduces the number of
records held in the container and appends one record to the decoded output; hence on a
frame with `N` records, when the bound on the number of rounds exceeds `N`, the loop ends
(in a result or in a fatal error) without exhausting the bound, and at most `N` passes
succeed: the decoded output grows by at most `N` records. -/
theorem C8_marsala_loop_terminates {α : Type} [NatCast α] [Add α] [Sub α] [Div α]
    (c : Carrier α) (st : State α) (fuel : Nat)
    (hfuel : Container.records st.container < fuel) :
    (∀ s s1 : State α, DecodePass c s = .ok (true, s1) →
      Container.records s1.container < Container.records s.container ∧
      s1.combinedPacketsForFrame.length = s.combinedPacketsForFrame.length + 1) ∧
    (∀ s s1 : State α, PerformMarsala c s = .ok (true, s1) →
      Container.records s1.container < Container.records s.container ∧
      s1.combinedPacketsForFrame.length = s.combinedPacketsForFrame.length + 1) ∧
    PerformSicCycles c fuel st ≠ Outcome.outOfFuel ∧
    ∀ out, PerformSicCycles c fuel st = Outcome.done out →
      st.combinedPacketsForFrame.length ≤ out.combinedPacketsForFrame.length ∧
      out.combinedPacketsForFrame.length - st.combinedPacketsForFrame.length ≤
        Container.records st.container := by
  refine ⟨fun s s1 h => DecodePass_true_records h,
    fun s s1 h => PerformMarsala_true_records c h, ?_, ?_⟩
  · exact (doWhile_terminates c fuel fuel st hfuel hfuel).1
  · intro out hout
    obtain ⟨h1, h2⟩ := (doWhile_terminates c fuel fuel st hfuel hfuel).2 out hout
    constructor <;> omega


/-! ## What the removal of a decoded packet keeps -/

theorem find_eq_none_iff (x : Nat) :
    ∀ (cont : Container), cont.find x = none ↔ ∀ e ∈ cont, e.1 ≠ x := by
  intro cont
  induction cont with
  | nil => simp [Container.find]
  | cons e rest ih =>
    obtain ⟨k, content⟩ := e
    simp only [Container.find, List.mem_cons, forall_eq_or_imp]
    by_cases hk : k = x
    · simp [hk]
    · simp [hk, ih]

theorem find_some_mem {x : Nat} {content : SlotContent} :
    ∀ {cont : Container}, cont.find x = some content → (x, content) ∈ cont := by
  intro cont
  induction cont with
  | nil => intro h; simp [Container.find] at h
  | cons e rest ih =>
    intro h
    obtain ⟨k, content1⟩ := e
    simp only [Container.find] at h
    by_cases hk : k = x
    · simp only [hk, ↓reduceIte, Option.some.injEq] at h
      simp [hk, h]
    · simp only [hk, ↓reduceIte] at h
      exact List.mem_cons_of_mem _ (ih h)

theorem SubContainer.refl (F : Container) : SubContainer F F :=
  fun e he => ⟨e, he, rfl, fun _ hp => hp⟩

theorem SubContainer.trans {F1 F2 F3 : Container} (h12 : SubContainer F1 F2)
    (h23 : SubContainer F2 F3) : SubContainer F1 F3 := by
  intro e1 he1
  obtain ⟨e2, he2, hk2, hp2⟩ := h12 e1 he1
  obtain ⟨e3, he3, hk3, hp3⟩ := h23 e2 he2
  exact ⟨e3, he3, hk2.trans hk3, fun p hp => hp3 p (hp2 p hp)⟩

theorem SubContainer.find_none {F1 F : Container} (h : SubContainer F1 F) {x : Nat}
    (hx : F.find x = none) : F1.find x = none := by
  rw [find_eq_none_iff] at hx ⊢
  intro e1 he1
  obtain ⟨e, he, hk, _⟩ := h e1 he1
  rw [hk]; exact hx e he

theorem SubContainer.ownSlotIsHome {F1 F : Container} (h : SubContainer F1 F)
    (hown : OwnSlotIsHome F) : OwnSlotIsHome F1 := by
  intro e1 he1 p hp
  obtain ⟨e, he, hk, hmem⟩ := h e1 he1
  rw [hk]; exact hown e he p (hmem p hp)

theorem mem_EliminateInterference {k : Nat} {content : SlotContent} {p : Packet}
    {e : Nat × SlotContent} (h : e ∈ EliminateInterference (k, content) p) :
    e = (k, content) := by
  unfold EliminateInterference at h
  split at h
  · simp at h
  · simpa using h

theorem EliminateInterference_of_ne_nil {k : Nat} {content : SlotContent} (p : Packet)
    (h : content ≠ []) : EliminateInterference (k, content) p = [(k, content)] := by
  unfold EliminateInterference
  cases content with
  | nil => exact absurd rfl h
  | cons a l => simp

/-- One round of the removal leaves records that were there, in their slots. -/
theorem removeReplicaInSlot_sub {c : Carrier α} {p : Packet} {y : Nat}
    {cont cont1 : Container} (h : removeReplicaInSlot c p y cont = .ok cont1) :
    SubContainer cont1 cont := by
  obtain ⟨B, content, A, h1, _, _, h4⟩ := removeReplicaInSlot_ok c p y cont cont1 h
  intro e1 he1
  rw [h4] at he1
  rw [h1]
  rcases List.mem_append.1 he1 with h5 | h5
  · rcases List.mem_append.1 h5 with h6 | h6
    · exact ⟨e1, by simp [h6], rfl, fun _ hp => hp⟩
    · have := mem_EliminateInterference h6
      subst this
      exact ⟨(y, content), by simp, rfl, fun q hq => List.mem_of_mem_eraseP hq⟩
  · exact ⟨e1, by simp [h5], rfl, fun _ hp => hp⟩

/-- One round of the removal keeps every record that is not a replica of the packet. -/
theorem removeReplicaInSlot_keeps {c : Carrier α} {p : Packet} {y : Nat}
    {cont cont1 : Container} (h : removeReplicaInSlot c p y cont = .ok cont1)
    {e : Nat × SlotContent} (he : e ∈ cont) {r : Packet} (hr : r ∈ e.2)
    (hnot : c.IsReplica p r = false) :
    ∃ e1 ∈ cont1, e1.1 = e.1 ∧ r ∈ e1.2 := by
  obtain ⟨B, content, A, h1, _, _, h4⟩ := removeReplicaInSlot_ok c p y cont cont1 h
  rw [h1] at he
  rw [h4]
  rcases List.mem_append.1 he with h5 | h5
  · exact ⟨e, by simp [h5], rfl, hr⟩
  · rcases List.mem_cons.1 h5 with h6 | h6
    · subst h6
      have hmem : r ∈ content.eraseP (c.IsReplica p) :=
        (List.mem_eraseP_of_neg (by simp [hnot])).2 hr
      have hne : content.eraseP (c.IsReplica p) ≠ [] := List.ne_nil_of_mem hmem
      rw [EliminateInterference_of_ne_nil p hne]
      exact ⟨(y, content.eraseP (c.IsReplica p)), by simp, rfl, hmem⟩
    · exact ⟨e, by simp [h6], rfl, hr⟩

theorem removeReplicasIn_sub {c : Carrier α} {p : Packet} :
    ∀ (ids : List Nat) (cont cont1 : Container), removeReplicasIn c p ids cont = .ok cont1 →
      SubContainer cont1 cont := by
  intro ids
  induction ids with
  | nil =>
    intro cont cont1 h
    simp only [removeReplicasIn, Except.ok.injEq] at h
    rw [h]; exact SubContainer.refl _
  | cons y ys ih =>
    intro cont cont1 h
    rw [removeReplicasIn] at h
    cases hr : removeReplicaInSlot c p y cont with
    | error f => rw [hr] at h; simp at h
    | ok cont2 =>
      rw [hr] at h
      exact (ih cont2 cont1 h).trans (removeReplicaInSlot_sub hr)

theorem removeReplicasIn_keeps {c : Carrier α} {p : Packet} :
    ∀ (ids : List Nat) (cont cont1 : Container), removeReplicasIn c p ids cont = .ok cont1 →
      ∀ e ∈ cont, ∀ r ∈ e.2, c.IsReplica p r = false → ∃ e1 ∈ cont1, e1.1 = e.1 ∧ r ∈ e1.2 := by
  intro ids
  induction ids with
  | nil =>
    intro cont cont1 h e he r hr _
    simp only [removeReplicasIn, Except.ok.injEq] at h
    exact ⟨e, by rw [← h]; exact he, rfl, hr⟩
  | cons y ys ih =>
    intro cont cont1 h e he r hr hnot
    rw [removeReplicasIn] at h
    cases hrem : removeReplicaInSlot c p y cont with
    | error f => rw [hrem] at h; simp at h
    | ok cont2 =>
      rw [hrem] at h
      obtain ⟨e2, he2, hk2, hr2⟩ := removeReplicaInSlot_keeps hrem he hr hnot
      obtain ⟨e1, he1, hk1, hr1⟩ := ih cont2 cont1 h e2 he2 r hr2 hnot
      exact ⟨e1, he1, hk1.trans hk2, hr1⟩

/-- The removal of the replicas ends without a fatal error only when every sibling slot id
is the id of a slot of the container. -/
theorem removeReplicasIn_present {c : Carrier α} {p : Packet} :
    ∀ (ids : List Nat) (cont cont1 : Container), removeReplicasIn c p ids cont = .ok cont1 →
      ∀ x ∈ ids, cont.find x ≠ none := by
  intro ids
  induction ids with
  | nil => intro cont cont1 _ x hx; simp at hx
  | cons y ys ih =>
    intro cont cont1 h x hx
    rw [removeReplicasIn] at h
    cases hrem : removeReplicaInSlot c p y cont with
    | error f => rw [hrem] at h; simp at h
    | ok cont2 =>
      rw [hrem] at h
      rcases List.mem_cons.1 hx with h1 | h1
      · subst h1
        obtain ⟨B, content, A, h2, _, _, _⟩ := removeReplicaInSlot_ok c p x cont cont2 hrem
        intro hnone
        rw [find_eq_none_iff] at hnone
        exact hnone (x, content) (by rw [h2]; simp) rfl
      · intro hnone
        exact ih cont2 cont1 h x h1 ((removeReplicaInSlot_sub hrem).find_none hnone)


/-! ## A declared sibling slot that is absent from the frame (C4) -/

theorem mem_unflagged {F : Container} {e1 : Nat × SlotContent} :
    e1 ∈ unflagged F ↔ ∃ e ∈ F, e1 = (e.1, e.2.map (fun p => p.setPhyError false)) := by
  simp only [unflagged, List.mem_map]
  constructor
  · rintro ⟨e, he, rfl⟩; exact ⟨e, he, rfl⟩
  · rintro ⟨e, he, rfl⟩; exact ⟨e, he, rfl⟩

theorem ownSlotIsHome_unflagged (F : Container) :
    OwnSlotIsHome (unflagged F) ↔ OwnSlotIsHome F := by
  constructor
  · intro h e he p hp
    have := h (e.1, e.2.map (fun p => p.setPhyError false)) (mem_unflagged.2 ⟨e, he, rfl⟩)
      (p.setPhyError false) (List.mem_map_of_mem _ hp)
    simpa [setPhyError_ownSlotId] using this
  · intro h e1 he1 p1 hp1
    obtain ⟨e, he, rfl⟩ := mem_unflagged.1 he1
    simp only [List.mem_map] at hp1
    obtain ⟨p, hp, rfl⟩ := hp1
    simpa [setPhyError_ownSlotId] using h e he p hp

theorem declaresAbsentSlot_unflagged (x : Nat) (F : Container) :
    DeclaresAbsentSlot x (unflagged F) ↔ DeclaresAbsentSlot x F := by
  unfold DeclaresAbsentSlot
  rw [find_unflagged]
  constructor
  · rintro ⟨h1, e1, he1, r1, hr1, hx⟩
    obtain ⟨e, he, rfl⟩ := mem_unflagged.1 he1
    simp only [List.mem_map] at hr1
    obtain ⟨r, hr, rfl⟩ := hr1
    refine ⟨?_, e, he, r, hr, by simpa [setPhyError_slotIds] using hx⟩
    cases hf : F.find x with
    | none => rfl
    | some content => rw [hf] at h1; simp at h1
  · rintro ⟨h1, e, he, r, hr, hx⟩
    refine ⟨by simp [h1], (e.1, e.2.map (fun p => p.setPhyError false)),
      mem_unflagged.2 ⟨e, he, rfl⟩, r.setPhyError false, List.mem_map_of_mem _ hr, ?_⟩
    simpa [setPhyError_slotIds] using hx

/-- The removal of a decoded packet, when it meets no fatal error, keeps a record that
declares an absent sibling slot, provided the replicas of a packet declare the same slots
and every record carries the id of its slot. -/
theorem commitDecoded_keeps_absent {c : Carrier α} {B : Container} {k : Nat}
    {S O : SlotContent} {q : Packet} {A : Container} {p : Packet} {dec : List Packet}
    {tr : List (TraceEvent α)} {st1 : State α} {x : Nat}
    (hcommit : commitDecoded c B k (S ++ O) A p dec tr = .ok st1)
    (hids : p.slotIdsForOtherReplicas = q.slotIdsForOtherReplicas)
    (hownp : p.ownSlotId = q.ownSlotId)
    (hown : OwnSlotIsHome (B ++ (k, S ++ q :: O) :: A))
    (hsame : ReplicasDeclareSameSlots c)
    (habsent : DeclaresAbsentSlot x (B ++ (k, S ++ q :: O) :: A)) :
    DeclaresAbsentSlot x st1.container ∧ OwnSlotIsHome st1.container := by
  obtain ⟨_, _, hrem⟩ := commitDecoded_ok c hcommit
  obtain ⟨hnone, e, he, r, hr, hx⟩ := habsent
  have hsub0 : SubContainer (B ++ EliminateInterference (k, S ++ O) p ++ A)
      (B ++ (k, S ++ q :: O) :: A) := by
    intro e1 he1
    rcases List.mem_append.1 he1 with h5 | h5
    · rcases List.mem_append.1 h5 with h6 | h6
      · exact ⟨e1, by simp [h6], rfl, fun _ hp => hp⟩
      · have := mem_EliminateInterference h6
        subst this
        refine ⟨(k, S ++ q :: O), by simp, rfl, ?_⟩
        intro a ha
        rcases List.mem_append.1 ha with h7 | h7
        · simp [h7]
        · simp [h7]
    · exact ⟨e1, by simp [h5], rfl, fun _ hp => hp⟩
  have hsub1 := removeReplicasIn_sub _ _ _ hrem
  have hsub := hsub1.trans hsub0
  have hnone0 := hsub0.find_none hnone
  have hxp : x ∉ p.slotIdsForOtherReplicas := fun hmem =>
    removeReplicasIn_present _ _ _ hrem x hmem hnone0
  have hrq : r ≠ q := by
    intro h
    rw [h, ← hids] at hx
    exact hxp hx
  have hkey : k ≠ x := by
    have := (find_eq_none_iff x _).1 hnone (k, S ++ q :: O) (by simp)
    exact this
  have hnot : c.IsReplica p r = false := by
    cases hrep : c.IsReplica p r with
    | false => rfl
    | true =>
      rcases hsame p r hrep x hx with h1 | h1
      · exact absurd h1 hxp
      · have := hown (k, S ++ q :: O) (by simp) q (by simp)
        rw [hownp, this] at h1
        exact absurd h1.symm hkey
  have hr0 : ∃ e0 ∈ B ++ EliminateInterference (k, S ++ O) p ++ A, e0.1 = e.1 ∧ r ∈ e0.2 := by
    rcases List.mem_append.1 he with h5 | h5
    · exact ⟨e, by simp [h5], rfl, hr⟩
    · rcases List.mem_cons.1 h5 with h6 | h6
      · subst h6
        have hmem : r ∈ S ++ O := by
          rcases List.mem_append.1 hr with h7 | h7
          · simp [h7]
          · rcases List.mem_cons.1 h7 with h8 | h8
            · exact absurd h8 hrq
            · simp [h8]
        rw [EliminateInterference_of_ne_nil p (List.ne_nil_of_mem hmem)]
        exact ⟨(k, S ++ O), by simp, rfl, hmem⟩
      · exact ⟨e, by simp [h6], rfl, hr⟩
  obtain ⟨e0, he0, _, hre0⟩ := hr0
  obtain ⟨e1, he1, _, hre1⟩ := removeReplicasIn_keeps _ _ _ hrem e0 he0 r hre0 hnot
  exact ⟨⟨hsub.find_none hnone, e1, he1, r, hre1, hx⟩, hsub.ownSlotIsHome hown⟩

/-- The SIC cycles of the base class keep a record that declares an absent sibling slot. -/
theorem base_PerformSicCycles_keeps_absent (c : Carrier α) (hsame : ReplicasDeclareSameSlots c)
    (x : Nat) :
    ∀ (fuel : Nat) (st out : State α),
      OwnSlotIsHome st.container → DeclaresAbsentSlot x st.container →
      SatPhyRxCarrierPerFrame.PerformSicCycles c fuel st = Outcome.done out →
      OwnSlotIsHome out.container ∧ DeclaresAbsentSlot x out.container := by
  intro fuel
  induction fuel with
  | zero => intro st out _ _ h; simp [SatPhyRxCarrierPerFrame.PerformSicCycles] at h
  | succ n ih =>
    intro st out hown habsent h
    rw [SatPhyRxCarrierPerFrame.PerformSicCycles] at h
    cases hd : DecodePass c st with
    | error f => rw [hd] at h; simp at h
    | ok r =>
      obtain ⟨b, st1⟩ := r
      rw [hd] at h
      rcases DecodePass_ok hd with ⟨hb, h1, _⟩ | ⟨hb, B, k, t1, q, t2, A, tr1, h1, hcommit⟩
      · subst hb
        simp only [Outcome.done.injEq] at h
        subst h
        rw [h1]; exact ⟨hown, habsent⟩
      · subst hb
        simp only at h
        rw [h1] at hown habsent
        obtain ⟨h2, h3⟩ := commitDecoded_keeps_absent hcommit rfl rfl hown hsame habsent
        exact ih st1 out h3 h2 h

section

variable {α : Type} [NatCast α] [Add α] [Sub α] [Div α] (c : Carrier α)

/-- A correlation pass on a frame with a record that declares an absent sibling slot does
not return false, and a successful one keeps such a record. -/
theorem PerformMarsala_keeps_absent (hsame : ReplicasDeclareSameSlots c) (x : Nat)
    {st : State α} {b : Bool} {st1 : State α}
    (hown : OwnSlotIsHome st.container) (habsent : DeclaresAbsentSlot x st.container)
    (h : PerformMarsala c st = .ok (b, st1)) :
    b = true ∧ OwnSlotIsHome st1.container ∧ DeclaresAbsentSlot x st1.container := by
  rcases PerformMarsala_cases c st with ⟨_, h2, h3⟩ | ⟨L1, P, L2, h1, _, h3, _, h5⟩ |
      ⟨_, _, _, _, _, _, h4⟩
  · exfalso
    obtain ⟨hnone, e, he, r, hr, hx⟩ := habsent
    obtain ⟨P, hP, _, hcur, _⟩ := exists_position_of_mem he hr
    obtain ⟨content, hfind, _⟩ := (verdictAt_isOk c _ P).1 ⟨true, h2 P hP⟩ x
      (by rw [hcur]; exact hx)
    have h6 := find_unflagged x P.view
    rw [unflagged_view, container_of_mem_positions hP, find_unflagged, hnone, hfind] at h6
    simp at h6
  · rw [h5] at h
    obtain ⟨hb, hstop⟩ := stopResult_ok h
    obtain ⟨_, hcommit⟩ := stopAt_ok c _ hstop h3
    have hP : P ∈ positions st.container := by rw [h1]; simp
    have hview : unflagged P.view = unflagged st.container := by
      rw [unflagged_view, container_of_mem_positions hP]
    have hown1 : OwnSlotIsHome P.view := by
      rw [← ownSlotIsHome_unflagged, hview, ownSlotIsHome_unflagged]; exact hown
    have habs1 : DeclaresAbsentSlot x P.view := by
      rw [← declaresAbsentSlot_unflagged, hview, declaresAbsentSlot_unflagged]; exact habsent
    obtain ⟨h6, h7⟩ := commitDecoded_keeps_absent (q := P.current) hcommit rfl rfl hown1
      hsame habs1
    exact ⟨hb, h7, h6⟩
  · rw [h4] at h
    simp at h

/-- The loop of `PerformSicCycles` does not complete on a frame with a record that declares
an absent sibling slot. -/
theorem doWhile_absent_not_done (hsame : ReplicasDeclareSameSlots c) (x : Nat) (fuel0 : Nat) :
    ∀ (n : Nat) (st out : State α),
      OwnSlotIsHome st.container → DeclaresAbsentSlot x st.container →
      doWhile (SatPhyRxCarrierPerFrame.PerformSicCycles c fuel0) (PerformMarsala c) n st ≠
        Outcome.done out := by
  intro n
  induction n with
  | zero => intro st out _ _; simp [doWhile]
  | succ n ih =>
    intro st out hown habsent
    rw [doWhile]
    cases hbase : SatPhyRxCarrierPerFrame.PerformSicCycles c fuel0 st with
    | outOfFuel => simp
    | fatal f => simp
    | done s1 =>
      obtain ⟨h1, h2⟩ := base_PerformSicCycles_keeps_absent c hsame x fuel0 st s1 hown habsent
        hbase
      simp only
      cases hm : PerformMarsala c s1 with
      | error f => simp
      | ok r =>
        obtain ⟨b, s2⟩ := r
        obtain ⟨hb, h3, h4⟩ := PerformMarsala_keeps_absent c hsame x h1 h2 hm
        subst hb
        exact ih s2 out h3 h4

end

/-- Claim C4: on a frame in which some record declares a sibling slot id that is not the id
of a slot of the frame, the frame decode `PerformSicCycles` ends in a fatal error, whatever
the link results say, and so yields no decoded output (the bound on the rounds exceeding the
number of records); a correlation pass on such a frame does not return false; and the
evaluation of every candidate that declares the absent slot ends in a fatal error whatever
the link results would say of it, the lookup of the sibling slots coming first. The frame is
one the receiver can hold: every record is filed under its own slot id; and the replica
relation of the base class relates records of one packet, which declare the same slots. -/
theorem C4_absent_sibling_slot_aborts_decode {α : Type} [NatCast α] [Add α] [Sub α] [Div α]
    (c : Carrier α) (st : State α) (fuel : Nat) (x : Nat)
    (hfuel : Container.records st.container < fuel)
    (hown : OwnSlotIsHome st.container)
    (hsame : ReplicasDeclareSameSlots c)
    (habsent : DeclaresAbsentSlot x st.container) :
    (∃ f, PerformSicCycles c fuel st = Outcome.fatal f) ∧
    (∀ st1, PerformMarsala c st ≠ .ok (false, st1)) ∧
    (∀ P ∈ positions st.container, x ∈ P.current.slotIdsForOtherReplicas →
      ∀ nbSlots, ∃ f, verdictAt c nbSlots P = .error f) := by
  refine ⟨?_, fun st1 h => by
    have := (PerformMarsala_keeps_absent c hsame x hown habsent h).1
    simp at this, ?_⟩
  · have h1 := (doWhile_terminates c fuel fuel st hfuel hfuel).1
    have h2 := doWhile_absent_not_done c hsame x fuel fuel st
    unfold PerformSicCycles
    cases h : doWhile (SatPhyRxCarrierPerFrame.PerformSicCycles c fuel) (PerformMarsala c)
        fuel st with
    | outOfFuel => exact absurd h h1
    | fatal f => exact ⟨f, rfl⟩
    | done out => exact absurd h (h2 out hown habsent)
  · intro P hP hx nbSlots
    cases hv : verdictAt c nbSlots P with
    | error f => exact ⟨f, rfl⟩
    | ok b =>
      exfalso
      obtain ⟨content, hfind, _⟩ := (verdictAt_isOk c nbSlots P).1 ⟨b, hv⟩ x hx
      have h6 := find_unflagged x P.view
      rw [unflagged_view, container_of_mem_positions hP, find_unflagged, habsent.1, hfind] at h6
      simp at h6


/-! ## Scenario 3: a packet decoded by the correlation of its three replicas (C7) -/

/-- Claim C7: on a frame that consists of one logical packet with three replicas placed in
three distinct slots, and no other packet, whose single-slot SINR is rejected by the link
results and whose combined SINR (three replicas, occupancy three) is accepted, the frame
decode completes without a fatal error, with a decoded output that holds exactly that
packet, once; the SIC cycles of the base class decode nothing and leave the frame as it is,
and the packet is decoded by the correlation pass. -/
theorem C7_three_replicas_decoded_by_correlation {α : Type} [NatCast α] [Add α] [Sub α]
    [Div α] (c : Carrier α) (k1 k2 k3 : Nat) (p1 p2 p3 : Packet) (tr : List (TraceEvent α))
    (fuel : Nat)
    (hk12 : k1 < k2) (hk23 : k2 < k3)
    (hids : p1.slotIdsForOtherReplicas = [k2, k3] ∨ p1.slotIdsForOtherReplicas = [k3, k2])
    (hflag : FlagBlind c)
    (hrep2 : c.IsReplica p1 p2 = true) (hrep3 : c.IsReplica p1 p3 = true)
    (hsingle : ∀ p ∈ [p1, p2, p3],
      c.CheckAgainstLinkResults
        (c.CalculatePacketCompositeSinr [(k1, [p1]), (k2, [p2]), (k3, [p3])] p) p.rxParams =
          true)
    (hcombined :
      c.CheckAgainstLinkResults
        (combinedSinr 3 3
          (c.CalculatePacketCompositeSinr [(k1, [p1]), (k2, [p2]), (k3, [p3])] p1))
        p1.rxParams = false)
    (hfuel : 2 ≤ fuel) :
    ∃ tr1 tr2 tr3,
      SatPhyRxCarrierPerFrame.PerformSicCycles c fuel
          { container := [(k1, [p1]), (k2, [p2]), (k3, [p3])]
            combinedPacketsForFrame := [], trace := tr } =
        Outcome.done { container := [(k1, [p1]), (k2, [p2]), (k3, [p3])]
                       combinedPacketsForFrame := [], trace := tr1 } ∧
      PerformMarsala c { container := [(k1, [p1]), (k2, [p2]), (k3, [p3])]
                         combinedPacketsForFrame := [], trace := tr1 } =
        .ok (true, { container := [], combinedPacketsForFrame := [p1.setPhyError false]
                     trace := tr2 }) ∧
      PerformSicCycles c fuel
          { container := [(k1, [p1]), (k2, [p2]), (k3, [p3])]
            combinedPacketsForFrame := [], trace := tr } =
        Outcome.done { container := [], combinedPacketsForFrame := [p1.setPhyError false]
                       trace := tr3 } := by
  have h1 := hsingle p1 (by simp)
  have h2 := hsingle p2 (by simp)
  have h3 := hsingle p3 (by simp)
  have hr2 : c.IsReplica (p1.setPhyError false) p2 = true := by
    rw [hflag.left]; exact hrep2
  have hr3 : c.IsReplica (p1.setPhyError false) p3 = true := by
    rw [hflag.left]; exact hrep3
  have hne12 : k1 ≠ k2 := by omega
  have hne13 : k1 ≠ k3 := by omega
  have hne23 : k2 ≠ k3 := by omega
  have hbase : ∀ (n : Nat) (t : List (TraceEvent α)),
      DecodePass c { container := [(k1, [p1]), (k2, [p2]), (k3, [p3])]
                     combinedPacketsForFrame := [], trace := t } =
        .ok (false, { container := [(k1, [p1]), (k2, [p2]), (k3, [p3])]
                      combinedPacketsForFrame := []
                      trace := t ++
                        [TraceEvent.linkSinr (c.LinearToDb (c.CalculatePacketCompositeSinr
                          [(k1, [p1]), (k2, [p2]), (k3, [p3])] p1)),
                         TraceEvent.linkSinr (c.LinearToDb (c.CalculatePacketCompositeSinr
                          [(k1, [p1]), (k2, [p2]), (k3, [p3])] p2)),
                         TraceEvent.linkSinr (c.LinearToDb (c.CalculatePacketCompositeSinr
                          [(k1, [p1]), (k2, [p2]), (k3, [p3])] p3))] }) := by
    intro n t
    simp [DecodePass, decodeContainer, decodeSlot, h1, h2, h3]
  obtain ⟨n, rfl⟩ : ∃ n, fuel = n + 2 := ⟨fuel - 2, by omega⟩
  have hsic : SatPhyRxCarrierPerFrame.PerformSicCycles c (n + 2)
      { container := [(k1, [p1]), (k2, [p2]), (k3, [p3])]
        combinedPacketsForFrame := [], trace := tr } =
      Outcome.done
        { container := [(k1, [p1]), (k2, [p2]), (k3, [p3])]
          combinedPacketsForFrame := []
          trace := tr ++
            [TraceEvent.linkSinr (c.LinearToDb (c.CalculatePacketCompositeSinr
              [(k1, [p1]), (k2, [p2]), (k3, [p3])] p1)),
             TraceEvent.linkSinr (c.LinearToDb (c.CalculatePacketCompositeSinr
              [(k1, [p1]), (k2, [p2]), (k3, [p3])] p2)),
             TraceEvent.linkSinr (c.LinearToDb (c.CalculatePacketCompositeSinr
              [(k1, [p1]), (k2, [p2]), (k3, [p3])] p3))] } := by
    rw [SatPhyRxCarrierPerFrame.PerformSicCycles, hbase n tr]
  have hmars : ∀ t : List (TraceEvent α), ∃ t2,
      PerformMarsala c { container := [(k1, [p1]), (k2, [p2]), (k3, [p3])]
                         combinedPacketsForFrame := [], trace := t } =
        .ok (true, { container := [], combinedPacketsForFrame := [p1.setPhyError false]
                     trace := t2 }) := by
    intro t
    have hc : correlatedSinrOf 3 3 (c.CalculatePacketCompositeSinr
        [(k1, [p1]), (k2, [p2]), (k3, [p3])] p1) = combinedSinr 3 3
          (c.CalculatePacketCompositeSinr [(k1, [p1]), (k2, [p2]), (k3, [p3])] p1) := rfl
    refine ⟨t ++ evaluationEvents c p1
      { packetsInSlotsCount := 3, replicasCount := 3
        sinr := c.CalculatePacketCompositeSinr [(k1, [p1]), (k2, [p2]), (k3, [p3])] p1
        correlatedSinr := combinedSinr 3 3 (c.CalculatePacketCompositeSinr
          [(k1, [p1]), (k2, [p2]), (k3, [p3])] p1)
        phyError := false
        correlations := correlationsOf 3 2 }, ?_⟩
    rcases hids with hids | hids
    · simp [PerformMarsala, scanContainer, scanSlot, evaluateCandidate,
        countPacketsInReplicaSlots, hids, Container.find, hne12, hne13, hne23, hne12.symm,
        hne13.symm, hne23.symm, CheckReplicaInSlot, checkReplicaLoop, hrep2, hrep3, u32, hc,
        hcombined, commitDecoded, FindAndRemoveReplicas, removeReplicasIn,
        removeReplicaInSlot, EliminateInterference, hr2, hr3, setPhyError_slotIds,
        evaluationEvents]
    · simp [PerformMarsala, scanContainer, scanSlot, evaluateCandidate,
        countPacketsInReplicaSlots, hids, Container.find, hne12, hne13, hne23, hne12.symm,
        hne13.symm, hne23.symm, CheckReplicaInSlot, checkReplicaLoop, hrep2, hrep3, u32, hc,
        hcombined, commitDecoded, FindAndRemoveReplicas, removeReplicasIn,
        removeReplicaInSlot, EliminateInterference, hr2, hr3, setPhyError_slotIds,
        evaluationEvents]
  obtain ⟨t2, ht2⟩ := hmars (tr ++
    [TraceEvent.linkSinr (c.LinearToDb (c.CalculatePacketCompositeSinr
      [(k1, [p1]), (k2, [p2]), (k3, [p3])] p1)),
     TraceEvent.linkSinr (c.LinearToDb (c.CalculatePacketCompositeSinr
      [(k1, [p1]), (k2, [p2]), (k3, [p3])] p2)),
     TraceEvent.linkSinr (c.LinearToDb (c.CalculatePacketCompositeSinr
      [(k1, [p1]), (k2, [p2]), (k3, [p3])] p3))])
  refine ⟨_, t2, t2, hsic, ht2, ?_⟩
  rw [PerformSicCycles, doWhile, hsic]
  simp only [ht2]
  rw [doWhile]
  have hempty : ∀ (m : Nat) (t : List (TraceEvent α)),
      SatPhyRxCarrierPerFrame.PerformSicCycles c (m + 1)
        { container := [], combinedPacketsForFrame := [p1.setPhyError false], trace := t } =
      Outcome.done
        { container := [], combinedPacketsForFrame := [p1.setPhyError false], trace := t } := by
    intro m t
    simp [SatPhyRxCarrierPerFrame.PerformSicCycles, DecodePass, decodeContainer]
  rw [hempty]
  simp [PerformMarsala, scanContainer]


/-! ## The removal of a decoded packet from a frame that satisfies Invariant A -/

theorem keys_cons (e : Nat × SlotContent) (F : Container) :
    Container.keys (e :: F) = e.1 :: Container.keys F := rfl

theorem keys_append (F1 F2 : Container) :
    Container.keys (F1 ++ F2) = Container.keys F1 ++ Container.keys F2 := by
  simp [Container.keys]

theorem mem_keys {x : Nat} {F : Container} : x ∈ Container.keys F ↔ ∃ e ∈ F, e.1 = x := by
  simp [Container.keys]

/-- Taking the replicas out of slots that the container does not have changes nothing. -/
theorem withoutReplicas_of_not_mem (c : Carrier α) (p : Packet) (ks : List Nat) :
    ∀ (F : Container), (∀ e ∈ F, e.1 ∉ ks) → withoutReplicas c p ks F = F := by
  intro F
  induction F with
  | nil => intro _; rfl
  | cons e rest ih =>
    intro h
    rw [withoutReplicas, if_neg (h e (by simp)), ih (fun e he => h e (by simp [he]))]
    rfl

theorem withoutReplicas_append (c : Carrier α) (p : Packet) (ks : List Nat) (F1 F2 : Container) :
    withoutReplicas c p ks (F1 ++ F2) = withoutReplicas c p ks F1 ++ withoutReplicas c p ks F2 := by
  induction F1 with
  | nil => rfl
  | cons e rest ih => simp [withoutReplicas, ih, List.append_assoc]

/-- Adding a slot id that the container does not have changes nothing. -/
theorem withoutReplicas_cons_of_not_key (c : Carrier α) (p : Packet) (y : Nat) (ks : List Nat) :
    ∀ (F : Container), (∀ e ∈ F, e.1 ≠ y) →
      withoutReplicas c p (y :: ks) F = withoutReplicas c p ks F := by
  intro F
  induction F with
  | nil => intro _; rfl
  | cons e rest ih =>
    intro h
    have hy : e.1 ≠ y := h e (by simp)
    rw [withoutReplicas, withoutReplicas, ih (fun e he => h e (by simp [he]))]
    simp [hy]

/-- In a slot with one replica, taking the first replica out leaves the records that are
no replica. -/
theorem eraseP_eq_filter_of_countP_eq_one (f : Packet → Bool) :
    ∀ (l : SlotContent), l.countP f = 1 → l.eraseP f = l.filter (fun r => !f r) := by
  intro l
  induction l with
  | nil => intro h; simp at h
  | cons a l ih =>
    intro h
    by_cases ha : f a = true
    · rw [List.countP_cons_of_pos _ _ ha] at h
      have h0 : l.countP f = 0 := by omega
      rw [List.countP_eq_zero] at h0
      rw [List.eraseP_cons, ha, List.filter_cons]
      simp only [cond_true, ha, Bool.not_true, Bool.false_eq_true, ↓reduceIte]
      symm
      rw [List.filter_eq_self]
      intro b hb
      simpa using h0 b hb
    · rw [List.countP_cons_of_neg _ _ ha] at h
      rw [List.eraseP_cons, List.filter_cons]
      simp only [Bool.not_eq_true] at ha
      simp [ha, ih h]

theorem any_of_countP_eq_one (f : Packet → Bool) (l : SlotContent) (h : l.countP f = 1) :
    l.any f = true := by
  have : 0 < l.countP f := by omega
  rw [List.countP_pos_iff] at this
  simpa using this

/-- One round of the removal, on a container whose slot ids are distinct and whose slot
under the sibling slot id holds one replica. -/
theorem removeReplicaInSlot_withoutReplicas (c : Carrier α) (p : Packet) (y : Nat)
    (ks : List Nat) (hy : y ∉ ks) :
    ∀ (F : Container), (Container.keys F).Pairwise (fun a b => a < b) →
      (∃ content, (y, content) ∈ F ∧ content.countP (c.IsReplica p) = 1) →
      removeReplicaInSlot c p y (withoutReplicas c p ks F) =
        .ok (withoutReplicas c p (y :: ks) F) := by
  intro F
  induction F with
  | nil => intro _ h; simp at h
  | cons e rest ih =>
    intro hkeys hslot
    obtain ⟨k, content⟩ := e
    rw [keys_cons, List.pairwise_cons] at hkeys
    obtain ⟨hk, hrest⟩ := hkeys
    by_cases hky : k = y
    · subst hky
      have hnot : ∀ e ∈ rest, e.1 ≠ k := by
        intro e he h
        have := hk e.1 (mem_keys.2 ⟨e, he, rfl⟩)
        omega
      obtain ⟨content1, hmem, hcount⟩ := hslot
      have hc : content1 = content := by
        rcases List.mem_cons.1 hmem with h | h
        · simpa using h
        · exact absurd rfl (hnot _ h)
      subst hc
      rw [withoutReplicas, if_neg hy, withoutReplicas, if_pos (by simp),
        withoutReplicas_cons_of_not_key c p k ks rest hnot]
      simp only [List.singleton_append, removeReplicaInSlot, ↓reduceIte,
        any_of_countP_eq_one _ _ hcount]
      rw [eraseP_eq_filter_of_countP_eq_one _ _ hcount]
      rfl
    · obtain ⟨content1, hmem, hcount⟩ := hslot
      have hmem1 : (y, content1) ∈ rest := by
        rcases List.mem_cons.1 hmem with h | h
        · simp only [Prod.mk.injEq] at h
          exact absurd h.1.symm hky
        · exact h
      have hih := ih hrest ⟨content1, hmem1, hcount⟩
      rw [withoutReplicas, withoutReplicas]
      have hmem2 : (k ∈ y :: ks) ↔ k ∈ ks := by simp [hky]
      by_cases hkk : k ∈ ks
      · rw [if_pos hkk, if_pos (hmem2.2 hkk)]
        simp only
        unfold EliminateInterference
        split
        · simpa using hih
        · rw [List.singleton_append, List.singleton_append, removeReplicaInSlot, if_neg hky,
            hih]
      · rw [if_neg hkk, if_neg (fun h => hkk (hmem2.1 h))]
        rw [List.singleton_append, List.singleton_append, removeReplicaInSlot, if_neg hky, hih]

/-- The rounds of the removal over distinct sibling slot ids. -/
theorem removeReplicasIn_withoutReplicas (c : Carrier α) (p : Packet) (F : Container)
    (hkeys : (Container.keys F).Pairwise (fun a b => a < b)) :
    ∀ (ids ks : List Nat), ids.Nodup → (∀ y ∈ ids, y ∉ ks) →
      (∀ y ∈ ids, ∃ content, (y, content) ∈ F ∧ content.countP (c.IsReplica p) = 1) →
      removeReplicasIn c p ids (withoutReplicas c p ks F) =
        .ok (withoutReplicas c p (ids.reverse ++ ks) F) := by
  intro ids
  induction ids with
  | nil => intro ks _ _ _; simp [removeReplicasIn]
  | cons y ys ih =>
    intro ks hnodup hnot hslots
    rw [List.nodup_cons] at hnodup
    rw [removeReplicasIn, removeReplicaInSlot_withoutReplicas c p y ks (hnot y (by simp)) F
      hkeys (hslots y (by simp))]
    simp only
    rw [ih (y :: ks) hnodup.2 ?_ (fun z hz => hslots z (by simp [hz]))]
    · simp
    · intro z hz hmem
      rcases List.mem_cons.1 hmem with h | h
      · subst h; exact hnodup.1 hz
      · exact hnot z (by simp [hz]) h

/-- The result does not depend on the order of the slot ids. -/
theorem withoutReplicas_congr (c : Carrier α) (p : Packet) {ks1 ks2 : List Nat}
    (h : ∀ x, x ∈ ks1 ↔ x ∈ ks2) :
    ∀ (F : Container), withoutReplicas c p ks1 F = withoutReplicas c p ks2 F := by
  intro F
  induction F with
  | nil => rfl
  | cons e rest ih =>
    rw [withoutReplicas, withoutReplicas, ih]
    by_cases he : e.1 ∈ ks1
    · rw [if_pos he, if_pos ((h _).1 he)]
    · rw [if_neg he, if_neg (fun h2 => he ((h _).2 h2))]


theorem mem_withoutReplicas (c : Carrier α) (p : Packet) (ks : List Nat)
    (e1 : Nat × SlotContent) :
    ∀ (F : Container), e1 ∈ withoutReplicas c p ks F ↔
      ∃ e ∈ F, (e.1 ∉ ks ∧ e1 = e) ∨
        (e.1 ∈ ks ∧ e1 = (e.1, e.2.filter (fun r => !c.IsReplica p r)) ∧
          e.2.filter (fun r => !c.IsReplica p r) ≠ []) := by
  intro F
  induction F with
  | nil => simp [withoutReplicas]
  | cons e rest ih =>
    rw [withoutReplicas, List.mem_append, ih]
    simp only [List.mem_cons, exists_eq_or_imp]
    apply or_congr_left
    by_cases hk : e.1 ∈ ks
    · rw [if_pos hk]
      unfold EliminateInterference
      split
      · rename_i hempty
        simp only [List.isEmpty_iff] at hempty
        simp [hk, hempty]
      · rename_i hempty
        simp only [List.isEmpty_iff] at hempty
        simp [hk, hempty]
    · rw [if_neg hk]
      simp [hk]

theorem keys_withoutReplicas_sublist (c : Carrier α) (p : Packet) (ks : List Nat) :
    ∀ (F : Container),
      (Container.keys (withoutReplicas c p ks F)).Sublist (Container.keys F) := by
  intro F
  induction F with
  | nil => simp [withoutReplicas, Container.keys]
  | cons e rest ih =>
    rw [withoutReplicas, keys_append, keys_cons]
    by_cases hk : e.1 ∈ ks
    · rw [if_pos hk]
      unfold EliminateInterference
      split
      · simpa [Container.keys] using List.Sublist.cons e.1 ih
      · simpa [Container.keys] using List.Sublist.cons₂ e.1 ih
    · rw [if_neg hk]
      simpa [Container.keys] using List.Sublist.cons₂ e.1 ih

theorem withoutReplicas_sub (c : Carrier α) (p : Packet) (ks : List Nat) (F : Container) :
    SubContainer (withoutReplicas c p ks F) F := by
  intro e1 he1
  obtain ⟨e, he, h | h⟩ := (mem_withoutReplicas c p ks e1 F).1 he1
  · exact ⟨e, he, by rw [h.2], fun q hq => by rw [h.2] at hq; exact hq⟩
  · refine ⟨e, he, by rw [h.2.1], ?_⟩
    intro q hq
    rw [h.2.1] at hq
    exact List.mem_of_mem_filter hq

/-- Records of the slots that hold no replica: the filter leaves the slot as it is. -/
theorem filter_not_of_countP_eq_zero (f : Packet → Bool) (l : SlotContent)
    (h : l.countP f = 0) : l.filter (fun r => !f r) = l := by
  rw [List.filter_eq_self]
  rw [List.countP_eq_zero] at h
  intro a ha
  simpa using h a ha

section InvariantA

variable {α : Type} {c : Carrier α}

/-- In a frame that satisfies Invariant A, the removal of a decoded packet meets no fatal
error, and leaves the frame without the replicas of the packet in its home slot and its
sibling slots. -/
theorem commitDecoded_of_invariantA (hlaws : ReplicaEquivalence c) {B : Container} {k : Nat}
    {S O : SlotContent} {q : Packet} {A : Container} {p : Packet}
    (dec : List Packet) (tr : List (TraceEvent α))
    (hinv : InvariantA c (B ++ (k, S ++ q :: O) :: A))
    (hrep : ∀ r, c.IsReplica p r = c.IsReplica q r)
    (hids : p.slotIdsForOtherReplicas = q.slotIdsForOtherReplicas) :
    commitDecoded c B k (S ++ O) A p dec tr =
      .ok { container := withoutReplicas c p (k :: q.slotIdsForOtherReplicas)
              (B ++ (k, S ++ q :: O) :: A)
            combinedPacketsForFrame := dec ++ [p]
            trace := tr } := by
  have hkeys := hinv.ascending
  have hq : q ∈ S ++ q :: O := by simp
  have hhome : (k, S ++ q :: O) ∈ B ++ (k, S ++ q :: O) :: A := by simp
  obtain ⟨hnodup, hknot, hpresent⟩ := hinv.declared _ hhome q hq
  -- the home slot holds one replica, the record itself
  have hcount := hinv.placed _ hhome q hq _ hhome
  simp only [true_or, ↓reduceIte] at hcount
  have hqq : c.IsReplica q q = true := hlaws.refl q
  rw [List.countP_append, List.countP_cons_of_pos _ _ hqq] at hcount
  have hS : S.countP (c.IsReplica q) = 0 := by omega
  have hO : O.countP (c.IsReplica q) = 0 := by omega
  have hfun : c.IsReplica p = c.IsReplica q := funext hrep
  have hfilter : (S ++ q :: O).filter (fun r => !c.IsReplica p r) = S ++ O := by
    rw [hfun, List.filter_append, List.filter_cons]
    simp only [hqq, Bool.not_true, Bool.false_eq_true, ↓reduceIte]
    rw [filter_not_of_countP_eq_zero _ _ hS, filter_not_of_countP_eq_zero _ _ hO]
  -- the slot ids are distinct
  rw [keys_append, keys_cons, List.pairwise_append, List.pairwise_cons] at hkeys
  obtain ⟨_, ⟨hA, _⟩, hBA⟩ := hkeys
  have hBk : ∀ e ∈ B, e.1 ∉ [k] := by
    intro e he hmem
    have := hBA e.1 (mem_keys.2 ⟨e, he, rfl⟩) k (by simp)
    simp only [List.mem_singleton] at hmem
    omega
  have hAk : ∀ e ∈ A, e.1 ∉ [k] := by
    intro e he hmem
    have := hA e.1 (mem_keys.2 ⟨e, he, rfl⟩)
    simp only [List.mem_singleton] at hmem
    omega
  have hhomeEq : B ++ EliminateInterference (k, S ++ O) p ++ A =
      withoutReplicas c p [k] (B ++ (k, S ++ q :: O) :: A) := by
    rw [withoutReplicas_append, withoutReplicas_of_not_mem c p [k] B hBk, withoutReplicas,
      if_pos (by simp), withoutReplicas_of_not_mem c p [k] A hAk, hfilter, List.append_assoc]
  have hslots : ∀ y ∈ q.slotIdsForOtherReplicas, ∃ content,
      (y, content) ∈ B ++ (k, S ++ q :: O) :: A ∧ content.countP (c.IsReplica p) = 1 := by
    intro y hy
    obtain ⟨e, he, hey⟩ := mem_keys.1 (hpresent y hy)
    refine ⟨e.2, by rw [← hey]; exact he, ?_⟩
    have := hinv.placed _ hhome q hq e he
    rw [hfun, this, if_pos (Or.inr (by rw [hey]; exact hy))]
  have hrem := removeReplicasIn_withoutReplicas c p _ hinv.ascending
    q.slotIdsForOtherReplicas [k] hnodup
    (fun y hy hmem => hknot (by simp only [List.mem_singleton] at hmem; rw [← hmem]; exact hy))
    hslots
  unfold commitDecoded FindAndRemoveReplicas
  rw [hhomeEq, hids, hrem]
  simp only [Except.ok.injEq, State.mk.injEq, and_true]
  exact withoutReplicas_congr c p (by intro x; simp [or_comm]) _

/-- After the removal no slot holds a replica of the decoded packet. -/
theorem no_replica_in_withoutReplicas {B : Container} {k : Nat}
    {S O : SlotContent} {q : Packet} {A : Container} {p : Packet}
    (hinv : InvariantA c (B ++ (k, S ++ q :: O) :: A))
    (hrep : ∀ r, c.IsReplica p r = c.IsReplica q r) :
    ∀ e ∈ withoutReplicas c p (k :: q.slotIdsForOtherReplicas) (B ++ (k, S ++ q :: O) :: A),
      ∀ r ∈ e.2, c.IsReplica p r = false := by
  intro e1 he1 r hr
  obtain ⟨e, he, h | h⟩ := (mem_withoutReplicas c p _ e1 _).1 he1
  · obtain ⟨hnot, rfl⟩ := h
    have := hinv.placed (k, S ++ q :: O) (by simp) q (by simp) e1 he
    rw [if_neg (by simpa using hnot), List.countP_eq_zero] at this
    rw [hrep]
    simpa using this r hr
  · obtain ⟨_, rfl, _⟩ := h
    have := (List.mem_filter.1 hr).2
    simpa using this

/-- Invariant A is kept by the removal of a decoded packet. -/
theorem invariantA_withoutReplicas (hlaws : ReplicaEquivalence c) {B : Container} {k : Nat}
    {S O : SlotContent} {q : Packet} {A : Container} {p : Packet}
    (hinv : InvariantA c (B ++ (k, S ++ q :: O) :: A))
    (hrep : ∀ r, c.IsReplica p r = c.IsReplica q r) :
    InvariantA c
      (withoutReplicas c p (k :: q.slotIdsForOtherReplicas) (B ++ (k, S ++ q :: O) :: A)) := by
  have hnone := no_replica_in_withoutReplicas hinv hrep
  -- a record that stays has no replica among the replicas of the decoded packet
  have hother : ∀ e1 ∈ withoutReplicas c p (k :: q.slotIdsForOtherReplicas)
      (B ++ (k, S ++ q :: O) :: A), ∀ p2 ∈ e1.2, ∀ r, c.IsReplica p2 r = true →
        c.IsReplica p r = false := by
    intro e1 he1 p2 hp2 r hr
    cases hpr : c.IsReplica p r with
    | false => rfl
    | true =>
      have := hlaws.trans p r p2 hpr (hlaws.symm p2 r hr)
      rw [hnone e1 he1 p2 hp2] at this
      simp at this
  have hcountEq : ∀ e1 ∈ withoutReplicas c p (k :: q.slotIdsForOtherReplicas)
      (B ++ (k, S ++ q :: O) :: A), ∀ p2 ∈ e1.2, ∀ content : SlotContent,
        (content.filter (fun r => !c.IsReplica p r)).countP (c.IsReplica p2) =
          content.countP (c.IsReplica p2) := by
    intro e1 he1 p2 hp2 content
    rw [List.countP_filter]
    apply List.countP_congr
    intro r _
    constructor
    · intro h; simp only [Bool.and_eq_true] at h; exact h.1
    · intro h; simp [h, hother e1 he1 p2 hp2 r h]
  have horigin : ∀ e1 ∈ withoutReplicas c p (k :: q.slotIdsForOtherReplicas)
      (B ++ (k, S ++ q :: O) :: A), ∃ e ∈ B ++ (k, S ++ q :: O) :: A, e1.1 = e.1 ∧
        (∀ r ∈ e1.2, r ∈ e.2) ∧
        ∀ e0 ∈ withoutReplicas c p (k :: q.slotIdsForOtherReplicas)
          (B ++ (k, S ++ q :: O) :: A), ∀ p2 ∈ e0.2,
          e1.2.countP (c.IsReplica p2) = e.2.countP (c.IsReplica p2) := by
    intro e1 he1
    obtain ⟨e, he, h | h⟩ := (mem_withoutReplicas c p _ e1 _).1 he1
    · obtain ⟨_, rfl⟩ := h
      exact ⟨e1, he, rfl, fun _ hr => hr, fun _ _ _ _ => rfl⟩
    · obtain ⟨_, rfl, _⟩ := h
      exact ⟨e, he, rfl, fun r hr => List.mem_of_mem_filter hr,
        fun e0 he0 p2 hp2 => hcountEq e0 he0 p2 hp2 e.2⟩
  refine ⟨?_, ?_, ?_⟩
  · exact List.Pairwise.sublist (keys_withoutReplicas_sublist c p _ _) hinv.ascending
  · intro e1 he1 p2 hp2 e2 he2
    obtain ⟨e, he, hk1, hmem1, _⟩ := horigin e1 he1
    obtain ⟨e', he', hk2, _, hc2⟩ := horigin e2 he2
    rw [hc2 e1 he1 p2 hp2, hinv.placed e he p2 (hmem1 p2 hp2) e' he', hk1, hk2]
  · intro e1 he1 p2 hp2
    obtain ⟨e, he, hk1, hmem1, _⟩ := horigin e1 he1
    obtain ⟨h1, h2, h3⟩ := hinv.declared e he p2 (hmem1 p2 hp2)
    refine ⟨h1, by rw [hk1]; exact h2, ?_⟩
    intro x hx
    obtain ⟨ex, hex, hexk⟩ := mem_keys.1 (h3 x hx)
    have hcount := hinv.placed e he p2 (hmem1 p2 hp2) ex hex
    rw [if_pos (Or.inr (by rw [hexk]; exact hx))] at hcount
    have hpos : 0 < ex.2.countP (c.IsReplica p2) := by omega
    rw [List.countP_pos_iff] at hpos
    obtain ⟨r, hr, hrep2⟩ := hpos
    have hpr := hother e1 he1 p2 hp2 r hrep2
    rw [mem_keys]
    by_cases hmem : ex.1 ∈ k :: q.slotIdsForOtherReplicas
    · have hrf : r ∈ ex.2.filter (fun r => !c.IsReplica p r) :=
        List.mem_filter.2 ⟨hr, by simp [hpr]⟩
      exact ⟨(ex.1, ex.2.filter (fun r => !c.IsReplica p r)),
        (mem_withoutReplicas c p _ _ _).2 ⟨ex, hex, Or.inr ⟨hmem, rfl, List.ne_nil_of_mem hrf⟩⟩,
        hexk⟩
    · exact ⟨ex, (mem_withoutReplicas c p _ _ _).2 ⟨ex, hex, Or.inl ⟨hmem, rfl⟩⟩, hexk⟩

end InvariantA


/-! ## Invariant A and the decode-error flags -/

theorem keys_unflagged (F : Container) : Container.keys (unflagged F) = Container.keys F := by
  simp [Container.keys, unflagged, Function.comp_def]

/-- Entries of two containers that differ in decode-error flags only. -/
theorem exists_entry_of_unflagged_eq {F1 F2 : Container} (h : unflagged F1 = unflagged F2)
    {e2 : Nat × SlotContent} (he2 : e2 ∈ F2) :
    ∃ e1 ∈ F1, e1.1 = e2.1 ∧
      e1.2.map (fun p => p.setPhyError false) = e2.2.map (fun p => p.setPhyError false) := by
  have : (e2.1, e2.2.map (fun p => p.setPhyError false)) ∈ unflagged F1 := by
    rw [h]; exact mem_unflagged.2 ⟨e2, he2, rfl⟩
  obtain ⟨e1, he1, heq⟩ := mem_unflagged.1 this
  simp only [Prod.mk.injEq] at heq
  exact ⟨e1, he1, heq.1.symm, heq.2.symm⟩

theorem exists_record_of_map_eq {l1 l2 : SlotContent}
    (h : l1.map (fun p => p.setPhyError false) = l2.map (fun p => p.setPhyError false))
    {p2 : Packet} (hp2 : p2 ∈ l2) :
    ∃ p1 ∈ l1, p1.setPhyError false = p2.setPhyError false := by
  have : p2.setPhyError false ∈ l1.map (fun p => p.setPhyError false) := by
    rw [h]; exact List.mem_map_of_mem _ hp2
  simpa using this

theorem slotIds_eq_of_unflag_eq {p1 p2 : Packet}
    (h : p1.setPhyError false = p2.setPhyError false) :
    p1.slotIdsForOtherReplicas = p2.slotIdsForOtherReplicas := by
  have := congrArg Packet.slotIdsForOtherReplicas h
  simpa [setPhyError_slotIds] using this

/-- Invariant A does not depend on the decode-error flags of the records, when the replica
relation does not read them. -/
theorem InvariantA.of_unflagged_eq {c : Carrier α} (hflag : FlagBlind c) {F1 F2 : Container}
    (h : unflagged F1 = unflagged F2) (hinv : InvariantA c F1) : InvariantA c F2 := by
  have hkeys : Container.keys F2 = Container.keys F1 := by
    rw [← keys_unflagged F2, ← h, keys_unflagged]
  refine ⟨by rw [hkeys]; exact hinv.ascending, ?_, ?_⟩
  · intro e he p hp e2 he2
    obtain ⟨e', he', hk', hmap'⟩ := exists_entry_of_unflagged_eq h he
    obtain ⟨p', hp', hpe⟩ := exists_record_of_map_eq hmap' hp
    obtain ⟨e2', he2', hk2', hmap2'⟩ := exists_entry_of_unflagged_eq h he2
    rw [← hflag.countP_eq hpe _ _ hmap2', hinv.placed e' he' p' hp' e2' he2', hk', hk2',
      slotIds_eq_of_unflag_eq hpe]
  · intro e he p hp
    obtain ⟨e', he', hk', hmap'⟩ := exists_entry_of_unflagged_eq h he
    obtain ⟨p', hp', hpe⟩ := exists_record_of_map_eq hmap' hp
    have := hinv.declared e' he' p' hp'
    rw [slotIds_eq_of_unflag_eq hpe, hk', ← hkeys] at this
    exact this

/-- Records of two containers that differ in decode-error flags only. -/
theorem exists_flag_variant {F1 F2 : Container} (h : unflagged F1 = unflagged F2)
    {e2 : Nat × SlotContent} (he2 : e2 ∈ F2) {r2 : Packet} (hr2 : r2 ∈ e2.2) :
    ∃ e1 ∈ F1, ∃ r1 ∈ e1.2, r1.setPhyError false = r2.setPhyError false := by
  obtain ⟨e1, he1, _, hmap⟩ := exists_entry_of_unflagged_eq h he2
  obtain ⟨r1, hr1, hre⟩ := exists_record_of_map_eq hmap hr2
  exact ⟨e1, he1, r1, hr1, hre⟩

/-! ## What the frame decode keeps true from pass to pass -/

theorem mem_allRecords {r : Packet} :
    ∀ {F : Container}, r ∈ allRecords F ↔ ∃ e ∈ F, r ∈ e.2 := by
  intro F
  induction F with
  | nil => simp [allRecords]
  | cons e rest ih => simp [allRecords, ih]

section

variable {α : Type} {c : Carrier α}

/-- The decode invariant does not depend on the decode-error flags of the records of the
container. -/
theorem DecodeInvariant.of_flag_variant (hlaws : ReplicaEquivalence c) {start : List Packet}
    {st : State α} (F2 : Container) (tr : List (TraceEvent α))
    (h : unflagged st.container = unflagged F2) (hinv : DecodeInvariant c start st) :
    DecodeInvariant c start
      { container := F2, combinedPacketsForFrame := st.combinedPacketsForFrame, trace := tr } := by
  refine ⟨hinv.consistent.of_unflagged_eq hlaws.flagBlind h, ?_, hinv.distinct,
    hinv.decodedFrom, ?_⟩
  · intro d hd e he r hr
    obtain ⟨e1, he1, r1, hr1, hre⟩ := exists_flag_variant h he hr
    rw [← hinv.removed d hd e1 he1 r1 hr1]
    exact hlaws.flagBlind.eq_of_unflag rfl hre.symm
  · intro e he r hr
    obtain ⟨e1, he1, r1, hr1, hre⟩ := exists_flag_variant h he hr
    obtain ⟨r0, hr0, hrep⟩ := hinv.recordsFrom e1 he1 r1 hr1
    refine ⟨r0, hr0, ?_⟩
    rw [← hrep]
    exact hlaws.flagBlind.eq_of_unflag rfl hre.symm

/-- The decode invariant is kept by the removal of a decoded record. -/
theorem DecodeInvariant.commit (hlaws : ReplicaEquivalence c) {start : List Packet}
    {B : Container} {k : Nat} {S O : SlotContent} {q : Packet} {A : Container}
    {dec : List Packet} {tr0 tr : List (TraceEvent α)} (b : Bool) {st1 : State α}
    (hinv : DecodeInvariant c start
      { container := B ++ (k, S ++ q :: O) :: A, combinedPacketsForFrame := dec, trace := tr0 })
    (hcommit : commitDecoded c B k (S ++ O) A (q.setPhyError b) dec tr = .ok st1) :
    DecodeInvariant c start st1 ∧
      st1.combinedPacketsForFrame = dec ++ [q.setPhyError b] ∧
      ∀ e ∈ st1.container, ∀ r ∈ e.2, c.IsReplica (q.setPhyError b) r = false := by
  have hrep : ∀ r, c.IsReplica (q.setPhyError b) r = c.IsReplica q r :=
    fun r => hlaws.flagBlind.left q r b
  have hA := hinv.consistent
  simp only at hA
  rw [commitDecoded_of_invariantA hlaws dec tr hA hrep rfl] at hcommit
  simp only [Except.ok.injEq] at hcommit
  subst hcommit
  have hnone := no_replica_in_withoutReplicas hA hrep
  have hsub := withoutReplicas_sub c (q.setPhyError b) (k :: q.slotIdsForOtherReplicas)
    (B ++ (k, S ++ q :: O) :: A)
  have hqfrom := hinv.recordsFrom (k, S ++ q :: O) (by simp) q (by simp)
  refine ⟨⟨invariantA_withoutReplicas hlaws hA hrep, ?_, ?_, ?_, ?_⟩, rfl, hnone⟩
  · intro d hd e he r hr
    simp only [List.mem_append, List.mem_singleton] at hd
    rcases hd with hd | hd
    · obtain ⟨e0, he0, _, hmem⟩ := hsub e he
      exact hinv.removed d hd e0 he0 r (hmem r hr)
    · subst hd
      exact hnone e he r hr
  · simp only
    rw [List.pairwise_append]
    refine ⟨hinv.distinct, by simp, ?_⟩
    intro a ha d hd
    simp only [List.mem_singleton] at hd
    subst hd
    rw [hlaws.flagBlind.right]
    exact hinv.removed a ha (k, S ++ q :: O) (by simp) q (by simp)
  · intro d hd
    simp only [List.mem_append, List.mem_singleton] at hd
    rcases hd with hd | hd
    · exact hinv.decodedFrom d hd
    · subst hd
      obtain ⟨r0, hr0, hrep0⟩ := hqfrom
      exact ⟨r0, hr0, by rw [hlaws.flagBlind.right]; exact hrep0⟩
  · intro e he r hr
    obtain ⟨e0, he0, _, hmem⟩ := hsub e he
    exact hinv.recordsFrom e0 he0 r (hmem r hr)

/-- The decode invariant is kept by a decode pass of the SIC engine. -/
theorem DecodeInvariant.decodePass (hlaws : ReplicaEquivalence c) {start : List Packet}
    {st : State α} {b : Bool} {st1 : State α} (hinv : DecodeInvariant c start st)
    (h : DecodePass c st = .ok (b, st1)) : DecodeInvariant c start st1 := by
  rcases DecodePass_ok h with ⟨_, h1, h2⟩ | ⟨_, B, k, t1, q, t2, A, tr1, h1, hcommit⟩
  · have := hinv.of_flag_variant hlaws st1.container st1.trace (by rw [h1])
    rw [← h2] at this
    exact this
  · have hinv1 : DecodeInvariant c start
        { container := B ++ (k, t1 ++ q :: t2) :: A
          combinedPacketsForFrame := st.combinedPacketsForFrame, trace := st.trace } := by
      rw [← h1]; exact hinv
    rw [← setPhyError_self q] at hcommit
    exact (hinv1.commit hlaws q.phyError hcommit).1

/-- The decode invariant is kept by the SIC cycles of the base class. -/
theorem DecodeInvariant.sicCycles (hlaws : ReplicaEquivalence c) {start : List Packet} :
    ∀ (fuel : Nat) (st out : State α), DecodeInvariant c start st →
      SatPhyRxCarrierPerFrame.PerformSicCycles c fuel st = Outcome.done out →
      DecodeInvariant c start out := by
  intro fuel
  induction fuel with
  | zero => intro st out _ h; simp [SatPhyRxCarrierPerFrame.PerformSicCycles] at h
  | succ n ih =>
    intro st out hinv h
    rw [SatPhyRxCarrierPerFrame.PerformSicCycles] at h
    cases hd : DecodePass c st with
    | error f => rw [hd] at h; simp at h
    | ok r =>
      obtain ⟨b, st1⟩ := r
      rw [hd] at h
      have hinv1 := hinv.decodePass hlaws hd
      cases b with
      | true => exact ih st1 out hinv1 h
      | false =>
        simp only [Outcome.done.injEq] at h
        rw [← h]; exact hinv1

end


section

variable {α : Type} [NatCast α] [Add α] [Sub α] [Div α] {c : Carrier α}

/-- On a frame that satisfies Invariant A, a successful correlation pass leaves the frame
without the replicas of the decoded record, and Invariant A holds again. -/
theorem PerformMarsala_true_of_invariantA (hlaws : ReplicaEquivalence c) {st st1 : State α}
    (hinv : InvariantA c st.container) (h : PerformMarsala c st = .ok (true, st1)) :
    ∃ P ∈ positions st.container,
      st1.combinedPacketsForFrame =
        st.combinedPacketsForFrame ++ [P.current.setPhyError false] ∧
      st1.container = withoutReplicas c (P.current.setPhyError false)
        (P.slotId :: P.current.slotIdsForOtherReplicas) P.view ∧
      InvariantA c st1.container ∧
      ∀ e ∈ st1.container, ∀ r ∈ e.2, c.IsReplica (P.current.setPhyError false) r = false := by
  rcases PerformMarsala_ok c h with ⟨hb, _⟩ | ⟨_, P, hP, tr1, _, hcommit⟩
  · simp at hb
  · have hview : unflagged st.container = unflagged P.view := by
      rw [unflagged_view, container_of_mem_positions hP]
    have hinvV : InvariantA c P.view := hinv.of_unflagged_eq hlaws.flagBlind hview
    have hrep : ∀ r, c.IsReplica (P.current.setPhyError false) r = c.IsReplica P.current r :=
      fun r => hlaws.flagBlind.left P.current r false
    unfold commitAt at hcommit
    unfold Position.view Position.slotView at hinvV
    rw [commitDecoded_of_invariantA hlaws _ _ hinvV hrep rfl] at hcommit
    simp only [Except.ok.injEq] at hcommit
    subst hcommit
    exact ⟨P, hP, rfl, rfl, invariantA_withoutReplicas hlaws hinvV hrep,
      no_replica_in_withoutReplicas hinvV hrep⟩

/-- The decode invariant is kept by a correlation pass. -/
theorem DecodeInvariant.marsala (hlaws : ReplicaEquivalence c) {start : List Packet}
    {st : State α} {b : Bool} {st1 : State α} (hinv : DecodeInvariant c start st)
    (h : PerformMarsala c st = .ok (b, st1)) : DecodeInvariant c start st1 := by
  rcases PerformMarsala_ok c h with ⟨_, h1, h2⟩ | ⟨_, P, hP, tr1, _, hcommit⟩
  · have := hinv.of_flag_variant hlaws st1.container st1.trace
      (by rw [h1, unflagged_rejectedSlots])
    rw [← h2] at this
    exact this
  · have hview : unflagged st.container = unflagged P.view := by
      rw [unflagged_view, container_of_mem_positions hP]
    have hinvV := hinv.of_flag_variant hlaws P.view st.trace hview
    unfold Position.view Position.slotView at hinvV
    exact (hinvV.commit hlaws false hcommit).1

/-- The decode invariant is kept by the loop of `PerformSicCycles`. -/
theorem DecodeInvariant.doWhile (hlaws : ReplicaEquivalence c) {start : List Packet}
    (fuel0 : Nat) :
    ∀ (n : Nat) (st out : State α), DecodeInvariant c start st →
      doWhile (SatPhyRxCarrierPerFrame.PerformSicCycles c fuel0) (PerformMarsala c) n st =
        Outcome.done out →
      DecodeInvariant c start out := by
  intro n
  induction n with
  | zero => intro st out _ h; simp [SatPhyRxCarrierMarsala.doWhile] at h
  | succ n ih =>
    intro st out hinv h
    rw [SatPhyRxCarrierMarsala.doWhile] at h
    cases hbase : SatPhyRxCarrierPerFrame.PerformSicCycles c fuel0 st with
    | outOfFuel => rw [hbase] at h; simp at h
    | fatal f => rw [hbase] at h; simp at h
    | done s1 =>
      rw [hbase] at h
      simp only at h
      have hinv1 := DecodeInvariant.sicCycles hlaws fuel0 st s1 hinv hbase
      cases hm : PerformMarsala c s1 with
      | error f => rw [hm] at h; simp at h
      | ok r =>
        obtain ⟨b, s2⟩ := r
        rw [hm] at h
        have hinv2 := hinv1.marsala hlaws hm
        cases b with
        | true => exact ih s2 out hinv2 h
        | false =>
          simp only [Outcome.done.injEq] at h
          rw [← h]; exact hinv2

end

/-- The decode invariant holds when the decode starts, with an empty decoded output, on a
frame that satisfies Invariant A. -/
theorem DecodeInvariant.start {α : Type} {c : Carrier α} (hlaws : ReplicaEquivalence c)
    {st : State α} (hinv : InvariantA c st.container)
    (hempty : st.combinedPacketsForFrame = []) :
    DecodeInvariant c (allRecords st.container) st := by
  refine ⟨hinv, ?_, ?_, ?_, ?_⟩
  · intro d hd; rw [hempty] at hd; simp at hd
  · rw [hempty]; exact List.Pairwise.nil
  · intro d hd; rw [hempty] at hd; simp at hd
  · intro e he r hr
    exact ⟨r, mem_allRecords.2 ⟨e, he, hr⟩, hlaws.refl r⟩

/-- Claim C10: on a frame that satisfies Invariant A, with a replica relation that relates
the records of one logical packet (an equivalence that does not read the decode-error flag),
after a successful correlation pass no slot of the container holds the decoded record or a
replica of it; and in a frame decode that starts with an empty decoded output, no record
left in the container is a replica of a decoded record, so that no later pass evaluates a
decoded packet again, and the decoded output never holds two records that are replicas of
the same logical packet. -/
theorem C10_decoded_packet_leaves_every_slot {α : Type} [NatCast α] [Add α] [Sub α] [Div α]
    (c : Carrier α) (st : State α)
    (hlaws : ReplicaEquivalence c) (hinv : InvariantA c st.container) :
    (∀ st1, PerformMarsala c st = .ok (true, st1) →
      ∃ d, st1.combinedPacketsForFrame = st.combinedPacketsForFrame ++ [d] ∧
        ∀ e ∈ st1.container, ∀ r ∈ e.2,
          c.IsReplica d r = false ∧ c.IsReplica r d = false ∧ r ≠ d) ∧
    (∀ fuel out, st.combinedPacketsForFrame = [] →
      PerformSicCycles c fuel st = Outcome.done out →
      (∀ d ∈ out.combinedPacketsForFrame, ∀ e ∈ out.container, ∀ r ∈ e.2,
        c.IsReplica d r = false) ∧
      out.combinedPacketsForFrame.Pairwise
        (fun a b => c.IsReplica a b = false ∧ c.IsReplica b a = false)) := by
  have hsymm : ∀ a b, c.IsReplica a b = false → c.IsReplica b a = false := by
    intro a b hab
    cases hba : c.IsReplica b a with
    | false => rfl
    | true => rw [hlaws.symm b a hba] at hab; simp at hab
  constructor
  · intro st1 h
    obtain ⟨P, _, h1, _, _, h4⟩ := PerformMarsala_true_of_invariantA hlaws hinv h
    refine ⟨_, h1, ?_⟩
    intro e he r hr
    refine ⟨h4 e he r hr, hsymm _ _ (h4 e he r hr), ?_⟩
    intro hrd
    have := h4 e he r hr
    rw [hrd, hlaws.refl] at this
    simp at this
  · intro fuel out hempty hrun
    have hfinal := DecodeInvariant.doWhile hlaws fuel fuel st out
      (DecodeInvariant.start hlaws hinv hempty) hrun
    refine ⟨hfinal.removed, ?_⟩
    exact List.Pairwise.imp (fun hab => ⟨hab, hsymm _ _ hab⟩) hfinal.distinct

/-! ## The number of decoded records (C9) -/

/-- Every record has a replica among the representatives. -/
theorem representatives_cover {α : Type} {c : Carrier α} (hlaws : ReplicaEquivalence c) :
    ∀ (M : List Packet), ∀ r0 ∈ M, ∃ r ∈ representatives c M, c.IsReplica r r0 = true := by
  intro M
  induction M with
  | nil => intro r0 h; simp at h
  | cons p rest ih =>
    intro r0 hr0
    rw [representatives]
    rcases List.mem_cons.1 hr0 with h | h
    · subst h
      split
      · rename_i hany
        simpa using hany
      · exact ⟨r0, by simp, hlaws.refl r0⟩
    · obtain ⟨r, hr, hrep⟩ := ih r0 h
      split
      · exact ⟨r, hr, hrep⟩
      · exact ⟨r, by simp [hr], hrep⟩

/-- Records that are no replicas of each other, each a replica of one of the given records,
are at most as many as the given records. -/
theorem length_le_of_pairwise_not_replica {α : Type} {c : Carrier α}
    (hlaws : ReplicaEquivalence c) :
    ∀ (Rs L : List Packet), L.Pairwise (fun a b => c.IsReplica a b = false) →
      (∀ d ∈ L, ∃ r ∈ Rs, c.IsReplica r d = true) → L.length ≤ Rs.length := by
  intro Rs
  induction Rs with
  | nil =>
    intro L _ h
    cases L with
    | nil => simp
    | cons d L => obtain ⟨r, hr, _⟩ := h d (by simp); simp at hr
  | cons r rs ih =>
    intro L hpair hcover
    have hsplit : L.length =
        (L.filter (fun d => c.IsReplica r d)).length +
          (L.filter (fun d => !c.IsReplica r d)).length := by
      induction L with
      | nil => simp
      | cons a l ihl =>
        cases ha : c.IsReplica r a with
        | true =>
          simp only [List.filter_cons, ha, ↓reduceIte, Bool.not_true, Bool.false_eq_true,
            List.length_cons]
          have := ihl (List.Pairwise.of_cons hpair) (fun d hd => hcover d (by simp [hd]))
          omega
        | false =>
          simp only [List.filter_cons, ha, Bool.false_eq_true, ↓reduceIte, Bool.not_false,
            List.length_cons]
          have := ihl (List.Pairwise.of_cons hpair) (fun d hd => hcover d (by simp [hd]))
          omega
    have hone : (L.filter (fun d => c.IsReplica r d)).length ≤ 1 := by
      have hp := List.Pairwise.sublist (List.filter_sublist (p := fun d => c.IsReplica r d) L)
        hpair
      cases hL1 : L.filter (fun d => c.IsReplica r d) with
      | nil => simp
      | cons a l1 =>
        cases l1 with
        | nil => simp
        | cons b l2 =>
          exfalso
          rw [hL1] at hp
          have hab : c.IsReplica a b = false := by
            have := List.rel_of_pairwise_cons hp (List.mem_cons_self b l2)
            exact this
          have ha : c.IsReplica r a = true := by
            have : a ∈ L.filter (fun d => c.IsReplica r d) := by rw [hL1]; simp
            exact (List.mem_filter.1 this).2
          have hb : c.IsReplica r b = true := by
            have : b ∈ L.filter (fun d => c.IsReplica r d) := by rw [hL1]; simp
            exact (List.mem_filter.1 this).2
          have := hlaws.trans a r b (hlaws.symm r a ha) hb
          rw [hab] at this
          simp at this
    have hrest : (L.filter (fun d => !c.IsReplica r d)).length ≤ rs.length := by
      apply ih
      · exact List.Pairwise.sublist (List.filter_sublist L) hpair
      · intro d hd
        obtain ⟨hdL, hnot⟩ := List.mem_filter.1 hd
        obtain ⟨r1, hr1, hrep⟩ := hcover d hdL
        rcases List.mem_cons.1 hr1 with h | h
        · subst h
          rw [hrep] at hnot
          simp at hnot
        · exact ⟨r1, h, hrep⟩
    simp only [List.length_cons]
    omega

/-- Claim C9, amended: on a frame that satisfies Invariant A, with a replica relation that
relates the records of one logical packet, the number of records in the decoded output of a
completed frame decode that starts with an empty decoded output is at most the number of
distinct logical packets present in the container when the decode starts. -/
theorem C9_decoded_at_most_distinct_packets {α : Type} [NatCast α] [Add α] [Sub α] [Div α]
    (c : Carrier α) (st : State α) (fuel : Nat) (out : State α)
    (hlaws : ReplicaEquivalence c) (hinv : InvariantA c st.container)
    (hempty : st.combinedPacketsForFrame = [])
    (hrun : PerformSicCycles c fuel st = Outcome.done out) :
    out.combinedPacketsForFrame.length ≤ distinctPackets c st.container := by
  have hfinal := DecodeInvariant.doWhile hlaws fuel fuel st out
    (DecodeInvariant.start hlaws hinv hempty) hrun
  apply length_le_of_pairwise_not_replica hlaws _ _ hfinal.distinct
  intro d hd
  obtain ⟨r0, hr0, hrep0⟩ := hfinal.decodedFrom d hd
  obtain ⟨r, hr, hrep⟩ := representatives_cover hlaws _ r0 hr0
  exact ⟨r, hr, hlaws.trans r r0 d hrep hrep0⟩

/-- The claim C9 as stated fails: the only slot of the frame `duplicateFrame` holds two
records of one logical packet; the frame decode completes and its decoded output holds two
records, while one logical packet is present when the decode starts. -/
theorem C9_counterexample :
    PerformSicCycles exampleCarrier 3
        { container := duplicateFrame, combinedPacketsForFrame := [], trace := [] } =
      Outcome.done
        { container := []
          combinedPacketsForFrame := [exampleRecord 7 20 1 [], exampleRecord 7 20 1 []]
          trace := [TraceEvent.linkSinr 2, TraceEvent.linkSinr 2] } ∧
    distinctPackets exampleCarrier duplicateFrame = 1 ∧
    ¬ ([exampleRecord 7 20 1 [], exampleRecord 7 20 1 []].length ≤
        distinctPackets exampleCarrier duplicateFrame) := by
  refine ⟨by with_unfolding_all rfl, by decide, by decide⟩


/-! ## The example carrier -/

theorem sameSlotIds_iff (p q : Packet) :
    sameSlotIds p q = true ↔
      ∀ x, x ∈ p.ownSlotId :: p.slotIdsForOtherReplicas ↔
        x ∈ q.ownSlotId :: q.slotIdsForOtherReplicas := by
  unfold sameSlotIds
  simp only [Bool.and_eq_true, List.all_eq_true, List.elem_iff, List.contains]
  constructor
  · rintro ⟨h1, h2⟩ x
    exact ⟨h1 x, h2 x⟩
  · intro h
    exact ⟨fun x hx => (h x).1 hx, fun x hx => (h x).2 hx⟩

theorem exampleCarrier_isReplica (p q : Packet) :
    exampleCarrier.IsReplica p q = true ↔
      p.sourceAddress = q.sourceAddress ∧
        ∀ x, x ∈ p.ownSlotId :: p.slotIdsForOtherReplicas ↔
          x ∈ q.ownSlotId :: q.slotIdsForOtherReplicas := by
  simp only [exampleCarrier, Bool.and_eq_true, beq_iff_eq, sameSlotIds_iff]

theorem exampleCarrier_flagBlind : FlagBlind exampleCarrier := by
  intro p q b1 b2
  rfl

theorem exampleCarrier_laws : ReplicaEquivalence exampleCarrier := by
  refine ⟨?_, ?_, ?_, exampleCarrier_flagBlind⟩
  · intro p
    rw [exampleCarrier_isReplica]
    exact ⟨rfl, fun _ => Iff.rfl⟩
  · intro p q h
    rw [exampleCarrier_isReplica] at h ⊢
    exact ⟨h.1.symm, fun x => (h.2 x).symm⟩
  · intro p q r h1 h2
    rw [exampleCarrier_isReplica] at h1 h2 ⊢
    exact ⟨h1.1.trans h2.1, fun x => (h1.2 x).trans (h2.2 x)⟩

theorem exampleCarrier_declareSameSlots : ReplicasDeclareSameSlots exampleCarrier := by
  intro q r h x hx
  rw [exampleCarrier_isReplica] at h
  have := (h.2 x).2 (List.mem_cons_of_mem _ hx)
  rcases List.mem_cons.1 this with h1 | h1
  · right; exact h1
  · left; exact h1

theorem threeReplicasFrame_invariantA : InvariantA exampleCarrier threeReplicasFrame :=
  ⟨by decide, by decide, by decide⟩


/-! ## The claims on the example frames -/

/-- Witness of C1: the first replica of the frame of scenario 3, with three replicas
alone in their slots and the composite SINR one fifth, gets the combined SINR three
fifths. -/
theorem C1_combined_sinr_submitted_witness :
    evaluateCandidate exampleCarrier 3 threeReplicasFrame [exampleRecord 7 2 1 [2, 3]]
        (exampleRecord 7 2 1 [2, 3]) =
      .ok { packetsInSlotsCount := 3, replicasCount := 3, sinr := 1 / 5,
            correlatedSinr := 3 / 5, phyError := false, correlations := 2 } ∧
    ((1 / 5 : ℚ) = exampleCarrier.CalculatePacketCompositeSinr threeReplicasFrame
        (exampleRecord 7 2 1 [2, 3]) ∧
      (3 / 5 : ℚ) =
        combinedSinr (1 + (exampleRecord 7 2 1 [2, 3]).slotIdsForOtherReplicas.length)
          (occupancy threeReplicasFrame [exampleRecord 7 2 1 [2, 3]]
            (exampleRecord 7 2 1 [2, 3])) (1 / 5) ∧
      false = exampleCarrier.CheckAgainstLinkResults
        (combinedSinr (1 + (exampleRecord 7 2 1 [2, 3]).slotIdsForOtherReplicas.length)
          (occupancy threeReplicasFrame [exampleRecord 7 2 1 [2, 3]]
            (exampleRecord 7 2 1 [2, 3]))
          (exampleCarrier.CalculatePacketCompositeSinr threeReplicasFrame
            (exampleRecord 7 2 1 [2, 3]))) (exampleRecord 7 2 1 [2, 3]).rxParams) :=
  ⟨by with_unfolding_all rfl,
   C1_combined_sinr_submitted exampleCarrier 3 threeReplicasFrame [exampleRecord 7 2 1 [2, 3]]
    (exampleRecord 7 2 1 [2, 3])
    { packetsInSlotsCount := 3, replicasCount := 3, sinr := 1 / 5,
      correlatedSinr := 3 / 5, phyError := false, correlations := 2 }
    (by decide) (by decide) (by with_unfolding_all rfl)⟩

/-- Witness of C3: on the frame of scenario 3 one correlation pass succeeds; the calls are
the SIC cycles, a successful correlation pass, the SIC cycles and a correlation pass
without success. -/
theorem C3_sic_and_correlation_alternate_witness :
    PerformSicCycles exampleCarrier 4
        { container := threeReplicasFrame, combinedPacketsForFrame := [], trace := [] } =
      Outcome.done
        { container := [], combinedPacketsForFrame := [exampleRecord 7 2 1 [2, 3]]
          trace := [TraceEvent.linkSinr (1 / 5), TraceEvent.linkSinr (1 / 5),
            TraceEvent.linkSinr (1 / 5), TraceEvent.linkSinr (1 / 5),
            TraceEvent.marsalaCorrelationRx 2 7 false] } ∧
    ∃ k,
      doWhile (loggedBody (SatPhyRxCarrierPerFrame.PerformSicCycles exampleCarrier 4))
          (loggedCondition (PerformMarsala exampleCarrier)) 4
          (({ container := threeReplicasFrame, combinedPacketsForFrame := [], trace := [] } :
            State ℚ), []) =
        Outcome.done
          (({ container := [], combinedPacketsForFrame := [exampleRecord 7 2 1 [2, 3]]
              trace := [TraceEvent.linkSinr (1 / 5), TraceEvent.linkSinr (1 / 5),
                TraceEvent.linkSinr (1 / 5), TraceEvent.linkSinr (1 / 5),
                TraceEvent.marsalaCorrelationRx 2 7 false] } : State ℚ), alternation k) ∧
      (alternation k).count Call.sicCycles = k + 1 ∧
      (alternation k).count (Call.marsala true) = k ∧
      (alternation k).count (Call.marsala false) = 1 ∧
      (alternation k).getLast? = some (Call.marsala false) :=
  ⟨by with_unfolding_all rfl,
   C3_sic_and_correlation_alternate exampleCarrier 4 _ _ (by with_unfolding_all rfl)⟩

/-- Witness of C4: the only record of the frame `orphanFrame` declares the slot 9, and the
frame decode ends in a fatal error. -/
theorem C4_absent_sibling_slot_aborts_decode_witness :
    DeclaresAbsentSlot 9 orphanFrame ∧
    ((∃ f, PerformSicCycles exampleCarrier 2
      { container := orphanFrame, combinedPacketsForFrame := [], trace := [] } =
        Outcome.fatal f) ∧
    (∀ st1, PerformMarsala exampleCarrier
      { container := orphanFrame, combinedPacketsForFrame := [], trace := [] } ≠
        .ok (false, st1)) ∧
    (∀ P ∈ positions orphanFrame, 9 ∈ P.current.slotIdsForOtherReplicas →
      ∀ nbSlots, ∃ f, verdictAt exampleCarrier nbSlots P = .error f)) :=
  ⟨⟨rfl, (1, [exampleRecord 7 2 1 [9]]), by simp [orphanFrame], exampleRecord 7 2 1 [9],
      by simp, by simp [exampleRecord]⟩,
   C4_absent_sibling_slot_aborts_decode exampleCarrier
    { container := orphanFrame, combinedPacketsForFrame := [], trace := [] } 2 9
    (by decide) (by unfold OwnSlotIsHome; decide) exampleCarrier_declareSameSlots
    ⟨rfl, (1, [exampleRecord 7 2 1 [9]]), by simp [orphanFrame], exampleRecord 7 2 1 [9],
      by simp, by simp [exampleRecord]⟩⟩

/-- Witness of C5: in the frame `mismatchFrame` the first candidate declares the slot 2,
which holds no replica of it, and `PerformMarsala` ends in a fatal error. -/
theorem C5_sibling_slot_without_replica_is_fatal_witness :
    PerformMarsala exampleCarrier
        { container := mismatchFrame, combinedPacketsForFrame := [], trace := [] } =
      .error (Fault.noReplicaInSlot 2) ∧
    ∃ f, PerformMarsala exampleCarrier
      { container := mismatchFrame, combinedPacketsForFrame := [], trace := [] } = .error f :=
  ⟨by with_unfolding_all rfl,
   C5_sibling_slot_without_replica_is_fatal exampleCarrier
    { container := mismatchFrame, combinedPacketsForFrame := [], trace := [] } []
    { before := [], slotId := 1, scanned := [], current := exampleRecord 7 2 1 [2], others := []
      after := [(2, [exampleRecord 8 20 2 []])] }
    [{ before := [(1, [exampleRecord 7 2 1 [2]])], slotId := 2, scanned := []
       current := exampleRecord 8 20 2 [], others := [], after := [] }]
    2 [exampleRecord 8 20 2 []]
    (by decide) (by simp) (by decide) (by decide) (by decide)⟩

/-- Witness of C6: a frame whose first slot is empty ends in the fatal error; on the frame
`weakFrame` the correlation pass returns false and the frame is consistent. -/
theorem C6_empty_slot_is_fatal_and_false_means_consistent_witness :
    PerformMarsala exampleCarrier
        { container := [(1, [])], combinedPacketsForFrame := [], trace := [] } =
      .error Fault.noPacketInSlot ∧
    ((∀ e ∈ weakFrame, e.2 ≠ []) ∧
      (∀ P ∈ positions weakFrame, ∀ x ∈ P.current.slotIdsForOtherReplicas,
        ∃ content, P.view.find x = some content ∧
          content.countP (exampleCarrier.IsReplica P.current) = 1) ∧
      (FlagBlind exampleCarrier →
        (∀ e ∈ rejectedSlots weakFrame, e.2 ≠ []) ∧
        ∀ e ∈ rejectedSlots weakFrame, ∀ p ∈ e.2, ∀ x ∈ p.slotIdsForOtherReplicas,
          ∃ content, (rejectedSlots weakFrame).find x = some content ∧
            content.countP (exampleCarrier.IsReplica p) = 1)) :=
  ⟨(C6_empty_slot_is_fatal_and_false_means_consistent exampleCarrier
      { container := [(1, [])], combinedPacketsForFrame := [], trace := [] }).1 [] 1 [] rfl
      (by simp) (by simp),
   (C6_empty_slot_is_fatal_and_false_means_consistent exampleCarrier
      { container := weakFrame, combinedPacketsForFrame := [], trace := [] }).2
      { container := rejectedSlots weakFrame, combinedPacketsForFrame := []
        trace := [TraceEvent.linkSinr (1 / 5), TraceEvent.marsalaCorrelationRx 1 7 true,
          TraceEvent.linkSinr (1 / 5), TraceEvent.marsalaCorrelationRx 1 7 true] }
      (by with_unfolding_all rfl)⟩

/-- Witness of C7: the frame of scenario 3 with the example carrier: the composite SINR one
fifth is rejected, the combined SINR three fifths is accepted. -/
theorem C7_three_replicas_decoded_by_correlation_witness :
    ∃ tr1 tr2 tr3,
      SatPhyRxCarrierPerFrame.PerformSicCycles exampleCarrier 2
          { container := [(1, [exampleRecord 7 2 1 [2, 3]]), (2, [exampleRecord 7 2 2 [1, 3]]),
              (3, [exampleRecord 7 2 3 [1, 2]])]
            combinedPacketsForFrame := [], trace := [] } =
        Outcome.done
          { container := [(1, [exampleRecord 7 2 1 [2, 3]]), (2, [exampleRecord 7 2 2 [1, 3]]),
              (3, [exampleRecord 7 2 3 [1, 2]])]
            combinedPacketsForFrame := [], trace := tr1 } ∧
      PerformMarsala exampleCarrier
          { container := [(1, [exampleRecord 7 2 1 [2, 3]]), (2, [exampleRecord 7 2 2 [1, 3]]),
              (3, [exampleRecord 7 2 3 [1, 2]])]
            combinedPacketsForFrame := [], trace := tr1 } =
        .ok (true, { container := []
                     combinedPacketsForFrame := [(exampleRecord 7 2 1 [2, 3]).setPhyError false]
                     trace := tr2 }) ∧
      PerformSicCycles exampleCarrier 2
          { container := [(1, [exampleRecord 7 2 1 [2, 3]]), (2, [exampleRecord 7 2 2 [1, 3]]),
              (3, [exampleRecord 7 2 3 [1, 2]])]
            combinedPacketsForFrame := [], trace := [] } =
        Outcome.done
          { container := []
            combinedPacketsForFrame := [(exampleRecord 7 2 1 [2, 3]).setPhyError false]
            trace := tr3 } :=
  C7_three_replicas_decoded_by_correlation exampleCarrier 1 2 3 (exampleRecord 7 2 1 [2, 3])
    (exampleRecord 7 2 2 [1, 3]) (exampleRecord 7 2 3 [1, 2]) [] 2 (by decide) (by decide)
    (Or.inl rfl) exampleCarrier_flagBlind (by decide) (by decide)
    (by
      intro p hp
      simp only [List.mem_cons, List.mem_singleton, List.not_mem_nil, or_false] at hp
      rcases hp with h | h | h <;> subst h <;> with_unfolding_all rfl)
    (by with_unfolding_all rfl) (by decide)

/-- Witness of C8: the example frame holds four records; with the bound five the loop
ends. -/
theorem C8_marsala_loop_terminates_witness :
    Container.records exampleFrame < 5 ∧
    ((∀ s s1 : State ℚ, DecodePass exampleCarrier s = .ok (true, s1) →
      Container.records s1.container < Container.records s.container ∧
      s1.combinedPacketsForFrame.length = s.combinedPacketsForFrame.length + 1) ∧
    (∀ s s1 : State ℚ, PerformMarsala exampleCarrier s = .ok (true, s1) →
      Container.records s1.container < Container.records s.container ∧
      s1.combinedPacketsForFrame.length = s.combinedPacketsForFrame.length + 1) ∧
    PerformSicCycles exampleCarrier 5
        { container := exampleFrame, combinedPacketsForFrame := [], trace := [] } ≠
      Outcome.outOfFuel ∧
    ∀ out, PerformSicCycles exampleCarrier 5
        { container := exampleFrame, combinedPacketsForFrame := [], trace := [] } =
          Outcome.done out →
      ([] : List Packet).length ≤ out.combinedPacketsForFrame.length ∧
      out.combinedPacketsForFrame.length - ([] : List Packet).length ≤
        Container.records exampleFrame) :=
  ⟨by decide,
   C8_marsala_loop_terminates exampleCarrier
    { container := exampleFrame, combinedPacketsForFrame := [], trace := [] } 5 (by decide)⟩

/-- Witness of the amended C9: the frame of scenario 3 holds one logical packet, and its
decode yields one record. -/
theorem C9_decoded_at_most_distinct_packets_witness :
    distinctPackets exampleCarrier threeReplicasFrame = 1 ∧
    [exampleRecord 7 2 1 [2, 3]].length ≤ distinctPackets exampleCarrier threeReplicasFrame :=
  ⟨by decide,
   C9_decoded_at_most_distinct_packets exampleCarrier
    { container := threeReplicasFrame, combinedPacketsForFrame := [], trace := [] } 4
    { container := [], combinedPacketsForFrame := [exampleRecord 7 2 1 [2, 3]]
      trace := [TraceEvent.linkSinr (1 / 5), TraceEvent.linkSinr (1 / 5),
        TraceEvent.linkSinr (1 / 5), TraceEvent.linkSinr (1 / 5),
        TraceEvent.marsalaCorrelationRx 2 7 false] }
    exampleCarrier_laws threeReplicasFrame_invariantA rfl (by with_unfolding_all rfl)⟩

/-- Witness of C10: the frame of scenario 3 satisfies Invariant A with the example
carrier. -/
theorem C10_decoded_packet_leaves_every_slot_witness :
    InvariantA exampleCarrier threeReplicasFrame ∧
    ((∀ st1, PerformMarsala exampleCarrier
        { container := threeReplicasFrame, combinedPacketsForFrame := [], trace := [] } =
          .ok (true, st1) →
      ∃ d, st1.combinedPacketsForFrame = [] ++ [d] ∧
        ∀ e ∈ st1.container, ∀ r ∈ e.2,
          exampleCarrier.IsReplica d r = false ∧ exampleCarrier.IsReplica r d = false ∧
            r ≠ d) ∧
    (∀ fuel out, ([] : List Packet) = [] →
      PerformSicCycles exampleCarrier fuel
        { container := threeReplicasFrame, combinedPacketsForFrame := [], trace := [] } =
          Outcome.done out →
      (∀ d ∈ out.combinedPacketsForFrame, ∀ e ∈ out.container, ∀ r ∈ e.2,
        exampleCarrier.IsReplica d r = false) ∧
      out.combinedPacketsForFrame.Pairwise
        (fun a b => exampleCarrier.IsReplica a b = false ∧
          exampleCarrier.IsReplica b a = false))) :=
  ⟨threeReplicasFrame_invariantA,
   C10_decoded_packet_leaves_every_slot exampleCarrier
    { container := threeReplicasFrame, combinedPacketsForFrame := [], trace := [] }
    exampleCarrier_laws threeReplicasFrame_invariantA⟩


/-! ## A correlation pass that rejects every candidate (C11) -/

/-- The records of a slot the scan has passed without decoding are the records it held, in
the same order, each with the decode-error flag set and no other field changed. -/
theorem forall2_rejected :
    ∀ (content : SlotContent),
      List.Forall₂ (fun p q : Packet => q.rxParams = p.rxParams ∧
        q.sourceAddress = p.sourceAddress ∧ q.ownSlotId = p.ownSlotId ∧
        q.slotIdsForOtherReplicas = p.slotIdsForOtherReplicas ∧ q.phyError = true)
        content (rejected content)
  | [] => List.Forall₂.nil
  | _ :: rest =>
    List.Forall₂.cons ⟨rfl, rfl, rfl, rfl, rfl⟩ (forall2_rejected rest)

/-- The entries the scan has passed without decoding are the entries of the container, in
the same order and under the same slot ids. -/
theorem forall2_rejectedSlots :
    ∀ (F : Container),
      List.Forall₂ (fun e e1 : Nat × SlotContent => e1.1 = e.1 ∧
        List.Forall₂ (fun p q : Packet => q.rxParams = p.rxParams ∧
          q.sourceAddress = p.sourceAddress ∧ q.ownSlotId = p.ownSlotId ∧
          q.slotIdsForOtherReplicas = p.slotIdsForOtherReplicas ∧ q.phyError = true)
          e.2 e1.2) F (rejectedSlots F)
  | [] => List.Forall₂.nil
  | e :: rest =>
    List.Forall₂.cons ⟨rfl, forall2_rejected e.2⟩ (forall2_rejectedSlots rest)

/-- A scan that stops at a candidate that is not accepted ends in a fatal error. -/
theorem stopAt_error_of_not_accepted {α : Type} [NatCast α] [Add α] [Sub α] [Div α]
    (c : Carrier α) (nb : Nat) (dec : List Packet) (tr : List (TraceEvent α)) (P : Position)
    (h1 : verdictAt c nb P ≠ .ok true) (h2 : verdictAt c nb P ≠ .ok false) :
    ∃ f, stopAt c nb dec tr P = .error f := by
  unfold stopAt
  cases hv : verdictAt c nb P with
  | error f => exact ⟨f, rfl⟩
  | ok b =>
    cases b with
    | true => exact absurd hv h1
    | false => exact absurd hv h2

/-- Claim C11: on a frame on which the link results accept no candidate, (1) if every slot
holds a record and the integrity checks of every candidate pass, `PerformMarsala` returns
false; (2) whenever `PerformMarsala` returns a value (it meets no integrity fault), that
value is false, the decoded output is unchanged, and the container holds the same slots in
the same order, each with the same records in the same order: no field of a record differs
from before but, possibly, its decode-error flag `phyError`, which holds the verdict of the
link results (true: rejected). -/
theorem C11_rejecting_pass_only_writes_verdicts {α : Type} [NatCast α] [Add α] [Sub α]
    [Div α] (c : Carrier α) (st : State α)
    (hrejected : ∀ P ∈ positions st.container,
      verdictAt c (u32 st.container.length) P ≠ .ok false) :
    ((∀ e ∈ st.container, e.2 ≠ []) →
      (∀ P ∈ positions st.container, ∃ b, verdictAt c (u32 st.container.length) P = .ok b) →
      ∃ st1, PerformMarsala c st = .ok (false, st1)) ∧
    ∀ r, PerformMarsala c st = .ok r →
      r.1 = false ∧
      r.2.combinedPacketsForFrame = st.combinedPacketsForFrame ∧
      List.Forall₂ (fun e e1 : Nat × SlotContent => e1.1 = e.1 ∧
        List.Forall₂ (fun p q : Packet => q.rxParams = p.rxParams ∧
          q.sourceAddress = p.sourceAddress ∧ q.ownSlotId = p.ownSlotId ∧
          q.slotIdsForOtherReplicas = p.slotIdsForOtherReplicas ∧ q.phyError = true)
          e.2 e1.2) st.container r.2.container := by
  have key : ∀ r, PerformMarsala c st = .ok r →
      r = (false, { container := rejectedSlots st.container
                    combinedPacketsForFrame := st.combinedPacketsForFrame
                    trace := st.trace ++
                      eventsOf c (u32 st.container.length) (positions st.container) }) := by
    intro r hrun
    rcases PerformMarsala_cases c st with ⟨_, _, h3⟩ | ⟨L1, P, L2, h1, _, h3, _, h5⟩ |
        ⟨_, _, _, _, _, _, h4⟩
    · rw [h3] at hrun
      simp only [Except.ok.injEq] at hrun
      exact hrun.symm
    · have hmem : P ∈ positions st.container := by rw [h1]; simp
      obtain ⟨f, hf⟩ := stopAt_error_of_not_accepted c (u32 st.container.length)
        st.combinedPacketsForFrame (st.trace ++ eventsOf c (u32 st.container.length) L1) P h3
        (hrejected P hmem)
      rw [h5, hf] at hrun
      simp [stopResult] at hrun
    · rw [h4] at hrun
      simp at hrun
  refine ⟨?_, ?_⟩
  · intro hslots hchecks
    rcases PerformMarsala_cases c st with ⟨_, _, h3⟩ | ⟨L1, P, L2, h1, _, h3, _, _⟩ |
        ⟨T1, k, T2, h1, _, _, _⟩
    · exact ⟨_, h3⟩
    · exfalso
      have hmem : P ∈ positions st.container := by rw [h1]; simp
      obtain ⟨b, hb⟩ := hchecks P hmem
      cases b with
      | true => exact h3 hb
      | false => exact hrejected P hmem hb
    · exfalso
      exact hslots (k, []) (by rw [h1]; simp) rfl
  · intro r hrun
    rw [key r hrun]
    exact ⟨rfl, rfl, forall2_rejectedSlots st.container⟩

/-- Witness of C11: on the frame `weakFrame` the combined SINR two fifths of both records is
rejected; the pass returns false and writes the two verdicts. -/
theorem C11_rejecting_pass_only_writes_verdicts_witness :
    PerformMarsala exampleCarrier
        { container := weakFrame, combinedPacketsForFrame := [], trace := [] } =
      .ok (false, { container := [(1, [(exampleRecord 7 2 1 [2]).setPhyError true]),
                                  (2, [(exampleRecord 7 2 2 [1]).setPhyError true])]
                    combinedPacketsForFrame := []
                    trace := [TraceEvent.linkSinr (1 / 5),
                      TraceEvent.marsalaCorrelationRx 1 7 true,
                      TraceEvent.linkSinr (1 / 5),
                      TraceEvent.marsalaCorrelationRx 1 7 true] }) ∧
    (false = false ∧ ([] : List Packet) = [] ∧
      List.Forall₂ (fun e e1 : Nat × SlotContent => e1.1 = e.1 ∧
        List.Forall₂ (fun p q : Packet => q.rxParams = p.rxParams ∧
          q.sourceAddress = p.sourceAddress ∧ q.ownSlotId = p.ownSlotId ∧
          q.slotIdsForOtherReplicas = p.slotIdsForOtherReplicas ∧ q.phyError = true)
          e.2 e1.2) weakFrame
        [(1, [(exampleRecord 7 2 1 [2]).setPhyError true]),
         (2, [(exampleRecord 7 2 2 [1]).setPhyError true])]) :=
  ⟨by with_unfolding_all rfl,
   (C11_rejecting_pass_only_writes_verdicts exampleCarrier
      { container := weakFrame, combinedPacketsForFrame := [], trace := [] }
      (by
        intro P hP
        have hP1 : P ∈ [({ before := [], slotId := 1, scanned := []
                           current := exampleRecord 7 2 1 [2], others := []
                           after := [(2, [exampleRecord 7 2 2 [1]])] } : Position),
                        { before := [(1, [exampleRecord 7 2 1 [2]])], slotId := 2, scanned := []
                          current := exampleRecord 7 2 2 [1], others := [], after := [] }] := hP
        simp only [List.mem_cons, List.mem_singleton, List.not_mem_nil, or_false] at hP1
        have e1 : verdictAt exampleCarrier (u32 2)
            { before := [], slotId := 1, scanned := [], current := exampleRecord 7 2 1 [2]
              others := [], after := [(2, [exampleRecord 7 2 2 [1]])] } = .ok true := by
          with_unfolding_all rfl
        have e2 : verdictAt exampleCarrier (u32 2)
            { before := [(1, [exampleRecord 7 2 1 [2]])], slotId := 2, scanned := []
              current := exampleRecord 7 2 2 [1], others := [], after := [] } = .ok true := by
          with_unfolding_all rfl
        rcases hP1 with h | h <;> subst h
        · intro h; rw [show (weakFrame.length) = 2 from rfl, e1] at h; simp at h
        · intro h; rw [show (weakFrame.length) = 2 from rfl, e2] at h; simp at h)).2 _
      (by with_unfolding_all rfl)⟩


/-! ## Invariants A and B across a successful correlation pass (C12) -/

/-- On a frame that satisfies Invariant A every declared sibling slot is found and holds one
replica of the record. -/
theorem siblings_found_of_invariantA {α : Type} {c : Carrier α} {F : Container}
    (hinv : InvariantA c F)
    {e : Nat × SlotContent} (he : e ∈ F) {p : Packet} (hp : p ∈ e.2) :
    ∀ x ∈ p.slotIdsForOtherReplicas, ∃ content, F.find x = some content ∧
      content.countP (c.IsReplica p) = 1 := by
  intro x hx
  obtain ⟨_, _, hkeys⟩ := hinv.declared e he p hp
  obtain ⟨e2, he2, hk2⟩ := mem_keys.1 (hkeys x hx)
  cases hf : F.find x with
  | none => exact absurd hk2 ((find_eq_none_iff x F).1 hf e2 he2)
  | some content =>
    refine ⟨content, rfl, ?_⟩
    have := hinv.placed e he p hp (x, content) (find_some_mem hf)
    simpa [hx] using this

section

variable {α : Type} [NatCast α] [Add α] [Sub α] [Div α] {c : Carrier α}

/-- The slots of the container as the scan finds it hold a record when the slots of the
container do. -/
theorem view_nonempty (P : Position) (h : ∀ e ∈ P.container, e.2 ≠ []) :
    ∀ e ∈ P.view, e.2 ≠ [] := by
  intro e he
  unfold Position.view at he
  unfold Position.container at h
  rcases List.mem_append.1 he with h1 | h1
  · unfold rejectedSlots at h1
    obtain ⟨e0, he0, rfl⟩ := List.mem_map.1 h1
    have := h e0 (List.mem_append_left _ he0)
    intro hnil
    apply this
    simpa [rejected] using hnil
  · rcases List.mem_cons.1 h1 with h2 | h2
    · rw [h2]
      simp [Position.slotView]
    · exact h e (List.mem_append_right _ (List.mem_cons_of_mem _ h2))

/-- On a frame that satisfies Invariants A and B, a correlation pass meets no fatal
error. -/
theorem PerformMarsala_isOk_of_invariants (hlaws : ReplicaEquivalence c) (st : State α)
    (hA : InvariantA c st.container) (hB : ∀ e ∈ st.container, e.2 ≠ []) :
    ∃ r, PerformMarsala c st = .ok r := by
  rcases PerformMarsala_cases c st with ⟨_, _, h3⟩ | ⟨L1, P, L2, h1, _, h3, _, h5⟩ |
      ⟨T1, k, T2, h1, _, _, _⟩
  · exact ⟨_, h3⟩
  · have hP : P ∈ positions st.container := by rw [h1]; simp
    have hview : unflagged st.container = unflagged P.view := by
      rw [unflagged_view, container_of_mem_positions hP]
    have hinvV : InvariantA c P.view := hA.of_unflagged_eq hlaws.flagBlind hview
    have hhome : (P.slotId, P.slotView) ∈ P.view := by simp [Position.view]
    have hcur : P.current ∈ P.slotView := by simp [Position.slotView]
    obtain ⟨b, hb⟩ := (verdictAt_isOk c (u32 st.container.length) P).2
      (siblings_found_of_invariantA hinvV hhome hcur)
    have hrep : ∀ r, c.IsReplica (P.current.setPhyError false) r = c.IsReplica P.current r :=
      fun r => hlaws.flagBlind.left P.current r false
    rw [h5]
    unfold stopAt
    rw [hb]
    simp only
    unfold commitAt
    unfold Position.view Position.slotView at hinvV
    rw [commitDecoded_of_invariantA hlaws _ _ hinvV hrep rfl]
    exact ⟨_, rfl⟩
  · exact absurd rfl (hB (k, []) (by rw [h1]; simp))

end

section

variable {α : Type} {c : Carrier α}

/-- On a frame that satisfies Invariant A the scan of a slot by the decode pass of the SIC
engine meets no fatal error. -/
theorem decodeSlot_isOk (hlaws : ReplicaEquivalence c) (B : Container) (k : Nat)
    (A : Container) (dec : List Packet) :
    ∀ (todo S : SlotContent) (tr : List (TraceEvent α)),
      InvariantA c (B ++ (k, S ++ todo) :: A) →
      ∃ r, decodeSlot c B k A dec S tr todo = .ok r := by
  intro todo
  induction todo with
  | nil => intro S tr _; exact ⟨_, rfl⟩
  | cons q rest ih =>
    intro S tr hinv
    rw [decodeSlot]
    split
    · apply ih
      rw [List.append_assoc, List.singleton_append]
      exact hinv
    · rw [commitDecoded_of_invariantA hlaws _ _ hinv (fun _ => rfl) rfl]
      exact ⟨_, rfl⟩

/-- On a frame that satisfies Invariants A and B the decode pass of the SIC engine meets no
fatal error. -/
theorem decodeContainer_isOk (hlaws : ReplicaEquivalence c) (dec : List Packet) :
    ∀ (todo B : Container) (tr : List (TraceEvent α)),
      InvariantA c (B ++ todo) → (∀ e ∈ todo, e.2 ≠ []) →
      ∃ r, decodeContainer c dec B tr todo = .ok r := by
  intro todo
  induction todo with
  | nil => intro B tr _ _; exact ⟨_, rfl⟩
  | cons e rest ih =>
    intro B tr hinv hne
    obtain ⟨k, content⟩ := e
    have hc : content ≠ [] := hne (k, content) (by simp)
    have hlen : ¬ content.length < 1 := by
      cases content with
      | nil => exact absurd rfl hc
      | cons _ _ => simp
    rw [decodeContainer]
    simp only [hlen, ↓reduceIte]
    obtain ⟨r, hr⟩ := decodeSlot_isOk hlaws B k rest dec content [] tr (by simpa using hinv)
    rw [hr]
    rcases decodeSlot_ok c B k rest dec content [] tr r hr with ⟨tr1, h1⟩ |
        ⟨st1, _, _, _, _, h1, _⟩
    · subst h1
      simp only [List.nil_append]
      apply ih
      · simpa using hinv
      · intro e he
        exact hne e (List.mem_cons_of_mem _ he)
    · subst h1
      exact ⟨_, rfl⟩

end

/-- Claim C12: Invariant A and Invariant B are preserved by a successful correlation pass.
With a replica relation that relates the records of one logical packet, on a frame that
satisfies Invariant A and in which no present slot is empty, the frame left by a call of
`PerformMarsala` that returns true satisfies Invariant A, and no slot of it is empty; so
the passes that follow, of the SIC engine and of the correlation, meet no fatal error on
it, the empty-slot error in particular. -/
theorem C12_successful_pass_preserves_invariants {α : Type} [NatCast α] [Add α] [Sub α]
    [Div α] (c : Carrier α) (st st1 : State α)
    (hlaws : ReplicaEquivalence c) (hA : InvariantA c st.container)
    (hB : ∀ e ∈ st.container, e.2 ≠ [])
    (hrun : PerformMarsala c st = .ok (true, st1)) :
    InvariantA c st1.container ∧
    (∀ e ∈ st1.container, e.2 ≠ []) ∧
    DecodePass c st1 ≠ .error Fault.noPacketInSlot ∧
    PerformMarsala c st1 ≠ .error Fault.noPacketInSlot ∧
    (∃ r, DecodePass c st1 = .ok r) ∧ (∃ r, PerformMarsala c st1 = .ok r) := by
  obtain ⟨P, hP, _, hcont, hA1, _⟩ := PerformMarsala_true_of_invariantA hlaws hA hrun
  have hB1 : ∀ e ∈ st1.container, e.2 ≠ [] := by
    intro e1 he1
    rw [hcont] at he1
    have hview := view_nonempty P (by rw [container_of_mem_positions hP]; exact hB)
    obtain ⟨e, he, h | h⟩ := (mem_withoutReplicas c _ _ e1 P.view).1 he1
    · rw [h.2]; exact hview e he
    · rw [h.2.1]; exact h.2.2
  obtain ⟨r1, hr1⟩ := decodeContainer_isOk hlaws st1.combinedPacketsForFrame st1.container []
    st1.trace (by simpa using hA1) hB1
  obtain ⟨r2, hr2⟩ := PerformMarsala_isOk_of_invariants hlaws st1 hA1 hB1
  have hd : DecodePass c st1 = .ok r1 := hr1
  refine ⟨hA1, hB1, ?_, ?_, ⟨r1, hd⟩, ⟨r2, hr2⟩⟩
  · rw [hd]; simp
  · rw [hr2]; simp

theorem exampleFrame_invariantA : InvariantA exampleCarrier exampleFrame :=
  ⟨by decide, by decide, by decide⟩

/-- Witness of C12: the example frame satisfies both invariants; the correlation pass
decodes the packet of source 8, and the frame it leaves, with the three other records in
their slots, satisfies both invariants again. -/
theorem C12_successful_pass_preserves_invariants_witness :
    InvariantA exampleCarrier exampleFrame ∧
    (InvariantA exampleCarrier
        [(1, [(exampleRecord 7 2 1 [2]).setPhyError true]),
         (2, [(exampleRecord 7 2 2 [1]).setPhyError true]),
         (3, [exampleRecord 9 20 3 []])] ∧
      (∀ e ∈ [(1, [(exampleRecord 7 2 1 [2]).setPhyError true]),
              (2, [(exampleRecord 7 2 2 [1]).setPhyError true]),
              (3, [exampleRecord 9 20 3 []])], e.2 ≠ []) ∧
      DecodePass exampleCarrier
          { container := [(1, [(exampleRecord 7 2 1 [2]).setPhyError true]),
                          (2, [(exampleRecord 7 2 2 [1]).setPhyError true]),
                          (3, [exampleRecord 9 20 3 []])]
            combinedPacketsForFrame := [exampleRecord 8 20 2 []]
            trace := [TraceEvent.linkSinr (1 / 5), TraceEvent.marsalaCorrelationRx 2 7 true,
              TraceEvent.linkSinr (1 / 5), TraceEvent.marsalaCorrelationRx 2 7 true,
              TraceEvent.linkSinr 2, TraceEvent.marsalaCorrelationRx 1 8 false] } ≠
        .error Fault.noPacketInSlot ∧
      PerformMarsala exampleCarrier
          { container := [(1, [(exampleRecord 7 2 1 [2]).setPhyError true]),
                          (2, [(exampleRecord 7 2 2 [1]).setPhyError true]),
                          (3, [exampleRecord 9 20 3 []])]
            combinedPacketsForFrame := [exampleRecord 8 20 2 []]
            trace := [TraceEvent.linkSinr (1 / 5), TraceEvent.marsalaCorrelationRx 2 7 true,
              TraceEvent.linkSinr (1 / 5), TraceEvent.marsalaCorrelationRx 2 7 true,
              TraceEvent.linkSinr 2, TraceEvent.marsalaCorrelationRx 1 8 false] } ≠
        .error Fault.noPacketInSlot ∧
      (∃ r, DecodePass exampleCarrier
          { container := [(1, [(exampleRecord 7 2 1 [2]).setPhyError true]),
                          (2, [(exampleRecord 7 2 2 [1]).setPhyError true]),
                          (3, [exampleRecord 9 20 3 []])]
            combinedPacketsForFrame := [exampleRecord 8 20 2 []]
            trace := [TraceEvent.linkSinr (1 / 5), TraceEvent.marsalaCorrelationRx 2 7 true,
              TraceEvent.linkSinr (1 / 5), TraceEvent.marsalaCorrelationRx 2 7 true,
              TraceEvent.linkSinr 2, TraceEvent.marsalaCorrelationRx 1 8 false] } = .ok r) ∧
      ∃ r, PerformMarsala exampleCarrier
          { container := [(1, [(exampleRecord 7 2 1 [2]).setPhyError true]),
                          (2, [(exampleRecord 7 2 2 [1]).setPhyError true]),
                          (3, [exampleRecord 9 20 3 []])]
            combinedPacketsForFrame := [exampleRecord 8 20 2 []]
            trace := [TraceEvent.linkSinr (1 / 5), TraceEvent.marsalaCorrelationRx 2 7 true,
              TraceEvent.linkSinr (1 / 5), TraceEvent.marsalaCorrelationRx 2 7 true,
              TraceEvent.linkSinr 2, TraceEvent.marsalaCorrelationRx 1 8 false] } = .ok r) :=
  ⟨exampleFrame_invariantA,
   C12_successful_pass_preserves_invariants exampleCarrier
    { container := exampleFrame, combinedPacketsForFrame := [], trace := [] }
    { container := [(1, [(exampleRecord 7 2 1 [2]).setPhyError true]),
                    (2, [(exampleRecord 7 2 2 [1]).setPhyError true]),
                    (3, [exampleRecord 9 20 3 []])]
      combinedPacketsForFrame := [exampleRecord 8 20 2 []]
      trace := [TraceEvent.linkSinr (1 / 5), TraceEvent.marsalaCorrelationRx 2 7 true,
        TraceEvent.linkSinr (1 / 5), TraceEvent.marsalaCorrelationRx 2 7 true,
        TraceEvent.linkSinr 2, TraceEvent.marsalaCorrelationRx 1 8 false] }
    exampleCarrier_laws exampleFrame_invariantA (by decide) (by with_unfolding_all rfl)⟩


/-! ## Determinism of the frame decode (C13)

The decode is a function of the container, the decoded output and the carrier. Two things
of the model are not part of a run of the program: the events the trace sources received
before the run, and the bound on the number of rounds. The result depends on neither. -/

section

variable {α : Type} (c : Carrier α)

/-- The removal of a decoded record does not read the trace. -/
theorem commitDecoded_trace (B : Container) (k : Nat) (content : SlotContent) (A : Container)
    (p : Packet) (dec : List Packet) (t tr : List (TraceEvent α)) :
    commitDecoded c B k content A p dec (t ++ tr) =
      match commitDecoded c B k content A p dec tr with
      | .error f => .error f
      | .ok s => .ok { s with trace := t ++ s.trace } := by
  unfold commitDecoded
  cases FindAndRemoveReplicas c p (B ++ EliminateInterference (k, content) p ++ A) <;> rfl

/-- The scan of a slot by the SIC engine does not read the trace. -/
theorem decodeSlot_trace (B : Container) (k : Nat) (A : Container) (dec : List Packet)
    (t : List (TraceEvent α)) :
    ∀ (todo S : SlotContent) (tr : List (TraceEvent α)),
      decodeSlot c B k A dec S (t ++ tr) todo =
        match decodeSlot c B k A dec S tr todo with
        | .error f => .error f
        | .ok (SlotScan.decoded s) => .ok (SlotScan.decoded { s with trace := t ++ s.trace })
        | .ok (SlotScan.next content tr1) => .ok (SlotScan.next content (t ++ tr1)) := by
  intro todo
  induction todo with
  | nil => intro S tr; rfl
  | cons q rest ih =>
    intro S tr
    simp only [decodeSlot]
    by_cases hv : c.CheckAgainstLinkResults
        (c.CalculatePacketCompositeSinr (B ++ (k, S ++ q :: rest) :: A) q) q.rxParams = true
    · simp only [hv, ↓reduceIte]
      rw [List.append_assoc, ih]
    · simp only [hv, Bool.false_eq_true, ↓reduceIte]
      rw [List.append_assoc, commitDecoded_trace]
      cases commitDecoded c B k (S ++ rest) A q dec
        (tr ++ [TraceEvent.linkSinr (c.LinearToDb
          (c.CalculatePacketCompositeSinr (B ++ (k, S ++ q :: rest) :: A) q))]) <;> rfl

/-- The decode pass of the SIC engine does not read the trace. -/
theorem decodeContainer_trace (dec : List Packet) (t : List (TraceEvent α)) :
    ∀ (todo B : Container) (tr : List (TraceEvent α)),
      decodeContainer c dec B (t ++ tr) todo =
        match decodeContainer c dec B tr todo with
        | .error f => .error f
        | .ok (b, s) => .ok (b, { s with trace := t ++ s.trace }) := by
  intro todo
  induction todo with
  | nil => intro B tr; rfl
  | cons e rest ih =>
    intro B tr
    obtain ⟨k, content⟩ := e
    simp only [decodeContainer]
    by_cases hl : content.length < 1
    · simp only [hl, ↓reduceIte]
    · simp only [hl, ↓reduceIte]
      rw [decodeSlot_trace]
      cases hs : decodeSlot c B k rest dec [] tr content with
      | error f => rfl
      | ok r =>
        cases r with
        | decoded s => rfl
        | next content1 tr1 => simp only; rw [ih]

end

section

variable {α : Type} [NatCast α] [Add α] [Sub α] [Div α] (c : Carrier α) (nb : Nat)

/-- The scan of a slot by the correlation pass does not read the trace. -/
theorem scanSlot_trace (B : Container) (k : Nat) (A : Container) (dec : List Packet)
    (t : List (TraceEvent α)) :
    ∀ (todo S : SlotContent) (tr : List (TraceEvent α)),
      scanSlot c nb B k A dec S (t ++ tr) todo =
        match scanSlot c nb B k A dec S tr todo with
        | .error f => .error f
        | .ok (SlotScan.decoded s) => .ok (SlotScan.decoded { s with trace := t ++ s.trace })
        | .ok (SlotScan.next content tr1) => .ok (SlotScan.next content (t ++ tr1)) := by
  intro todo
  induction todo with
  | nil => intro S tr; rfl
  | cons q rest ih =>
    intro S tr
    simp only [scanSlot]
    cases hev : evaluateCandidate c nb (B ++ (k, S ++ q :: rest) :: A) (S ++ q :: rest) q with
    | error f => rfl
    | ok ev =>
      simp only
      by_cases hv : ev.phyError = true
      · simp only [hv, ↓reduceIte]
        rw [List.append_assoc, ih]
      · simp only [hv, Bool.false_eq_true, ↓reduceIte]
        rw [List.append_assoc, commitDecoded_trace]
        cases commitDecoded c B k (S ++ rest) A (q.setPhyError false) dec
          (tr ++ evaluationEvents c q ev) <;> rfl

/-- The scan of the slots by the correlation pass does not read the trace. -/
theorem scanContainer_trace (dec : List Packet) (t : List (TraceEvent α)) :
    ∀ (todo B : Container) (tr : List (TraceEvent α)),
      scanContainer c nb dec B (t ++ tr) todo =
        match scanContainer c nb dec B tr todo with
        | .error f => .error f
        | .ok (b, s) => .ok (b, { s with trace := t ++ s.trace }) := by
  intro todo
  induction todo with
  | nil => intro B tr; rfl
  | cons e rest ih =>
    intro B tr
    obtain ⟨k, content⟩ := e
    simp only [scanContainer]
    by_cases hl : content.length < 1
    · simp only [hl, ↓reduceIte]
    · simp only [hl, ↓reduceIte]
      rw [scanSlot_trace]
      cases hs : scanSlot c nb B k rest dec [] tr content with
      | error f => rfl
      | ok r =>
        cases r with
        | decoded s => rfl
        | next content1 tr1 => simp only; rw [ih]

end

section

variable {α : Type} (c : Carrier α)

/-- The decode pass of the SIC engine on a state with earlier events in its trace. -/
theorem DecodePass_trace (t : List (TraceEvent α)) (s : State α) :
    DecodePass c { s with trace := t ++ s.trace } =
      match DecodePass c s with
      | .error f => .error f
      | .ok (b, s1) => .ok (b, { s1 with trace := t ++ s1.trace }) :=
  decodeContainer_trace c s.combinedPacketsForFrame t s.container [] s.trace

/-- The SIC cycles of the base class on a state with earlier events in its trace. -/
theorem base_PerformSicCycles_trace (t : List (TraceEvent α)) :
    ∀ (fuel : Nat) (s : State α),
      SatPhyRxCarrierPerFrame.PerformSicCycles c fuel { s with trace := t ++ s.trace } =
        match SatPhyRxCarrierPerFrame.PerformSicCycles c fuel s with
        | Outcome.done s1 => Outcome.done { s1 with trace := t ++ s1.trace }
        | Outcome.fatal f => Outcome.fatal f
        | Outcome.outOfFuel => Outcome.outOfFuel := by
  intro fuel
  induction fuel with
  | zero => intro s; rfl
  | succ fuel ih =>
    intro s
    simp only [SatPhyRxCarrierPerFrame.PerformSicCycles]
    rw [DecodePass_trace]
    cases hd : DecodePass c s with
    | error f => rfl
    | ok r =>
      obtain ⟨b, s1⟩ := r
      cases b with
      | true => simp only; rw [ih]
      | false => rfl

/-- A run of the SIC cycles that ends within its bound ends the same way with a larger
bound. -/
theorem base_PerformSicCycles_fuel :
    ∀ (fuel : Nat) (s : State α),
      SatPhyRxCarrierPerFrame.PerformSicCycles c fuel s ≠ Outcome.outOfFuel →
      ∀ fuel1, fuel ≤ fuel1 →
        SatPhyRxCarrierPerFrame.PerformSicCycles c fuel1 s =
          SatPhyRxCarrierPerFrame.PerformSicCycles c fuel s := by
  intro fuel
  induction fuel with
  | zero => intro s h; exact absurd rfl h
  | succ fuel ih =>
    intro s h fuel1 hle
    obtain ⟨fuel2, rfl⟩ : ∃ fuel2, fuel1 = fuel2 + 1 := ⟨fuel1 - 1, by omega⟩
    simp only [SatPhyRxCarrierPerFrame.PerformSicCycles] at h ⊢
    cases hd : DecodePass c s with
    | error f => rfl
    | ok r =>
      obtain ⟨b, s1⟩ := r
      rw [hd] at h
      cases b with
      | true => exact ih s1 h fuel2 (by omega)
      | false => rfl

end

section

variable {α : Type} [NatCast α] [Add α] [Sub α] [Div α] (c : Carrier α)

/-- The correlation pass on a state with earlier events in its trace. -/
theorem PerformMarsala_trace (t : List (TraceEvent α)) (s : State α) :
    PerformMarsala c { s with trace := t ++ s.trace } =
      match PerformMarsala c s with
      | .error f => .error f
      | .ok (b, s1) => .ok (b, { s1 with trace := t ++ s1.trace }) :=
  scanContainer_trace c (u32 s.container.length) s.combinedPacketsForFrame t s.container []
    s.trace

/-- The loop of `PerformSicCycles` on a state with earlier events in its trace. -/
theorem doWhile_trace (fuel0 : Nat) (t : List (TraceEvent α)) :
    ∀ (n : Nat) (s : State α),
      doWhile (SatPhyRxCarrierPerFrame.PerformSicCycles c fuel0) (PerformMarsala c) n
          { s with trace := t ++ s.trace } =
        match doWhile (SatPhyRxCarrierPerFrame.PerformSicCycles c fuel0) (PerformMarsala c) n
            s with
        | Outcome.done s1 => Outcome.done { s1 with trace := t ++ s1.trace }
        | Outcome.fatal f => Outcome.fatal f
        | Outcome.outOfFuel => Outcome.outOfFuel := by
  intro n
  induction n with
  | zero => intro s; rfl
  | succ n ih =>
    intro s
    simp only [doWhile]
    rw [base_PerformSicCycles_trace]
    cases hb : SatPhyRxCarrierPerFrame.PerformSicCycles c fuel0 s with
    | outOfFuel => rfl
    | fatal f => rfl
    | done s1 =>
      simp only
      rw [PerformMarsala_trace]
      cases hm : PerformMarsala c s1 with
      | error f => rfl
      | ok r =>
        obtain ⟨b, s2⟩ := r
        cases b with
        | true => simp only; rw [ih]
        | false => rfl

/-- A run of the loop of `PerformSicCycles` that ends within its bounds ends the same way
with larger bounds. -/
theorem doWhile_fuel (fuel0 fuel1 : Nat) (h01 : fuel0 ≤ fuel1) :
    ∀ (n : Nat) (s : State α),
      doWhile (SatPhyRxCarrierPerFrame.PerformSicCycles c fuel0) (PerformMarsala c) n s ≠
        Outcome.outOfFuel →
      ∀ n1, n ≤ n1 →
        doWhile (SatPhyRxCarrierPerFrame.PerformSicCycles c fuel1) (PerformMarsala c) n1 s =
          doWhile (SatPhyRxCarrierPerFrame.PerformSicCycles c fuel0) (PerformMarsala c) n s := by
  intro n
  induction n with
  | zero => intro s h; exact absurd rfl h
  | succ n ih =>
    intro s h n1 hle
    obtain ⟨n2, rfl⟩ : ∃ n2, n1 = n2 + 1 := ⟨n1 - 1, by omega⟩
    simp only [doWhile] at h ⊢
    have hbase : SatPhyRxCarrierPerFrame.PerformSicCycles c fuel0 s ≠ Outcome.outOfFuel := by
      intro hb
      rw [hb] at h
      exact h rfl
    rw [base_PerformSicCycles_fuel c fuel0 s hbase fuel1 h01]
    cases hb : SatPhyRxCarrierPerFrame.PerformSicCycles c fuel0 s with
    | outOfFuel => rfl
    | fatal f => rfl
    | done s1 =>
      rw [hb] at h
      simp only at h ⊢
      cases hm : PerformMarsala c s1 with
      | error f => rfl
      | ok r =>
        obtain ⟨b, s2⟩ := r
        rw [hm] at h
        cases b with
        | true => exact ih s2 h n2 (by omega)
        | false => rfl

/-- The frame decode does not depend on the bound on its rounds, once the bound exceeds the
number of records of the frame. -/
theorem PerformSicCycles_fuel (s : State α) (fuel1 fuel2 : Nat)
    (h1 : Container.records s.container < fuel1) (h2 : Container.records s.container < fuel2) :
    PerformSicCycles c fuel1 s = PerformSicCycles c fuel2 s := by
  have e1 := doWhile_fuel c fuel1 (max fuel1 fuel2) (le_max_left _ _) fuel1 s
    (doWhile_terminates c fuel1 fuel1 s h1 h1).1 (max fuel1 fuel2) (le_max_left _ _)
  have e2 := doWhile_fuel c fuel2 (max fuel1 fuel2) (le_max_right _ _) fuel2 s
    (doWhile_terminates c fuel2 fuel2 s h2 h2).1 (max fuel1 fuel2) (le_max_right _ _)
  unfold PerformSicCycles
  rw [← e1, ← e2]

end

/-- Claim C13: the Marsala frame decode is deterministic. Two runs of `PerformSicCycles`
with the same carrier (the same replica relation, SINR computation and link results), on
states with identical containers (slot contents and the sibling slot ids they hold) and
identical decoded outputs, whatever the trace sources received before and whatever the
bounds on the rounds (above the number of records), end the same way: both end in the same
fatal error, or both complete with the same decoded output in the same order, the same
container, and the same events sent to the trace sources during the run. -/
theorem C13_frame_decode_is_deterministic {α : Type} [NatCast α] [Add α] [Sub α] [Div α]
    (c : Carrier α) (st1 st2 : State α) (fuel1 fuel2 : Nat)
    (hcontainer : st1.container = st2.container)
    (hdecoded : st1.combinedPacketsForFrame = st2.combinedPacketsForFrame)
    (hfuel1 : Container.records st1.container < fuel1)
    (hfuel2 : Container.records st2.container < fuel2) :
    (∃ f, PerformSicCycles c fuel1 st1 = Outcome.fatal f ∧
      PerformSicCycles c fuel2 st2 = Outcome.fatal f) ∨
    (∃ out1 out2 events, PerformSicCycles c fuel1 st1 = Outcome.done out1 ∧
      PerformSicCycles c fuel2 st2 = Outcome.done out2 ∧
      out1.combinedPacketsForFrame = out2.combinedPacketsForFrame ∧
      out1.container = out2.container ∧
      out1.trace = st1.trace ++ events ∧ out2.trace = st2.trace ++ events) := by
  obtain ⟨F, D, t1⟩ := st1
  obtain ⟨F2, D2, t2⟩ := st2
  simp only at hcontainer hdecoded hfuel1 hfuel2
  subst hcontainer
  subst hdecoded
  have hcore : Container.records
      ({ container := F, combinedPacketsForFrame := D, trace := [] } : State α).container <
        fuel1 := hfuel1
  have hnot := (doWhile_terminates c fuel1 fuel1
    ({ container := F, combinedPacketsForFrame := D, trace := [] } : State α) hcore hcore).1
  have e1 := doWhile_trace c fuel1 t1 fuel1
    ({ container := F, combinedPacketsForFrame := D, trace := [] } : State α)
  have e2 := doWhile_trace c fuel1 t2 fuel1
    ({ container := F, combinedPacketsForFrame := D, trace := [] } : State α)
  simp only [List.append_nil] at e1 e2
  rw [PerformSicCycles_fuel c _ fuel2 fuel1 hfuel2 hfuel1]
  unfold PerformSicCycles
  rw [e1, e2]
  cases hrun : doWhile (SatPhyRxCarrierPerFrame.PerformSicCycles c fuel1) (PerformMarsala c)
      fuel1 ({ container := F, combinedPacketsForFrame := D, trace := [] } : State α) with
  | outOfFuel => exact absurd hrun hnot
  | fatal f => left; exact ⟨f, rfl, rfl⟩
  | done out => right; exact ⟨_, _, out.trace, rfl, rfl, rfl, rfl, rfl, rfl⟩

/-- Witness of C13: two runs on the example frame, one with events already in the trace and
another bound on the rounds. -/
theorem C13_frame_decode_is_deterministic_witness :
    (∃ f, PerformSicCycles exampleCarrier 5
        { container := exampleFrame, combinedPacketsForFrame := [], trace := [] } =
          Outcome.fatal f ∧
      PerformSicCycles exampleCarrier 9
        { container := exampleFrame, combinedPacketsForFrame := []
          trace := [TraceEvent.linkSinr 4] } = Outcome.fatal f) ∨
    (∃ out1 out2 events, PerformSicCycles exampleCarrier 5
        { container := exampleFrame, combinedPacketsForFrame := [], trace := [] } =
          Outcome.done out1 ∧
      PerformSicCycles exampleCarrier 9
        { container := exampleFrame, combinedPacketsForFrame := []
          trace := [TraceEvent.linkSinr 4] } = Outcome.done out2 ∧
      out1.combinedPacketsForFrame = out2.combinedPacketsForFrame ∧
      out1.container = out2.container ∧
      out1.trace = [] ++ events ∧ out2.trace = [TraceEvent.linkSinr 4] ++ events) :=
  C13_frame_decode_is_deterministic exampleCarrier
    { container := exampleFrame, combinedPacketsForFrame := [], trace := [] }
    { container := exampleFrame, combinedPacketsForFrame := []
      trace := [TraceEvent.linkSinr 4] } 5 9 rfl rfl (by decide) (by decide)


/-! ## The correlation counter is no control input (C14) -/

theorem eraseCounter_eraseCounter {α : Type} (e : TraceEvent α) :
    eraseCounter (eraseCounter e) = eraseCounter e := by
  cases e <;> rfl

theorem map_eraseCounter_idem {α : Type} (tr : List (TraceEvent α)) :
    (tr.map eraseCounter).map eraseCounter = tr.map eraseCounter := by
  rw [List.map_map]
  apply List.map_congr_left
  intro e _
  exact eraseCounter_eraseCounter e

/-- The removal of a decoded record hands the trace on as it is. -/
theorem commitDecoded_map_trace {α : Type} (c : Carrier α) (B : Container) (k : Nat)
    (content : SlotContent) (A : Container) (p : Packet) (dec : List Packet)
    (g : TraceEvent α → TraceEvent α) (tr : List (TraceEvent α)) :
    commitDecoded c B k content A p dec (tr.map g) =
      match commitDecoded c B k content A p dec tr with
      | .error f => .error f
      | .ok s => .ok { s with trace := s.trace.map g } := by
  unfold commitDecoded
  cases FindAndRemoveReplicas c p (B ++ EliminateInterference (k, content) p ++ A) <;> rfl

section

variable {α : Type} [NatCast α] [Add α] [Sub α] [Div α] (c : Carrier α)

/-- With the counter of the code, the evaluation of a candidate is that of the code. -/
theorem evaluateCandidateWith_source (nb : Nat) (cont : Container) (slotContent : SlotContent)
    (p : Packet) :
    evaluateCandidateWith (sourceCounter nb) c cont slotContent p =
      evaluateCandidate c nb cont slotContent p := rfl

/-- With the counter of the code, the inner loop is that of the code. -/
theorem scanSlotWith_source (nb : Nat) (B : Container) (k : Nat) (A : Container)
    (dec : List Packet) :
    ∀ (todo S : SlotContent) (tr : List (TraceEvent α)),
      scanSlotWith (sourceCounter nb) c B k A dec S tr todo =
        scanSlot c nb B k A dec S tr todo := by
  intro todo
  induction todo with
  | nil => intro S tr; rfl
  | cons q rest ih =>
    intro S tr
    rw [scanSlotWith, scanSlot, evaluateCandidateWith_source]
    cases evaluateCandidate c nb (B ++ (k, S ++ q :: rest) :: A) (S ++ q :: rest) q with
    | error f => rfl
    | ok ev =>
      by_cases hv : ev.phyError = true
      · exact (if_pos hv).trans ((ih _ _).trans (if_pos hv).symm)
      · exact (if_neg hv).trans (if_neg hv).symm

/-- With the counter of the code, the outer loop is that of the code. -/
theorem scanContainerWith_source (nb : Nat) (dec : List Packet) :
    ∀ (todo B : Container) (tr : List (TraceEvent α)),
      scanContainerWith (sourceCounter nb) c dec B tr todo =
        scanContainer c nb dec B tr todo := by
  intro todo
  induction todo with
  | nil => intro B tr; rfl
  | cons e rest ih =>
    intro B tr
    obtain ⟨k, content⟩ := e
    rw [scanContainerWith, scanContainer, scanSlotWith_source]
    by_cases hl : content.length < 1
    · exact (if_pos hl).trans (if_pos hl).symm
    · refine (if_neg hl).trans (Eq.trans ?_ (if_neg hl).symm)
      cases scanSlot c nb B k rest dec [] tr content with
      | error f => rfl
      | ok r =>
        cases r with
        | decoded s => rfl
        | next content1 tr1 => exact ih _ _

/-- The evaluation of a candidate with two counters: the same fatal error, or the same
values beside the counter. -/
theorem evaluateCandidateWith_counter (counter : Packet → Nat) (cont : Container)
    (slotContent : SlotContent) (p : Packet) :
    evaluateCandidateWith (fun _ => 0) c cont slotContent p =
      match evaluateCandidateWith counter c cont slotContent p with
      | .error f => .error f
      | .ok ev => .ok { ev with correlations := 0 } := by
  unfold evaluateCandidateWith
  cases countPacketsInReplicaSlots c cont p p.slotIdsForOtherReplicas (u32 slotContent.length)
    <;> rfl

/-- The inner loop with an arbitrary counter and with the counter zero: the same course;
the traces differ by the values of the counter only. -/
theorem scanSlotWith_counter (counter : Packet → Nat) (B : Container) (k : Nat)
    (A : Container) (dec : List Packet) :
    ∀ (todo S : SlotContent) (tr : List (TraceEvent α)),
      scanSlotWith (fun _ => 0) c B k A dec S (tr.map eraseCounter) todo =
        match scanSlotWith counter c B k A dec S tr todo with
        | .error f => .error f
        | .ok (SlotScan.decoded s) =>
          .ok (SlotScan.decoded { s with trace := s.trace.map eraseCounter })
        | .ok (SlotScan.next content tr1) =>
          .ok (SlotScan.next content (tr1.map eraseCounter)) := by
  intro todo
  induction todo with
  | nil => intro S tr; rfl
  | cons q rest ih =>
    intro S tr
    simp only [scanSlotWith]
    rw [evaluateCandidateWith_counter c counter]
    cases hev : evaluateCandidateWith counter c (B ++ (k, S ++ q :: rest) :: A)
        (S ++ q :: rest) q with
    | error f => rfl
    | ok ev =>
      have hevents : (tr.map eraseCounter ++
          evaluationEvents c q { ev with correlations := 0 }) =
            (tr ++ evaluationEvents c q ev).map eraseCounter := by
        simp [evaluationEvents, eraseCounter]
      simp only
      rw [hevents]
      by_cases hv : ev.phyError = true
      · simp only [hv, ↓reduceIte]
        rw [ih]
      · simp only [hv, Bool.false_eq_true, ↓reduceIte]
        rw [commitDecoded_map_trace]
        cases commitDecoded c B k (S ++ rest) A (q.setPhyError false) dec
          (tr ++ evaluationEvents c q ev) <;> rfl

/-- The outer loop with an arbitrary counter and with the counter zero: the same course;
the traces differ by the values of the counter only. -/
theorem scanContainerWith_counter (counter : Packet → Nat) (dec : List Packet) :
    ∀ (todo B : Container) (tr : List (TraceEvent α)),
      scanContainerWith (fun _ => 0) c dec B (tr.map eraseCounter) todo =
        match scanContainerWith counter c dec B tr todo with
        | .error f => .error f
        | .ok (b, s) => .ok (b, { s with trace := s.trace.map eraseCounter }) := by
  intro todo
  induction todo with
  | nil => intro B tr; rfl
  | cons e rest ih =>
    intro B tr
    obtain ⟨k, content⟩ := e
    simp only [scanContainerWith]
    by_cases hl : content.length < 1
    · simp only [hl, ↓reduceIte]
    · simp only [hl, ↓reduceIte]
      rw [scanSlotWith_counter c counter]
      cases hs : scanSlotWith counter c B k rest dec [] tr content with
      | error f => rfl
      | ok r =>
        cases r with
        | decoded s => rfl
        | next content1 tr1 => simp only; rw [ih]

/-- What the pass decides and leaves with an arbitrary counter is what it decides and
leaves with the counter zero. -/
theorem decodingOf_PerformMarsalaWith (counter : Packet → Nat) (st : State α) :
    decodingOf (PerformMarsalaWith counter c st) =
      decodingOf (PerformMarsalaWith (fun _ => 0) c
        { st with trace := st.trace.map eraseCounter }) := by
  unfold PerformMarsalaWith
  simp only
  rw [scanContainerWith_counter c counter]
  cases scanContainerWith counter c st.combinedPacketsForFrame [] st.trace st.container with
  | error f => rfl
  | ok r =>
    obtain ⟨b, s⟩ := r
    simp only [decodingOf, map_eraseCounter_idem]

end

/-- Claim C14: the correlation diagnostic counter has no effect on decoding. The value the
code computes as the counter is handed to the trace source and read nowhere else: when any
other value is reported in its place (an arbitrary function of the candidate), the call of
`PerformMarsala` ends in the same fatal error or returns the same value and leaves the same
container, the same decoded output and the same trace but for the values of the counter.
(First part: with the counter of the code, the pass stated with a counter is
`PerformMarsala`.) -/
theorem C14_correlation_counter_is_no_control_input {α : Type} [NatCast α] [Add α] [Sub α]
    [Div α] (c : Carrier α) (st : State α) :
    PerformMarsalaWith (sourceCounter (u32 st.container.length)) c st = PerformMarsala c st ∧
    (∀ counter : Packet → Nat,
      decodingOf (PerformMarsalaWith counter c st) = decodingOf (PerformMarsala c st)) ∧
    ∀ counter1 counter2 : Packet → Nat,
      decodingOf (PerformMarsalaWith counter1 c st) =
        decodingOf (PerformMarsalaWith counter2 c st) := by
  have hsource : PerformMarsalaWith (sourceCounter (u32 st.container.length)) c st =
      PerformMarsala c st :=
    scanContainerWith_source c (u32 st.container.length) st.combinedPacketsForFrame
      st.container [] st.trace
  refine ⟨hsource, ?_, ?_⟩
  · intro counter
    rw [← hsource, decodingOf_PerformMarsalaWith c counter,
      decodingOf_PerformMarsalaWith c (sourceCounter (u32 st.container.length))]
  · intro counter1 counter2
    rw [decodingOf_PerformMarsalaWith c counter1, decodingOf_PerformMarsalaWith c counter2]


/-! ## The telemetry of a correlation pass (C15) -/

section

variable {α : Type} [NatCast α] [Add α] [Sub α] [Div α] (c : Carrier α) (nb : Nat)

/-- The two events of a candidate whose integrity checks pass: the SINR of the candidate in
dB, then the counter, the source address and the verdict of the link results. -/
theorem eventsAt_of_verdict {P : Position} {b : Bool} (h : verdictAt c nb P = .ok b) :
    eventsAt c nb P =
      [TraceEvent.linkSinr (c.LinearToDb (c.CalculatePacketCompositeSinr P.view P.current)),
       TraceEvent.marsalaCorrelationRx
         (correlationsOf nb (u32 P.current.slotIdsForOtherReplicas.length))
         P.current.sourceAddress b] := by
  unfold verdictAt at h
  unfold eventsAt
  unfold evaluateCandidate at h ⊢
  cases hcount : countPacketsInReplicaSlots c P.view P.current
      P.current.slotIdsForOtherReplicas (u32 P.slotView.length) with
  | error f => rw [hcount] at h; simp at h
  | ok n =>
    rw [hcount] at h
    simp only [Except.ok.injEq] at h
    simp only [evaluationEvents, h]

end

/-- Claim C15, amended: for every call of `PerformMarsala` that returns a value, the events
sent to the trace sources during the call are those of the candidates evaluated, in the
order of the scan (the evaluated candidates are the first candidates of the scan), two
events for each: first one SINR event with the single-slot SINR of the candidate in dB,
then one correlation event with the counter, the source address of the candidate and the
decode-error flag written to the candidate. The flag is true when the link results
rejected the combined SINR, and false exactly when the attempt succeeded: the call
returned true and the candidate is the last one evaluated. -/
theorem C15_two_events_per_evaluated_candidate {α : Type} [NatCast α] [Add α] [Sub α]
    [Div α] (c : Carrier α) (st : State α) (r : Bool × State α)
    (hrun : PerformMarsala c st = .ok r) :
    ∃ evaluated notEvaluated, positions st.container = evaluated ++ notEvaluated ∧
      r.2.trace = st.trace ++ eventsOf c (u32 st.container.length) evaluated ∧
      ∀ P ∈ evaluated, ∃ failed : Bool,
        verdictAt c (u32 st.container.length) P = .ok failed ∧
        eventsAt c (u32 st.container.length) P =
          [TraceEvent.linkSinr
            (c.LinearToDb (c.CalculatePacketCompositeSinr P.view P.current)),
           TraceEvent.marsalaCorrelationRx
            (correlationsOf (u32 st.container.length)
              (u32 P.current.slotIdsForOtherReplicas.length))
            P.current.sourceAddress failed] ∧
        (failed = false ↔ (r.1 = true ∧ evaluated.getLast? = some P)) := by
  obtain ⟨b, st1⟩ := r
  rcases PerformMarsala_cases c st with ⟨_, h2, h3⟩ | ⟨L1, P, L2, h1, h2, h3, _, h5⟩ |
      ⟨_, _, _, _, _, _, h4⟩
  · rw [h3] at hrun
    simp only [Except.ok.injEq, Prod.mk.injEq] at hrun
    obtain ⟨hb, hst⟩ := hrun
    subst hb
    subst hst
    refine ⟨positions st.container, [], by simp, rfl, ?_⟩
    intro P hP
    exact ⟨true, h2 P hP, eventsAt_of_verdict c _ (h2 P hP), by simp⟩
  · rw [h5] at hrun
    obtain ⟨hb, hstop⟩ := stopResult_ok hrun
    obtain ⟨hv, hcommit⟩ := stopAt_ok c _ hstop h3
    obtain ⟨_, htr, _⟩ := commitDecoded_ok c hcommit
    refine ⟨L1 ++ [P], L2, by simp [h1], ?_, ?_⟩
    · simp only [htr, eventsOf_append, eventsOf, List.append_nil, List.append_assoc]
    · intro Q hQ
      rcases List.mem_append.1 hQ with hQ1 | hQ1
      · refine ⟨true, h2 Q hQ1, eventsAt_of_verdict c _ (h2 Q hQ1), ?_⟩
        constructor
        · intro h; simp at h
        · rintro ⟨_, hlast⟩
          have hl : (L1 ++ [P]).getLast? = some P := by simp
          rw [hl] at hlast
          simp only [Option.some.injEq] at hlast
          subst hlast
          have := h2 P hQ1
          rw [hv] at this
          simp at this
      · simp only [List.mem_singleton] at hQ1
        subst hQ1
        refine ⟨false, hv, eventsAt_of_verdict c _ hv, ?_⟩
        simp [hb]
  · rw [h4] at hrun
    simp at hrun

/-- The claim C15 as stated fails: on the frame of scenario 3 the correlation attempt on
the first candidate succeeds (the link results accept the combined SINR, the call returns
true and the record is decoded), and the third component of its correlation event is
false. -/
theorem C15_counterexample :
    PerformMarsala exampleCarrier
        { container := threeReplicasFrame, combinedPacketsForFrame := [], trace := [] } =
      .ok (true, { container := []
                   combinedPacketsForFrame := [exampleRecord 7 2 1 [2, 3]]
                   trace := [TraceEvent.linkSinr (1 / 5),
                     TraceEvent.marsalaCorrelationRx 2 7 false] }) ∧
    verdictAt exampleCarrier 3
        { before := [], slotId := 1, scanned := [], current := exampleRecord 7 2 1 [2, 3]
          others := []
          after := [(2, [exampleRecord 7 2 2 [1, 3]]), (3, [exampleRecord 7 2 3 [1, 2]])] } =
      .ok false ∧
    eventsAt exampleCarrier 3
        { before := [], slotId := 1, scanned := [], current := exampleRecord 7 2 1 [2, 3]
          others := []
          after := [(2, [exampleRecord 7 2 2 [1, 3]]), (3, [exampleRecord 7 2 3 [1, 2]])] } =
      [TraceEvent.linkSinr (1 / 5), TraceEvent.marsalaCorrelationRx 2 7 false] ∧
    ¬ (∀ (n s : Nat) (flag : Bool),
        TraceEvent.marsalaCorrelationRx n s flag ∈
          eventsAt exampleCarrier 3
            { before := [], slotId := 1, scanned := [], current := exampleRecord 7 2 1 [2, 3]
              others := []
              after := [(2, [exampleRecord 7 2 2 [1, 3]]),
                (3, [exampleRecord 7 2 3 [1, 2]])] } →
        flag = true) := by
  have hrun : PerformMarsala exampleCarrier
      { container := threeReplicasFrame, combinedPacketsForFrame := [], trace := [] } =
      .ok (true, { container := []
                   combinedPacketsForFrame := [exampleRecord 7 2 1 [2, 3]]
                   trace := [TraceEvent.linkSinr (1 / 5),
                     TraceEvent.marsalaCorrelationRx 2 7 false] }) := by
    with_unfolding_all rfl
  have hev : eventsAt exampleCarrier 3
      { before := [], slotId := 1, scanned := [], current := exampleRecord 7 2 1 [2, 3]
        others := []
        after := [(2, [exampleRecord 7 2 2 [1, 3]]), (3, [exampleRecord 7 2 3 [1, 2]])] } =
      [TraceEvent.linkSinr (1 / 5), TraceEvent.marsalaCorrelationRx 2 7 false] := by
    with_unfolding_all rfl
  refine ⟨hrun, by with_unfolding_all rfl, hev, ?_⟩
  intro h
  have := h 2 7 false (by rw [hev]; simp)
  simp at this

/-- Witness of the amended C15 on the example frame: three candidates are evaluated, two
rejected and the third accepted. -/
theorem C15_two_events_per_evaluated_candidate_witness :
    ∃ evaluated notEvaluated, positions exampleFrame = evaluated ++ notEvaluated ∧
      [TraceEvent.linkSinr (1 / 5), TraceEvent.marsalaCorrelationRx 2 7 true,
        TraceEvent.linkSinr (1 / 5), TraceEvent.marsalaCorrelationRx 2 7 true,
        TraceEvent.linkSinr 2, TraceEvent.marsalaCorrelationRx 1 8 false] =
          [] ++ eventsOf exampleCarrier (u32 exampleFrame.length) evaluated ∧
      ∀ P ∈ evaluated, ∃ failed : Bool,
        verdictAt exampleCarrier (u32 exampleFrame.length) P = .ok failed ∧
        eventsAt exampleCarrier (u32 exampleFrame.length) P =
          [TraceEvent.linkSinr
            (exampleCarrier.LinearToDb
              (exampleCarrier.CalculatePacketCompositeSinr P.view P.current)),
           TraceEvent.marsalaCorrelationRx
            (correlationsOf (u32 exampleFrame.length)
              (u32 P.current.slotIdsForOtherReplicas.length))
            P.current.sourceAddress failed] ∧
        (failed = false ↔ (true = true ∧ evaluated.getLast? = some P)) :=
  C15_two_events_per_evaluated_candidate exampleCarrier
    { container := exampleFrame, combinedPacketsForFrame := [], trace := [] }
    (true, { container := [(1, [(exampleRecord 7 2 1 [2]).setPhyError true]),
                           (2, [(exampleRecord 7 2 2 [1]).setPhyError true]),
                           (3, [exampleRecord 9 20 3 []])]
             combinedPacketsForFrame := [exampleRecord 8 20 2 []]
             trace := [TraceEvent.linkSinr (1 / 5), TraceEvent.marsalaCorrelationRx 2 7 true,
               TraceEvent.linkSinr (1 / 5), TraceEvent.marsalaCorrelationRx 2 7 true,
               TraceEvent.linkSinr 2, TraceEvent.marsalaCorrelationRx 1 8 false] })
    (by with_unfolding_all rfl)


/-! ## `CheckReplicaInSlot` counts the replicas of the slot (C23) -/

/-- Claim C23: `CheckReplicaInSlot (slot, packet)` returns false exactly when no record of
the slot is a replica of the packet, returns true exactly when exactly one record is, and
ends in a fatal error (the error "Found more than one replica in the same slot!" and no
other) exactly when two or more records of the slot are replicas of the packet. The slot is
an argument the function reads: it returns a truth value or ends in the error, and nothing
else. -/
theorem C23_check_replica_in_slot_counts_replicas {α : Type} (c : Carrier α)
    (slotContent : SlotContent) (packet : Packet) :
    (CheckReplicaInSlot c slotContent packet = .ok false ↔
      slotContent.countP (c.IsReplica packet) = 0) ∧
    (CheckReplicaInSlot c slotContent packet = .ok false ↔
      ∀ r ∈ slotContent, c.IsReplica packet r = false) ∧
    (CheckReplicaInSlot c slotContent packet = .ok true ↔
      slotContent.countP (c.IsReplica packet) = 1) ∧
    (CheckReplicaInSlot c slotContent packet = .error Fault.moreThanOneReplica ↔
      2 ≤ slotContent.countP (c.IsReplica packet)) ∧
    (∀ f, CheckReplicaInSlot c slotContent packet = .error f →
      f = Fault.moreThanOneReplica) := by
  have hfalse : CheckReplicaInSlot c slotContent packet = .ok false ↔
      slotContent.countP (c.IsReplica packet) = 0 := by
    rw [CheckReplicaInSlot_eq]
    by_cases h2 : 2 ≤ slotContent.countP (c.IsReplica packet)
    · rw [if_pos h2]
      constructor
      · intro h; cases h
      · intro h; omega
    · rw [if_neg h2]
      simp only [Except.ok.injEq, decide_eq_false_iff_not]
      omega
  have herror : CheckReplicaInSlot c slotContent packet = .error Fault.moreThanOneReplica ↔
      2 ≤ slotContent.countP (c.IsReplica packet) := by
    rw [CheckReplicaInSlot_eq]
    by_cases h2 : 2 ≤ slotContent.countP (c.IsReplica packet)
    · rw [if_pos h2]
      exact ⟨fun _ => h2, fun _ => rfl⟩
    · rw [if_neg h2]
      constructor
      · intro h; cases h
      · intro h; exact absurd h h2
  refine ⟨hfalse, ?_, CheckReplicaInSlot_true_iff c slotContent packet, herror, ?_⟩
  · rw [hfalse, List.countP_eq_zero]
    constructor
    · intro h r hr
      simpa using h r hr
    · intro h r hr
      simp [h r hr]
  · intro f hf
    rw [CheckReplicaInSlot_eq] at hf
    by_cases h2 : 2 ≤ slotContent.countP (c.IsReplica packet)
    · rw [if_pos h2] at hf
      simp only [Except.error.injEq] at hf
      exact hf.symm
    · rw [if_neg h2] at hf
      cases hf


/-! ## The correlation counter (C24) -/

/-- The loop `correlations *= i` in `uint32_t` arithmetic multiplies modulo 2^32. -/
theorem foldl_u32_mul (l : List Nat) (a : Nat) :
    l.foldl (fun correlations i => u32 (correlations * i)) (u32 a) = u32 (a * l.prod) := by
  induction l generalizing a with
  | nil => simp
  | cons x l ih =>
    rw [List.foldl_cons, ih (u32 a * x), List.prod_cons]
    unfold u32
    rw [Nat.mul_assoc (a % 4294967296) x l.prod, Nat.mod_mul_mod]

/-- The product of the values `n - k, ..., n - 1` of the loop variable is the falling
factorial `(n - 1) (n - 2) ... (n - k)`. -/
theorem prod_range_eq_descFactorial (k n : Nat) (hk : k ≤ n) :
    (List.range' (n - k) k).prod = Nat.descFactorial (n - 1) k := by
  induction k with
  | zero => simp
  | succ k ih =>
    have h1 : n - (k + 1) + 1 = n - k := by omega
    have h2 : n - 1 - k = n - (k + 1) := by omega
    rw [List.range'_succ, List.prod_cons, h1, ih (by omega), Nat.descFactorial_succ, h2]

/-- The falling factorial written as the product `(n - 1) (n - 2) ... (n - k)`, factor by
factor. -/
theorem prod_factors_eq_descFactorial (k n : Nat) :
    ((List.range k).map (fun j => n - 1 - j)).prod = Nat.descFactorial (n - 1) k := by
  induction k with
  | zero => simp
  | succ k ih =>
    rw [List.range_succ, List.map_append, List.prod_append, ih, Nat.descFactorial_succ]
    simp [Nat.mul_comm]

/-- The counter in closed form, when the subtraction `nbSlots - otherReplicasCount` does not
wrap. -/
theorem correlationsOf_eq (n k : Nat) (hk : k ≤ n) (hn : n < 4294967296) :
    correlationsOf n k = Nat.descFactorial (n - 1) k % 4294967296 := by
  have hfirst : u32 (n + 4294967296 - k) = n - k := by
    unfold u32
    omega
  have hlen : n - (n - k) = k := by omega
  have hone : u32 1 = 1 := rfl
  have hloop := foldl_u32_mul (List.range' (n - k) k) 1
  rw [hone, Nat.one_mul, prod_range_eq_descFactorial k n hk] at hloop
  unfold correlationsOf
  simp only [hfirst, hlen]
  exact hloop

section

variable {α : Type} [NatCast α] [Add α] [Sub α] [Div α] (c : Carrier α)

/-- The events of a call of `PerformMarsala` that returns a value are those of the first
candidates of the scan, each evaluated with the number of slots the container had when the
call started. -/
theorem PerformMarsala_events {st : State α} {r : Bool × State α}
    (hrun : PerformMarsala c st = .ok r) :
    ∃ evaluated notEvaluated, positions st.container = evaluated ++ notEvaluated ∧
      r.2.trace = st.trace ++ eventsOf c (u32 st.container.length) evaluated ∧
      ∀ P ∈ evaluated, ∃ failed : Bool,
        verdictAt c (u32 st.container.length) P = .ok failed := by
  obtain ⟨b, st1⟩ := r
  rcases PerformMarsala_cases c st with ⟨_, h2, h3⟩ | ⟨L1, P, L2, h1, h2, h3, _, h5⟩ |
      ⟨_, _, _, _, _, _, h4⟩
  · rw [h3] at hrun
    simp only [Except.ok.injEq, Prod.mk.injEq] at hrun
    obtain ⟨hb, hst⟩ := hrun
    subst hb
    subst hst
    exact ⟨positions st.container, [], by simp, rfl, fun P hP => ⟨true, h2 P hP⟩⟩
  · rw [h5] at hrun
    obtain ⟨hb, hstop⟩ := stopResult_ok hrun
    obtain ⟨hv, hcommit⟩ := stopAt_ok c _ hstop h3
    obtain ⟨_, htr, _⟩ := commitDecoded_ok c hcommit
    refine ⟨L1 ++ [P], L2, by simp [h1], ?_, ?_⟩
    · simp only [htr, eventsOf_append, eventsOf, List.append_nil, List.append_assoc]
    · intro Q hQ
      rcases List.mem_append.1 hQ with hQ1 | hQ1
      · exact ⟨true, h2 Q hQ1⟩
      · simp only [List.mem_singleton] at hQ1
        subst hQ1
        exact ⟨false, hv⟩
  · rw [h4] at hrun
    simp at hrun

end

/-- Claim C24: the correlation counter computed for `k` sibling slot ids and `n` slots,
`0 ≤ k ≤ n` (`n` in the range of `uint32_t`), is the falling-factorial product
`(n - 1) (n - 2) ... (n - k)` reduced modulo 2^32: it is 1 when `k = 0` and 0 when `k = n`
(a frame with a candidate has `n ≥ 1`). In a call of `PerformMarsala` that returns, the
correlation event of every evaluated candidate carries this counter for the number `k` of
its sibling slot ids and the number `n` of slots the container had when the call
started. -/
theorem C24_counter_is_falling_factorial {α : Type} [NatCast α] [Add α] [Sub α] [Div α]
    (c : Carrier α) (st : State α) :
    (∀ n k : Nat, k ≤ n → n < 4294967296 →
      correlationsOf n k = Nat.descFactorial (n - 1) k % 4294967296 ∧
      correlationsOf n k = ((List.range k).map (fun j => n - 1 - j)).prod % 4294967296 ∧
      (k = 0 → correlationsOf n k = 1) ∧
      (0 < n → k = n → correlationsOf n k = 0)) ∧
    (∀ r, PerformMarsala c st = .ok r →
      ∃ evaluated notEvaluated, positions st.container = evaluated ++ notEvaluated ∧
        r.2.trace = st.trace ++ eventsOf c (u32 st.container.length) evaluated ∧
        ∀ P ∈ evaluated, ∃ failed : Bool,
          eventsAt c (u32 st.container.length) P =
            [TraceEvent.linkSinr
              (c.LinearToDb (c.CalculatePacketCompositeSinr P.view P.current)),
             TraceEvent.marsalaCorrelationRx
              (correlationsOf (u32 st.container.length)
                (u32 P.current.slotIdsForOtherReplicas.length))
              P.current.sourceAddress failed] ∧
          (st.container.length < 4294967296 → 0 < u32 st.container.length) ∧
          (u32 P.current.slotIdsForOtherReplicas.length ≤ u32 st.container.length →
            correlationsOf (u32 st.container.length)
                (u32 P.current.slotIdsForOtherReplicas.length) =
              Nat.descFactorial (u32 st.container.length - 1)
                (u32 P.current.slotIdsForOtherReplicas.length) % 4294967296)) := by
  refine ⟨?_, ?_⟩
  · intro n k hk hn
    refine ⟨correlationsOf_eq n k hk hn, ?_, ?_, ?_⟩
    · rw [correlationsOf_eq n k hk hn, prod_factors_eq_descFactorial]
    · intro h0
      rw [correlationsOf_eq n k hk hn, h0]
      rfl
    · intro hpos hkn
      have hlt : n - 1 < k := by omega
      rw [correlationsOf_eq n k hk hn, Nat.descFactorial_of_lt hlt]
  · intro r hrun
    obtain ⟨evaluated, notEvaluated, hpos, htrace, hall⟩ := PerformMarsala_events c hrun
    refine ⟨evaluated, notEvaluated, hpos, htrace, ?_⟩
    intro P hP
    obtain ⟨failed, hv⟩ := hall P hP
    refine ⟨failed, eventsAt_of_verdict c _ hv, ?_, ?_⟩
    · intro hlen
      have hne : st.container ≠ [] := by
        intro hnil
        rw [hnil] at hpos
        have hnone : evaluated = [] := by
          have : ([] : List Position) = evaluated ++ notEvaluated := hpos
          exact (List.append_eq_nil.1 this.symm).1
        rw [hnone] at hP
        simp at hP
      have h1 : 0 < st.container.length := List.length_pos.2 hne
      unfold u32
      omega
    · intro hk
      exact correlationsOf_eq _ _ hk (Nat.mod_lt _ (by decide))

/-- Witness of C24: with 3 slots the counter is 1 for no sibling slot id, 2 = 2 * 1 for two
sibling slot ids and 0 for three; with 100000 slots and 2 sibling slot ids the product
99999 * 99998 is reduced modulo 2^32. -/
theorem C24_counter_is_falling_factorial_witness :
    correlationsOf 3 0 = 1 ∧ correlationsOf 3 2 = 2 ∧ correlationsOf 3 3 = 0 ∧
    correlationsOf 100000 2 = 1409765410 ∧
    (correlationsOf 3 2 = Nat.descFactorial (3 - 1) 2 % 4294967296 ∧
      correlationsOf 3 2 = ((List.range 2).map (fun j => 3 - 1 - j)).prod % 4294967296 ∧
      (2 = 0 → correlationsOf 3 2 = 1) ∧
      (0 < 3 → 2 = 3 → correlationsOf 3 2 = 0)) :=
  ⟨by decide, by decide, by decide, by decide,
   (C24_counter_is_falling_factorial exampleCarrier
      { container := threeReplicasFrame, combinedPacketsForFrame := [], trace := [] }).1
      3 2 (by decide) (by decide)⟩

end SatPhyRxCarrierMarsala

namespace IEEE754

/-! ## The number of binary digits -/

theorem bitLengthAux_zero (fuel : Nat) : bitLengthAux fuel 0 = 0 := by
  cases fuel <;> simp [bitLengthAux]

/-- The fuel `n` is enough to count the binary digits of `n`. -/
theorem bitLengthAux_spec : ∀ (fuel n : Nat), n ≤ fuel →
    n < 2 ^ bitLengthAux fuel n ∧ (n ≠ 0 → 2 ^ (bitLengthAux fuel n - 1) ≤ n) := by
  intro fuel
  induction fuel with
  | zero =>
    intro n hn
    have h0 : n = 0 := by omega
    subst h0
    simp [bitLengthAux]
  | succ fuel ih =>
    intro n hn
    by_cases h0 : n = 0
    · subst h0
      simp [bitLengthAux]
    · have hhalf : n / 2 ≤ fuel := by omega
      obtain ⟨h1, h2⟩ := ih (n / 2) hhalf
      have hstep : bitLengthAux (fuel + 1) n = bitLengthAux fuel (n / 2) + 1 := by
        simp [bitLengthAux, h0]
      rw [hstep]
      constructor
      · rw [Nat.pow_succ]
        omega
      · intro _
        rw [Nat.add_sub_cancel]
        by_cases hq : n / 2 = 0
        · rw [hq, bitLengthAux_zero]
          simp only [Nat.pow_zero]
          omega
        · have h3 := h2 hq
          have hk : bitLengthAux fuel (n / 2) ≠ 0 := by
            intro hk
            rw [hk] at h1
            simp only [Nat.pow_zero] at h1
            omega
          have hpow : 2 ^ bitLengthAux fuel (n / 2) =
              2 ^ (bitLengthAux fuel (n / 2) - 1) * 2 := by
            rw [← Nat.pow_succ]
            congr 1
            omega
          rw [hpow]
          omega

/-- The number of binary digits of `n ≠ 0` is the `k` with `2 ^ (k - 1) ≤ n < 2 ^ k`. -/
theorem bitLength_spec (n : Nat) (hn : n ≠ 0) :
    2 ^ (bitLength n - 1) ≤ n ∧ n < 2 ^ bitLength n :=
  ⟨(bitLengthAux_spec n n (Nat.le_refl n)).2 hn, (bitLengthAux_spec n n (Nat.le_refl n)).1⟩

end IEEE754

namespace SatPhyRxCarrierMarsala

open SatPhyRxCarrierPerFrame

/-! ## Bounds of the combined SINR (C25) -/

section

variable {α : Type} [LinearOrderedField α]

end

/-- The formula of the specification is the quotient of `R` by the denominator. -/
theorem combinedSinr_eq_div [NatCast α] [Add α] [Sub α] [Div α] (R occ : Nat) (s : α) :
    combinedSinr R occ s = (R : α) / formulaDenominator R occ s := rfl

end SatPhyRxCarrierMarsala

namespace SatQueue

/-! ## What one call does to the queue -/

/-- A rejected `DoEnqueue` hands the packet to `Drop` and does nothing else. -/
theorem DoEnqueue_rejected {q : State} {p : Packet} (h : (DoEnqueue q p).1 = false) :
    (DoEnqueue q p).2 = Drop q p := by
  unfold DoEnqueue at h ⊢
  split
  · rfl
  · split
    · rfl
    · rename_i h1 h2
      simp [h1, h2] at h

/-- An accepted `DoEnqueue` puts the packet at the back of the queue. -/
theorem DoEnqueue_accepted {q : State} {p : Packet} (h : (DoEnqueue q p).1 = true) :
    (DoEnqueue q p).2.m_packets = q.m_packets ++ [p] := by
  unfold DoEnqueue at h ⊢
  split
  · rename_i h1
    simp [h1] at h
  · split
    · rename_i h1 h2
      simp [h1, h2] at h
    · simp only
      split <;> rfl

/-- The mode and the limits of the queue are not written by `DoEnqueue`. -/
theorem DoEnqueue_limits (q : State) (p : Packet) :
    (DoEnqueue q p).2.m_mode = q.m_mode ∧
    (DoEnqueue q p).2.m_maxPackets = q.m_maxPackets ∧
    (DoEnqueue q p).2.m_maxBytes = q.m_maxBytes := by
  unfold DoEnqueue
  split
  · exact ⟨rfl, rfl, rfl⟩
  · split
    · exact ⟨rfl, rfl, rfl⟩
    · simp only
      split <;> exact ⟨rfl, rfl, rfl⟩

/-- In `QUEUE_MODE_PACKETS` the packet is accepted exactly when the queue holds fewer than
`m_maxPackets` packets. -/
theorem DoEnqueue_packets_mode {q : State} (hmode : q.m_mode = QueueMode.QUEUE_MODE_PACKETS)
    (p : Packet) : (DoEnqueue q p).1 = true ↔ q.m_packets.length < q.m_maxPackets := by
  unfold DoEnqueue
  by_cases hfull : q.m_packets.length ≥ q.m_maxPackets
  · simp only [hmode, hfull, and_self, ↓reduceIte, Bool.false_eq_true, false_iff]
    omega
  · simp only [hmode, hfull, and_false, ↓reduceIte, reduceCtorEq, false_and, true_iff]
    omega

/-- In `QUEUE_MODE_BYTES` the packet is accepted exactly when the byte count with the packet,
in `uint32_t` arithmetic, is strictly below `m_maxBytes`. -/
theorem DoEnqueue_bytes_mode {q : State} (hmode : q.m_mode = QueueMode.QUEUE_MODE_BYTES)
    (p : Packet) :
    (DoEnqueue q p).1 = true ↔ u32 (q.m_bytesInQueue + p.GetSize) < q.m_maxBytes := by
  unfold DoEnqueue
  by_cases hfull : u32 (q.m_bytesInQueue + p.GetSize) ≥ q.m_maxBytes
  · simp only [hmode, reduceCtorEq, false_and, ↓reduceIte, hfull, and_self,
      Bool.false_eq_true, false_iff]
    omega
  · simp only [hmode, reduceCtorEq, false_and, ↓reduceIte, hfull, and_false, true_iff]
    omega

/-- What `DoDequeue` returns and leaves on an empty queue. -/
theorem DoDequeue_nil {q : State} (h : q.m_packets = []) : DoDequeue q = (none, q) := by
  unfold DoDequeue
  rw [h]

/-- What `DoDequeue` returns and leaves in the queue when the queue holds a packet. -/
theorem DoDequeue_cons {q : State} {p : Packet} {rest : List Packet}
    (h : q.m_packets = p :: rest) :
    (DoDequeue q).1 = some p ∧ (DoDequeue q).2.m_packets = rest ∧
    (DoDequeue q).2.m_mode = q.m_mode ∧ (DoDequeue q).2.m_maxPackets = q.m_maxPackets := by
  unfold DoDequeue
  rw [h]
  simp only
  split <;> simp [SendEvent]

/-! ## Sequences of calls -/

theorem run_snoc (q : State) (operations : List Operation) (op : Operation) :
    run q (operations ++ [op]) = (run q operations).step op := by
  unfold run
  rw [List.foldl_append]
  rfl

theorem run_nil (q : State) : run q [] = { queue := q, accepted := [], dequeued := [] } := rfl

/-- A call keeps the mode and the packet limit, and in `QUEUE_MODE_PACKETS` it keeps the
number of queued packets within the limit. -/
theorem step_within_limit (h : History) (op : Operation) :
    (h.step op).queue.m_mode = h.queue.m_mode ∧
    (h.step op).queue.m_maxPackets = h.queue.m_maxPackets ∧
    (h.queue.m_mode = QueueMode.QUEUE_MODE_PACKETS →
      h.queue.m_packets.length ≤ h.queue.m_maxPackets →
      (h.step op).queue.m_packets.length ≤ h.queue.m_maxPackets) := by
  cases op with
  | enqueue p =>
    obtain ⟨h1, h2, _⟩ := DoEnqueue_limits h.queue p
    refine ⟨h1, h2, ?_⟩
    intro hmode hlen
    simp only [History.step]
    cases hacc : (DoEnqueue h.queue p).1 with
    | true =>
      rw [DoEnqueue_accepted hacc]
      have := (DoEnqueue_packets_mode hmode p).1 hacc
      simp only [List.length_append, List.length_singleton]
      omega
    | false =>
      rw [DoEnqueue_rejected hacc]
      exact hlen
  | dequeue =>
    simp only [History.step]
    cases hq : h.queue.m_packets with
    | nil =>
      rw [DoDequeue_nil hq]
      exact ⟨rfl, rfl, fun _ _ => by simp [hq]⟩
    | cons p rest =>
      obtain ⟨_, h2, h3, h4⟩ := DoDequeue_cons hq
      refine ⟨h3, h4, ?_⟩
      intro _ hlen
      rw [h2]
      simp only [List.length_cons] at hlen
      omega

/-- A call keeps the account of the packets: the packets dequeued so far followed by the
packets in the queue are the packets held at the start followed by the packets accepted. -/
theorem step_account (start : List Packet) (h : History) (op : Operation)
    (hinv : h.dequeued ++ h.queue.m_packets = start ++ h.accepted) :
    (h.step op).dequeued ++ (h.step op).queue.m_packets = start ++ (h.step op).accepted := by
  cases op with
  | enqueue p =>
    simp only [History.step]
    cases hacc : (DoEnqueue h.queue p).1 with
    | true =>
      rw [DoEnqueue_accepted hacc]
      simp only [↓reduceIte]
      rw [← List.append_assoc, hinv, List.append_assoc]
    | false =>
      rw [DoEnqueue_rejected hacc]
      simpa [Drop] using hinv
  | dequeue =>
    simp only [History.step]
    cases hq : h.queue.m_packets with
    | nil =>
      rw [DoDequeue_nil hq]
      simpa [hq] using hinv
    | cons p rest =>
      obtain ⟨h1, h2, _, _⟩ := DoDequeue_cons hq
      rw [h1, h2]
      simp only
      rw [hq] at hinv
      rw [← hinv]
      simp

/-- Claim C16: in `QUEUE_MODE_PACKETS`, `DoEnqueue` accepts a packet if and only if the
number of packets queued is strictly less than `m_maxPackets`, whatever the byte count and
`m_maxBytes`; from a queue within the limit (an empty queue for one), after any sequence of
`DoEnqueue` and `DoDequeue` calls the queue holds at most `m_maxPackets` packets; and, in
either mode, a rejected `DoEnqueue` returns false and leaves the queued packets and the
three byte counters unchanged. -/
theorem C16_packets_mode_keeps_max_packets (q : State) :
    (q.m_mode = QueueMode.QUEUE_MODE_PACKETS →
      ∀ p, (DoEnqueue q p).1 = true ↔ q.m_packets.length < q.m_maxPackets) ∧
    (q.m_mode = QueueMode.QUEUE_MODE_PACKETS → q.m_packets.length ≤ q.m_maxPackets →
      ∀ operations, (run q operations).queue.m_packets.length ≤ q.m_maxPackets) ∧
    (∀ p, (DoEnqueue q p).1 = false →
      (DoEnqueue q p).2.m_packets = q.m_packets ∧
      (DoEnqueue q p).2.m_bytesInQueue = q.m_bytesInQueue ∧
      (DoEnqueue q p).2.m_enquedBytesSinceReset = q.m_enquedBytesSinceReset ∧
      (DoEnqueue q p).2.m_dequedBytesSinceReset = q.m_dequedBytesSinceReset) := by
  refine ⟨fun hmode p => DoEnqueue_packets_mode hmode p, ?_, ?_⟩
  · intro hmode hlen operations
    have key : (run q operations).queue.m_mode = q.m_mode ∧
        (run q operations).queue.m_maxPackets = q.m_maxPackets ∧
        (run q operations).queue.m_packets.length ≤ q.m_maxPackets := by
      induction operations using List.reverseRecOn with
      | nil => exact ⟨rfl, rfl, hlen⟩
      | append_singleton operations op ih =>
        obtain ⟨i1, i2, i3⟩ := ih
        obtain ⟨s1, s2, s3⟩ := step_within_limit (run q operations) op
        rw [run_snoc]
        refine ⟨s1.trans i1, s2.trans i2, ?_⟩
        have := s3 (i1.trans hmode) (by rw [i2]; exact i3)
        rw [i2] at this
        exact this
    exact key.2.2
  · intro p hrej
    rw [DoEnqueue_rejected hrej]
    exact ⟨rfl, rfl, rfl, rfl⟩

/-- Witness of C16: a queue of at most two packets, with `m_maxBytes` zero: the third packet
is rejected, and after a `DoDequeue` the next one is accepted. -/
theorem C16_packets_mode_keeps_max_packets_witness :
    (run (emptyQueue QueueMode.QUEUE_MODE_PACKETS 2 0)
        [Operation.enqueue ⟨1, 50⟩, Operation.enqueue ⟨2, 60⟩, Operation.enqueue ⟨3, 70⟩,
         Operation.dequeue, Operation.enqueue ⟨4, 80⟩]).accepted =
      [⟨1, 50⟩, ⟨2, 60⟩, ⟨4, 80⟩] ∧
    ∀ operations,
      (run (emptyQueue QueueMode.QUEUE_MODE_PACKETS 2 0) operations).queue.m_packets.length ≤
        (emptyQueue QueueMode.QUEUE_MODE_PACKETS 2 0).m_maxPackets :=
  ⟨by decide,
   (C16_packets_mode_keeps_max_packets (emptyQueue QueueMode.QUEUE_MODE_PACKETS 2 0)).2.1 rfl
    (by decide)⟩

/-- Claim C17 fails on the code: in `QUEUE_MODE_BYTES` with `m_maxBytes = 100`, a packet of
100 bytes offered to the empty queue is dropped, and so is a packet of 40 bytes offered to
a queue of 60 bytes, though the byte count with the packet does not exceed `m_maxBytes`;
a packet of 99 bytes is accepted by the empty queue. The test of line 120 is `>=`. -/
theorem C17_packet_filling_max_bytes_is_dropped :
    (DoEnqueue (emptyQueue QueueMode.QUEUE_MODE_BYTES 100 100) ⟨1, 100⟩).1 = false ∧
    (emptyQueue QueueMode.QUEUE_MODE_BYTES 100 100).m_bytesInQueue + 100 ≤
      (emptyQueue QueueMode.QUEUE_MODE_BYTES 100 100).m_maxBytes ∧
    (DoEnqueue (emptyQueue QueueMode.QUEUE_MODE_BYTES 100 100) ⟨1, 99⟩).1 = true ∧
    (DoEnqueue (DoEnqueue (emptyQueue QueueMode.QUEUE_MODE_BYTES 100 100) ⟨1, 60⟩).2
      ⟨2, 40⟩).1 = false ∧
    (DoEnqueue (emptyQueue QueueMode.QUEUE_MODE_BYTES 100 100) ⟨1, 60⟩).2.m_bytesInQueue + 40 ≤
      100 := by
  decide

/-- In `QUEUE_MODE_BYTES` the byte count of the queue after an accepted `DoEnqueue` is
strictly below `m_maxBytes`: the queue is never filled to `m_maxBytes` bytes. -/
theorem DoEnqueue_bytes_mode_below_max {q : State}
    (hmode : q.m_mode = QueueMode.QUEUE_MODE_BYTES) (p : Packet)
    (hacc : (DoEnqueue q p).1 = true) :
    (DoEnqueue q p).2.m_bytesInQueue < q.m_maxBytes := by
  have hlt := (DoEnqueue_bytes_mode hmode p).1 hacc
  unfold DoEnqueue at hacc ⊢
  split
  · rename_i h1
    simp [h1] at hacc
  · split
    · rename_i h1 h2
      simp [h1, h2] at hacc
    · simp only
      split <;> exact hlt

/-- Claim C18: `SatQueue` is first-in first-out. For every sequence of `DoEnqueue` and
`DoDequeue` calls on a queue that is empty at the start, the packets returned by
`DoDequeue` followed by the packets left in the queue are the accepted packets in the order
of their acceptance; so the packets returned are a prefix of the accepted packets.
`DoDequeue` and `DoPeek` return null exactly when the queue is empty, and `DoPeek` returns
what `DoDequeue` would return (`DoPeek` has no access to the queue but to read it). -/
theorem C18_queue_is_first_in_first_out (q : State) :
    (q.m_packets = [] → ∀ operations,
      (run q operations).dequeued ++ (run q operations).queue.m_packets =
        (run q operations).accepted ∧
      (run q operations).dequeued <+: (run q operations).accepted) ∧
    ((DoDequeue q).1 = none ↔ q.m_packets = []) ∧
    (DoPeek q = none ↔ q.m_packets = []) ∧
    DoPeek q = (DoDequeue q).1 ∧
    (∀ p, DoPeek q = some p → ∃ rest, q.m_packets = p :: rest ∧
      (DoDequeue q).2.m_packets = rest) := by
  refine ⟨?_, ?_, ?_, ?_, ?_⟩
  · intro hempty operations
    have key : (run q operations).dequeued ++ (run q operations).queue.m_packets =
        [] ++ (run q operations).accepted := by
      induction operations using List.reverseRecOn with
      | nil => simp [run_nil, hempty]
      | append_singleton operations op ih =>
        rw [run_snoc]
        exact step_account [] _ op ih
    rw [List.nil_append] at key
    exact ⟨key, ⟨_, key⟩⟩
  · cases hq : q.m_packets with
    | nil => simp [DoDequeue_nil hq]
    | cons p rest => simp [(DoDequeue_cons hq).1]
  · unfold DoPeek
    cases q.m_packets <;> simp
  · cases hq : q.m_packets with
    | nil => rw [DoDequeue_nil hq]; simp [DoPeek, hq]
    | cons p rest => rw [(DoDequeue_cons hq).1]; simp [DoPeek, hq]
  · intro p hp
    cases hq : q.m_packets with
    | nil => simp [DoPeek, hq] at hp
    | cons p1 rest =>
      simp only [DoPeek, hq, Option.some.injEq] at hp
      subst hp
      exact ⟨rest, rfl, (DoDequeue_cons hq).2.1⟩

/-- Witness of C18: in `QUEUE_MODE_PACKETS` with room for two packets, of four packets
offered the third is rejected; the two dequeued packets are the first two accepted. -/
theorem C18_queue_is_first_in_first_out_witness :
    (run (emptyQueue QueueMode.QUEUE_MODE_PACKETS 2 0)
        [Operation.enqueue ⟨1, 50⟩, Operation.enqueue ⟨2, 60⟩, Operation.enqueue ⟨3, 70⟩,
         Operation.dequeue, Operation.enqueue ⟨4, 80⟩, Operation.dequeue]).dequeued =
      [⟨1, 50⟩, ⟨2, 60⟩] ∧
    ∀ operations,
      (run (emptyQueue QueueMode.QUEUE_MODE_PACKETS 2 0) operations).dequeued ++
          (run (emptyQueue QueueMode.QUEUE_MODE_PACKETS 2 0) operations).queue.m_packets =
        (run (emptyQueue QueueMode.QUEUE_MODE_PACKETS 2 0) operations).accepted ∧
      (run (emptyQueue QueueMode.QUEUE_MODE_PACKETS 2 0) operations).dequeued <+:
        (run (emptyQueue QueueMode.QUEUE_MODE_PACKETS 2 0) operations).accepted :=
  ⟨by decide,
   (C18_queue_is_first_in_first_out (emptyQueue QueueMode.QUEUE_MODE_PACKETS 2 0)).1 rfl⟩

end SatQueue

namespace SatChannel

/-! ## The receivers `StartTx` schedules a reception for (C19, C20) -/

/-- The reception scheduled by `ScheduleRx` is for the receiver it was called with. -/
theorem map_receiver_ScheduleRx (ch : Channel) (txParams : SatSignalParameters)
    (senderMobility : Nat) (receivers : List SatPhyRx) :
    (receivers.map (ScheduleRx ch txParams senderMobility)).map (fun s => s.receiver) =
      receivers := by
  rw [List.map_map]
  exact List.map_id receivers

/-- The loop of the mode `ALL_BEAMS` schedules one reception for every receiver, in the
order of the list. -/
theorem allBeamsLoop_eq (ch : Channel) (txParams : SatSignalParameters)
    (senderMobility : Nat) :
    ∀ (receivers : List SatPhyRx) (scheduled : List ScheduledRx),
      allBeamsLoop ch txParams senderMobility receivers scheduled =
        scheduled ++ receivers.map (ScheduleRx ch txParams senderMobility) := by
  intro receivers
  induction receivers with
  | nil => intro scheduled; simp [allBeamsLoop]
  | cons receiver others ih =>
    intro scheduled
    rw [allBeamsLoop, ih]
    simp

/-- The loop of the mode `ONLY_DEST_BEAM` schedules one reception for every receiver of the
beam of the transmission, in the order of the list. -/
theorem destBeamLoop_eq (ch : Channel) (txParams : SatSignalParameters)
    (senderMobility : Nat) :
    ∀ (receivers : List SatPhyRx) (scheduled : List ScheduledRx),
      destBeamLoop ch txParams senderMobility receivers scheduled =
        scheduled ++ (receivers.filter (fun receiver =>
          decide (receiver.beamId = txParams.m_beamId))).map
            (ScheduleRx ch txParams senderMobility) := by
  intro receivers
  induction receivers with
  | nil => intro scheduled; simp [destBeamLoop]
  | cons receiver others ih =>
    intro scheduled
    rw [destBeamLoop]
    by_cases hbeam : receiver.beamId = txParams.m_beamId
    · simp only [hbeam, ↓reduceIte, ih, List.filter_cons, decide_True, List.map_cons,
        List.append_assoc, List.singleton_append]
    · simp only [hbeam, ↓reduceIte, ih, List.filter_cons, decide_False, Bool.false_eq_true]

/-- The loop over the packets of the burst, when it meets no packet without MAC tag, tells
whether some packet is for the receiver. -/
theorem packetLoop_ok (receiver : SatPhyRx) :
    ∀ (packets : List Packet) (b : Bool), packetLoop receiver packets = .ok b →
      b = packets.any (fun packet =>
        match packet.macTag with
        | none => false
        | some macTag => isForReceiver macTag.destAddress receiver) := by
  intro packets
  induction packets with
  | nil => intro b h; simp only [packetLoop, Except.ok.injEq] at h; simp [← h]
  | cons packet others ih =>
    intro b h
    rw [packetLoop] at h
    cases htag : packet.macTag with
    | none => rw [htag] at h; simp at h
    | some macTag =>
      rw [htag] at h
      simp only at h
      by_cases hfor : isForReceiver macTag.destAddress receiver = true
      · simp only [hfor, ↓reduceIte, Except.ok.injEq] at h
        simp [← h, htag, hfor]
      · simp only [hfor, Bool.false_eq_true, ↓reduceIte] at h
        have := ih b h
        simp only [Bool.not_eq_true] at hfor
        simp [this, htag, hfor]

/-- The loop over the packets of a burst in which every packet carries a MAC tag meets no
fatal error. -/
theorem packetLoop_isOk (receiver : SatPhyRx) :
    ∀ (packets : List Packet), (∀ packet ∈ packets, packet.macTag ≠ none) →
      ∃ b, packetLoop receiver packets = .ok b := by
  intro packets
  induction packets with
  | nil => intro _; exact ⟨false, rfl⟩
  | cons packet others ih =>
    intro h
    rw [packetLoop]
    cases htag : packet.macTag with
    | none => exact absurd htag (h packet (by simp))
    | some macTag =>
      simp only
      split
      · exact ⟨true, rfl⟩
      · exact ih (fun q hq => h q (List.mem_cons_of_mem _ hq))

/-- The loop of the mode `ONLY_DEST_NODE` on a channel to the satellite schedules one
reception for every receiver of the beam of the transmission. -/
theorem destNodeLoop_to_satellite (ch : Channel) (txParams : SatSignalParameters)
    (senderMobility : Nat)
    (htype : ch.m_channelType = ChannelType_t.FORWARD_FEEDER_CH ∨
      ch.m_channelType = ChannelType_t.RETURN_USER_CH) :
    ∀ (receivers : List SatPhyRx) (scheduled : List ScheduledRx),
      destNodeLoop ch txParams senderMobility receivers scheduled =
        .ok (scheduled ++ (receivers.filter (fun receiver =>
          decide (receiver.beamId = txParams.m_beamId))).map
            (ScheduleRx ch txParams senderMobility)) := by
  intro receivers
  induction receivers with
  | nil => intro scheduled; simp [destNodeLoop]
  | cons receiver others ih =>
    intro scheduled
    rw [destNodeLoop]
    by_cases hbeam : receiver.beamId = txParams.m_beamId
    · rcases htype with ht | ht <;>
        simp only [hbeam, ↓reduceIte, ht, ih, List.filter_cons, decide_True, List.map_cons,
          List.append_assoc, List.singleton_append]
    · simp only [hbeam, ↓reduceIte, ih, List.filter_cons, decide_False, Bool.false_eq_true]

/-- The loop of the mode `ONLY_DEST_NODE` on a channel to a terrestrial node, when it meets
no fatal error, has scheduled one reception for every receiver of the beam of the
transmission that a packet of the burst is for. -/
theorem destNodeLoop_to_ground (ch : Channel) (txParams : SatSignalParameters)
    (senderMobility : Nat)
    (htype : ch.m_channelType = ChannelType_t.FORWARD_USER_CH ∨
      ch.m_channelType = ChannelType_t.RETURN_FEEDER_CH) :
    ∀ (receivers : List SatPhyRx) (scheduled out : List ScheduledRx),
      destNodeLoop ch txParams senderMobility receivers scheduled = .ok out →
      out = scheduled ++ (receivers.filter (fun receiver =>
        decide (receiver.beamId = txParams.m_beamId) && addressedTo txParams receiver)).map
          (ScheduleRx ch txParams senderMobility) := by
  intro receivers
  induction receivers with
  | nil =>
    intro scheduled out h
    simp only [destNodeLoop, Except.ok.injEq] at h
    simp [← h]
  | cons receiver others ih =>
    intro scheduled out h
    rw [destNodeLoop] at h
    by_cases hbeam : receiver.beamId = txParams.m_beamId
    · simp only [hbeam, ↓reduceIte] at h
      cases hp : packetLoop receiver txParams.m_packetsInBurst with
      | error f => rcases htype with ht | ht <;> simp [ht, hp] at h
      | ok b =>
        have hb := packetLoop_ok receiver _ b hp
        cases b with
        | true =>
          have h1 : destNodeLoop ch txParams senderMobility others
              (scheduled ++ [ScheduleRx ch txParams senderMobility receiver]) = .ok out := by
            rcases htype with ht | ht <;> simpa [ht, hp] using h
          rw [ih _ _ h1]
          have hadd : addressedTo txParams receiver = true := hb.symm
          simp [List.filter_cons, hbeam, hadd]
        | false =>
          have h1 : destNodeLoop ch txParams senderMobility others scheduled = .ok out := by
            rcases htype with ht | ht <;> simpa [ht, hp] using h
          rw [ih _ _ h1]
          have hadd : addressedTo txParams receiver = false := hb.symm
          simp [List.filter_cons, hadd]
    · simp only [hbeam, ↓reduceIte] at h
      rw [ih _ _ h]
      simp [List.filter_cons, hbeam]

/-- The loop of the mode `ONLY_DEST_NODE` on a channel to a terrestrial node meets no fatal
error when every packet of the burst carries a MAC tag. -/
theorem destNodeLoop_isOk (ch : Channel) (txParams : SatSignalParameters)
    (senderMobility : Nat) (htype : ch.m_channelType ≠ ChannelType_t.UNKNOWN_CH)
    (htags : ∀ packet ∈ txParams.m_packetsInBurst, packet.macTag ≠ none) :
    ∀ (receivers : List SatPhyRx) (scheduled : List ScheduledRx),
      ∃ out, destNodeLoop ch txParams senderMobility receivers scheduled = .ok out := by
  intro receivers
  induction receivers with
  | nil => intro scheduled; exact ⟨scheduled, rfl⟩
  | cons receiver others ih =>
    intro scheduled
    rw [destNodeLoop]
    split
    · obtain ⟨b, hb⟩ := packetLoop_isOk receiver _ htags
      cases hty : ch.m_channelType with
      | UNKNOWN_CH => exact absurd hty htype
      | FORWARD_FEEDER_CH => exact ih _
      | RETURN_USER_CH => exact ih _
      | FORWARD_USER_CH =>
        simp only [hb]
        cases b <;> exact ih _
      | RETURN_FEEDER_CH =>
        simp only [hb]
        cases b <;> exact ih _
    · exact ih _

/-- Claim C19: `StartTx` schedules a reception for exactly the receivers its `RxMode`
selects, once for each entry of the receiver list and in the order of the list: in the mode
`ALL_BEAMS` for every receiver attached to the channel, in the mode `ONLY_DEST_BEAM` for
exactly the receivers whose beam id is the beam id of the transmission. (The transmitter
`m_phyTx` of the transmission is not null, as `StartTx` asserts.) -/
theorem C19_receivers_selected_by_rx_mode (ch : Channel) (txParams : SatSignalParameters)
    (senderMobility : Nat) (hphyTx : txParams.m_phyTx = some senderMobility) :
    (ch.m_rxMode = RxMode.ALL_BEAMS →
      ∃ scheduled, StartTx ch txParams = .ok scheduled ∧
        scheduled = ch.m_phyList.map (ScheduleRx ch txParams senderMobility) ∧
        scheduled.map (fun s => s.receiver) = ch.m_phyList) ∧
    (ch.m_rxMode = RxMode.ONLY_DEST_BEAM →
      ∃ scheduled, StartTx ch txParams = .ok scheduled ∧
        scheduled = (ch.m_phyList.filter (fun receiver =>
          decide (receiver.beamId = txParams.m_beamId))).map
            (ScheduleRx ch txParams senderMobility) ∧
        scheduled.map (fun s => s.receiver) =
          ch.m_phyList.filter (fun receiver =>
            decide (receiver.beamId = txParams.m_beamId))) := by
  refine ⟨?_, ?_⟩
  · intro hmode
    refine ⟨_, ?_, rfl, map_receiver_ScheduleRx ch txParams senderMobility _⟩
    unfold StartTx
    rw [hphyTx, hmode]
    simp only [allBeamsLoop_eq, List.nil_append]
  · intro hmode
    refine ⟨_, ?_, rfl, map_receiver_ScheduleRx ch txParams senderMobility _⟩
    unfold StartTx
    rw [hphyTx, hmode]
    simp only [destBeamLoop_eq, List.nil_append]

/-- Witness of C19: of the three receivers of the example channel, two are in the beam of
the transmission. -/
theorem C19_receivers_selected_by_rx_mode_witness :
    (∃ scheduled, StartTx (exampleChannel RxMode.ALL_BEAMS ChannelType_t.FORWARD_USER_CH)
        (exampleTx [packetFor 1 3]) = .ok scheduled ∧
      scheduled.map (fun s => s.receiver) = [exampleRx 1 1, exampleRx 2 2, exampleRx 3 1]) ∧
    (∃ scheduled, StartTx (exampleChannel RxMode.ONLY_DEST_BEAM ChannelType_t.FORWARD_USER_CH)
        (exampleTx [packetFor 1 3]) = .ok scheduled ∧
      scheduled.map (fun s => s.receiver) = [exampleRx 1 1, exampleRx 3 1]) := by
  obtain ⟨s1, h1, _, r1⟩ := (C19_receivers_selected_by_rx_mode
    (exampleChannel RxMode.ALL_BEAMS ChannelType_t.FORWARD_USER_CH)
    (exampleTx [packetFor 1 3]) 0 rfl).1 rfl
  obtain ⟨s2, h2, _, r2⟩ := (C19_receivers_selected_by_rx_mode
    (exampleChannel RxMode.ONLY_DEST_BEAM ChannelType_t.FORWARD_USER_CH)
    (exampleTx [packetFor 1 3]) 0 rfl).2 rfl
  exact ⟨⟨s1, h1, r1⟩, ⟨s2, h2, r2⟩⟩

/-- The only fatal error of the loop over the packets is the one of the missing MAC
tag. -/
theorem packetLoop_error (receiver : SatPhyRx) :
    ∀ (packets : List Packet) (f : Fault), packetLoop receiver packets = .error f →
      f = Fault.macTagNotFound := by
  intro packets
  induction packets with
  | nil => intro f h; simp [packetLoop] at h
  | cons packet others ih =>
    intro f h
    rw [packetLoop] at h
    cases htag : packet.macTag with
    | none =>
      rw [htag] at h
      simp only [Except.error.injEq] at h
      exact h.symm
    | some macTag =>
      rw [htag] at h
      simp only at h
      by_cases hfor : isForReceiver macTag.destAddress receiver = true
      · rw [if_pos hfor] at h
        cases h
      · rw [if_neg hfor] at h
        exact ih f h

/-- The loop over the packets ends in the fatal error exactly when it meets a packet
without MAC tag before a packet that is for the receiver. -/
theorem packetLoop_error_iff (receiver : SatPhyRx) :
    ∀ (packets : List Packet),
      packetLoop receiver packets = .error Fault.macTagNotFound ↔
        ∃ before untagged after, packets = before ++ untagged :: after ∧
          untagged.macTag = none ∧
          ∀ q ∈ before, ∃ macTag, q.macTag = some macTag ∧
            isForReceiver macTag.destAddress receiver = false := by
  intro packets
  induction packets with
  | nil =>
    constructor
    · intro h; simp [packetLoop] at h
    · rintro ⟨before, untagged, after, h, _⟩
      simp at h
  | cons packet others ih =>
    rw [packetLoop]
    cases htag : packet.macTag with
    | none =>
      simp only [true_iff]
      exact ⟨[], packet, others, rfl, htag, fun q hq => by simp at hq⟩
    | some macTag =>
      simp only
      by_cases hfor : isForReceiver macTag.destAddress receiver = true
      · rw [if_pos hfor]
        constructor
        · intro h; cases h
        · rintro ⟨before, untagged, after, h, hnone, hbefore⟩
          cases before with
          | nil =>
            simp only [List.nil_append, List.cons.injEq] at h
            rw [h.1, hnone] at htag
            cases htag
          | cons b rest =>
            simp only [List.cons_append, List.cons.injEq] at h
            obtain ⟨tag1, h1, h2⟩ := hbefore b (by simp)
            rw [← h.1, htag] at h1
            simp only [Option.some.injEq] at h1
            rw [← h1, hfor] at h2
            cases h2
      · rw [if_neg hfor, ih]
        constructor
        · rintro ⟨before, untagged, after, h, hnone, hbefore⟩
          refine ⟨packet :: before, untagged, after, by simp [h], hnone, ?_⟩
          intro q hq
          rcases List.mem_cons.1 hq with hq1 | hq1
          · subst hq1
            exact ⟨macTag, htag, by simpa using hfor⟩
          · exact hbefore q hq1
        · rintro ⟨before, untagged, after, h, hnone, hbefore⟩
          cases before with
          | nil =>
            simp only [List.nil_append, List.cons.injEq] at h
            rw [h.1, hnone] at htag
            cases htag
          | cons b rest =>
            simp only [List.cons_append, List.cons.injEq] at h
            exact ⟨rest, untagged, after, h.2, hnone,
              fun q hq => hbefore q (List.mem_cons_of_mem _ hq)⟩

/-- The loop of the mode `ONLY_DEST_NODE` on a channel to a terrestrial node ends in a
fatal error, the one of the missing MAC tag, exactly when the loop over the packets does so
for a receiver of the beam of the transmission. -/
theorem destNodeLoop_error_iff (ch : Channel) (txParams : SatSignalParameters)
    (senderMobility : Nat)
    (htype : ch.m_channelType = ChannelType_t.FORWARD_USER_CH ∨
      ch.m_channelType = ChannelType_t.RETURN_FEEDER_CH) :
    ∀ (receivers : List SatPhyRx) (scheduled : List ScheduledRx),
      (∀ f, destNodeLoop ch txParams senderMobility receivers scheduled = .error f →
        f = Fault.macTagNotFound) ∧
      (destNodeLoop ch txParams senderMobility receivers scheduled =
          .error Fault.macTagNotFound ↔
        ∃ receiver ∈ receivers, receiver.beamId = txParams.m_beamId ∧
          packetLoop receiver txParams.m_packetsInBurst = .error Fault.macTagNotFound) := by
  intro receivers
  induction receivers with
  | nil =>
    intro scheduled
    simp [destNodeLoop]
  | cons receiver others ih =>
    intro scheduled
    by_cases hbeam : receiver.beamId = txParams.m_beamId
    · cases hp : packetLoop receiver txParams.m_packetsInBurst with
      | error f =>
        have hf := packetLoop_error receiver _ f hp
        subst hf
        have hloop : destNodeLoop ch txParams senderMobility (receiver :: others) scheduled =
            .error Fault.macTagNotFound := by
          rw [destNodeLoop, if_pos hbeam]
          rcases htype with ht | ht <;> rw [ht, hp]
        rw [hloop]
        refine ⟨fun f h => ?_, ?_⟩
        · simp only [Except.error.injEq] at h
          exact h.symm
        · simp only [true_iff]
          exact ⟨receiver, by simp, hbeam, hp⟩
      | ok b =>
        have hloop : destNodeLoop ch txParams senderMobility (receiver :: others) scheduled =
            destNodeLoop ch txParams senderMobility others
              (if b then scheduled ++ [ScheduleRx ch txParams senderMobility receiver]
               else scheduled) := by
          rw [destNodeLoop, if_pos hbeam]
          rcases htype with ht | ht <;> rw [ht, hp] <;> cases b <;> rfl
        rw [hloop]
        obtain ⟨h1, h2⟩ := ih
          (if b then scheduled ++ [ScheduleRx ch txParams senderMobility receiver]
           else scheduled)
        refine ⟨h1, h2.trans ?_⟩
        constructor
        · rintro ⟨r, hr, hb, he⟩
          exact ⟨r, List.mem_cons_of_mem _ hr, hb, he⟩
        · rintro ⟨r, hr, hb, he⟩
          rcases List.mem_cons.1 hr with hr1 | hr1
          · subst hr1
            rw [hp] at he
            cases he
          · exact ⟨r, hr1, hb, he⟩
    · have hloop : destNodeLoop ch txParams senderMobility (receiver :: others) scheduled =
          destNodeLoop ch txParams senderMobility others scheduled := by
        rw [destNodeLoop, if_neg hbeam]
      rw [hloop]
      obtain ⟨h1, h2⟩ := ih scheduled
      refine ⟨h1, h2.trans ?_⟩
      constructor
      · rintro ⟨r, hr, hb, he⟩
        exact ⟨r, List.mem_cons_of_mem _ hr, hb, he⟩
      · rintro ⟨r, hr, hb, he⟩
        rcases List.mem_cons.1 hr with hr1 | hr1
        · subst hr1
          exact absurd hb hbeam
        · exact ⟨r, hr1, hb, he⟩

/-- Claim C20, amended: in the mode `ONLY_DEST_NODE` (the transmitter of the transmission
not being null), on `FORWARD_USER_CH` and `RETURN_FEEDER_CH` a call of `StartTx` that
completes has scheduled one reception for each entry of the receiver list that is in the
beam of the transmission and that some packet of the burst is for (a MAC destination equal
to the address of the receiver, broadcast or group), in the order of the list, and none for
a receiver in another beam or that no packet is for: however many packets are for a
receiver, it is scheduled as often as it stands in the list; the call completes when every
packet of the burst carries a MAC tag; it ends in a fatal error, which is then the error
"MAC tag was not found from the packet!", exactly when for some receiver of the list in the
beam of the transmission the burst holds a packet without MAC tag before any packet that is
for that receiver. On `FORWARD_FEEDER_CH` and `RETURN_USER_CH` the call completes and
schedules one reception for each entry of the list in the beam of the transmission. -/
theorem C20_dest_node_mode_schedules_once (ch : Channel) (txParams : SatSignalParameters)
    (senderMobility : Nat) (hmode : ch.m_rxMode = RxMode.ONLY_DEST_NODE)
    (hphyTx : txParams.m_phyTx = some senderMobility) :
    ((ch.m_channelType = ChannelType_t.FORWARD_USER_CH ∨
        ch.m_channelType = ChannelType_t.RETURN_FEEDER_CH) →
      ((∀ packet ∈ txParams.m_packetsInBurst, packet.macTag ≠ none) →
        ∃ scheduled, StartTx ch txParams = .ok scheduled) ∧
      (∀ scheduled, StartTx ch txParams = .ok scheduled →
        scheduled = (ch.m_phyList.filter (fun receiver =>
          decide (receiver.beamId = txParams.m_beamId) &&
            addressedTo txParams receiver)).map (ScheduleRx ch txParams senderMobility) ∧
        scheduled.map (fun s => s.receiver) =
          ch.m_phyList.filter (fun receiver =>
            decide (receiver.beamId = txParams.m_beamId) && addressedTo txParams receiver) ∧
        ∀ receiver, (scheduled.map (fun s => s.receiver)).count receiver ≤
          ch.m_phyList.count receiver) ∧
      (∀ f, StartTx ch txParams = .error f → f = Fault.macTagNotFound) ∧
      (StartTx ch txParams = .error Fault.macTagNotFound ↔
        ∃ receiver ∈ ch.m_phyList, receiver.beamId = txParams.m_beamId ∧
          ∃ before untagged after,
            txParams.m_packetsInBurst = before ++ untagged :: after ∧
            untagged.macTag = none ∧
            ∀ q ∈ before, ∃ macTag, q.macTag = some macTag ∧
              isForReceiver macTag.destAddress receiver = false)) ∧
    ((ch.m_channelType = ChannelType_t.FORWARD_FEEDER_CH ∨
        ch.m_channelType = ChannelType_t.RETURN_USER_CH) →
      ∃ scheduled, StartTx ch txParams = .ok scheduled ∧
        scheduled.map (fun s => s.receiver) =
          ch.m_phyList.filter (fun receiver =>
            decide (receiver.beamId = txParams.m_beamId)) ∧
        ∀ receiver, (scheduled.map (fun s => s.receiver)).count receiver ≤
          ch.m_phyList.count receiver) := by
  have hstart : StartTx ch txParams =
      destNodeLoop ch txParams senderMobility ch.m_phyList [] := by
    unfold StartTx
    rw [hphyTx, hmode]
  refine ⟨?_, ?_⟩
  · intro htype
    obtain ⟨herror, hiff⟩ :=
      destNodeLoop_error_iff ch txParams senderMobility htype ch.m_phyList []
    refine ⟨?_, ?_, ?_, ?_⟩
    · intro htags
      rw [hstart]
      apply destNodeLoop_isOk ch txParams senderMobility _ htags
      rcases htype with ht | ht <;> rw [ht] <;> simp
    · intro scheduled hrun
      rw [hstart] at hrun
      have h := destNodeLoop_to_ground ch txParams senderMobility htype _ _ _ hrun
      rw [List.nil_append] at h
      subst h
      refine ⟨rfl, map_receiver_ScheduleRx ch txParams senderMobility _, ?_⟩
      intro receiver
      rw [map_receiver_ScheduleRx]
      exact (List.filter_sublist _).count_le receiver
    · intro f hf
      rw [hstart] at hf
      exact herror f hf
    · rw [hstart, hiff]
      constructor
      · rintro ⟨receiver, hr, hb, he⟩
        exact ⟨receiver, hr, hb, (packetLoop_error_iff receiver _).1 he⟩
      · rintro ⟨receiver, hr, hb, he⟩
        exact ⟨receiver, hr, hb, (packetLoop_error_iff receiver _).2 he⟩
  · intro htype
    refine ⟨_, ?_, map_receiver_ScheduleRx ch txParams senderMobility _, ?_⟩
    · rw [hstart, destNodeLoop_to_satellite ch txParams senderMobility htype, List.nil_append]
    · intro receiver
      rw [map_receiver_ScheduleRx]
      exact (List.filter_sublist _).count_le receiver

/-- The claim C20 as stated fails: on `FORWARD_USER_CH` in the mode `ONLY_DEST_NODE`, the
first receiver of the example channel is in the beam of the transmission and the second
packet of the burst is addressed to it, but the first packet carries no MAC tag: the call
ends in the fatal error of line 189 and the receiver is not scheduled. -/
theorem C20_counterexample :
    (exampleRx 1 1).beamId = (exampleTx [⟨1, none⟩, packetFor 2 1]).m_beamId ∧
    addressedTo (exampleTx [⟨1, none⟩, packetFor 2 1]) (exampleRx 1 1) = true ∧
    exampleRx 1 1 ∈
      (exampleChannel RxMode.ONLY_DEST_NODE ChannelType_t.FORWARD_USER_CH).m_phyList ∧
    StartTx (exampleChannel RxMode.ONLY_DEST_NODE ChannelType_t.FORWARD_USER_CH)
        (exampleTx [⟨1, none⟩, packetFor 2 1]) = .error Fault.macTagNotFound := by
  refine ⟨rfl, rfl, by decide, rfl⟩

/-- Witness of the amended C20: a burst with three packets for the first receiver and none
for the third: the first receiver is scheduled once, with the delay 10 - 4. -/
theorem C20_dest_node_mode_schedules_once_witness :
    StartTx (exampleChannel RxMode.ONLY_DEST_NODE ChannelType_t.FORWARD_USER_CH)
        (exampleTx [packetFor 1 1, packetFor 2 1, packetFor 3 1]) =
      .ok [{ context := 1, delay := 6
             rxParams := exampleTx [packetFor 1 1, packetFor 2 1, packetFor 3 1]
             receiver := exampleRx 1 1 }] ∧
    [exampleRx 1 1] =
      (exampleChannel RxMode.ONLY_DEST_NODE ChannelType_t.FORWARD_USER_CH).m_phyList.filter
        (fun receiver =>
          decide (receiver.beamId =
            (exampleTx [packetFor 1 1, packetFor 2 1, packetFor 3 1]).m_beamId) &&
          addressedTo (exampleTx [packetFor 1 1, packetFor 2 1, packetFor 3 1]) receiver) :=
  ⟨rfl,
   (((C20_dest_node_mode_schedules_once
      (exampleChannel RxMode.ONLY_DEST_NODE ChannelType_t.FORWARD_USER_CH)
      (exampleTx [packetFor 1 1, packetFor 2 1, packetFor 3 1]) 0 rfl rfl).1 (Or.inl rfl)).2.1
      [{ context := 1, delay := 6
         rxParams := exampleTx [packetFor 1 1, packetFor 2 1, packetFor 3 1]
         receiver := exampleRx 1 1 }] rfl).2.1⟩


/-! ## The delay of a scheduled reception (C21) -/

/-- The reception `ScheduleRx` schedules carries the delay of lines 264-303, the node id of
the receiver as context, and a copy of the signal parameters. -/
theorem ScheduleRx_delay (ch : Channel) (txParams : SatSignalParameters)
    (senderMobility : Nat) (receiver : SatPhyRx) :
    (ScheduleRx ch txParams senderMobility receiver).delay =
        rxDelay ch senderMobility receiver.mobility txParams.m_duration ∧
    (ScheduleRx ch txParams senderMobility receiver).context = receiver.nodeId ∧
    (ScheduleRx ch txParams senderMobility receiver).rxParams = txParams ∧
    (ScheduleRx ch txParams senderMobility receiver).receiver = receiver :=
  ⟨rfl, rfl, rfl, rfl⟩

/-- Without a propagation delay model the delay is zero. -/
theorem rxDelay_without_model (ch : Channel) (senderMobility receiverMobility : Nat)
    (duration : Int) (hnone : ch.m_propagationDelay = none) :
    rxDelay ch senderMobility receiverMobility duration = 0 := by
  unfold rxDelay
  rw [hnone]

/-- On the second link of a path (`RETURN_FEEDER_CH`, `FORWARD_USER_CH`) the duration of
the transmission is taken off the propagation delay, down to zero. -/
theorem rxDelay_second_link (ch : Channel) (senderMobility receiverMobility : Nat)
    (duration : Int) (GetDelay : Nat → Nat → Int)
    (hmodel : ch.m_propagationDelay = some GetDelay)
    (htype : ch.m_channelType = ChannelType_t.RETURN_FEEDER_CH ∨
      ch.m_channelType = ChannelType_t.FORWARD_USER_CH) :
    rxDelay ch senderMobility receiverMobility duration =
      if GetDelay senderMobility receiverMobility > duration then
        GetDelay senderMobility receiverMobility - duration
      else 0 := by
  unfold rxDelay
  rw [hmodel]
  rcases htype with ht | ht <;> rw [ht]

/-- On the other channel types the delay is the propagation delay. -/
theorem rxDelay_other_link (ch : Channel) (senderMobility receiverMobility : Nat)
    (duration : Int) (GetDelay : Nat → Nat → Int)
    (hmodel : ch.m_propagationDelay = some GetDelay)
    (htype : ch.m_channelType ≠ ChannelType_t.RETURN_FEEDER_CH ∧
      ch.m_channelType ≠ ChannelType_t.FORWARD_USER_CH) :
    rxDelay ch senderMobility receiverMobility duration =
      GetDelay senderMobility receiverMobility := by
  unfold rxDelay
  rw [hmodel]
  cases hty : ch.m_channelType with
  | RETURN_FEEDER_CH => exact absurd hty htype.1
  | FORWARD_USER_CH => exact absurd hty htype.2
  | UNKNOWN_CH => rfl
  | FORWARD_FEEDER_CH => rfl
  | RETURN_USER_CH => rfl

/-- On `RETURN_FEEDER_CH` and `FORWARD_USER_CH` the delay is not negative whatever the
propagation delay model hands out. -/
theorem rxDelay_second_link_nonneg (ch : Channel) (senderMobility receiverMobility : Nat)
    (duration : Int)
    (htype : ch.m_channelType = ChannelType_t.RETURN_FEEDER_CH ∨
      ch.m_channelType = ChannelType_t.FORWARD_USER_CH) :
    0 ≤ rxDelay ch senderMobility receiverMobility duration := by
  cases hm : ch.m_propagationDelay with
  | none => rw [rxDelay_without_model ch _ _ _ hm]
  | some GetDelay =>
    rw [rxDelay_second_link ch _ _ _ GetDelay hm htype]
    split
    · omega
    · exact le_refl 0

/-- Claim C21, amended: the delay `ScheduleRx` schedules the reception with is 0 with no
propagation delay model; on `RETURN_FEEDER_CH` and `FORWARD_USER_CH` it is the propagation
delay minus the duration of the transmission when the propagation delay is strictly greater
than the duration, and 0 otherwise; on every other channel type it is the propagation delay
itself. So the delay is not negative without a model and on `RETURN_FEEDER_CH` and
`FORWARD_USER_CH`, whatever the model hands out; on the other channel types it is negative
exactly when the propagation delay the model hands out is negative, and in every case it is
not negative when that propagation delay is not. -/
theorem C21_reception_delay_is_not_negative (ch : Channel) (txParams : SatSignalParameters)
    (senderMobility : Nat) (receiver : SatPhyRx) :
    (ch.m_propagationDelay = none →
      (ScheduleRx ch txParams senderMobility receiver).delay = 0) ∧
    (∀ GetDelay, ch.m_propagationDelay = some GetDelay →
      ((ch.m_channelType = ChannelType_t.RETURN_FEEDER_CH ∨
          ch.m_channelType = ChannelType_t.FORWARD_USER_CH) →
        (ScheduleRx ch txParams senderMobility receiver).delay =
          if GetDelay senderMobility receiver.mobility > txParams.m_duration then
            GetDelay senderMobility receiver.mobility - txParams.m_duration
          else 0) ∧
      ((ch.m_channelType ≠ ChannelType_t.RETURN_FEEDER_CH ∧
          ch.m_channelType ≠ ChannelType_t.FORWARD_USER_CH) →
        (ScheduleRx ch txParams senderMobility receiver).delay =
          GetDelay senderMobility receiver.mobility ∧
        ((ScheduleRx ch txParams senderMobility receiver).delay < 0 ↔
          GetDelay senderMobility receiver.mobility < 0))) ∧
    (ch.m_propagationDelay = none ∨ ch.m_channelType = ChannelType_t.RETURN_FEEDER_CH ∨
        ch.m_channelType = ChannelType_t.FORWARD_USER_CH →
      0 ≤ (ScheduleRx ch txParams senderMobility receiver).delay) ∧
    ((∀ GetDelay, ch.m_propagationDelay = some GetDelay →
        0 ≤ GetDelay senderMobility receiver.mobility) →
      0 ≤ (ScheduleRx ch txParams senderMobility receiver).delay) := by
  have hdelay := (ScheduleRx_delay ch txParams senderMobility receiver).1
  refine ⟨?_, ?_, ?_, ?_⟩
  · intro hnone
    rw [hdelay, rxDelay_without_model ch _ _ _ hnone]
  · intro GetDelay hm
    refine ⟨?_, ?_⟩
    · intro htype
      rw [hdelay, rxDelay_second_link ch _ _ _ GetDelay hm htype]
    · intro htype
      rw [hdelay, rxDelay_other_link ch _ _ _ GetDelay hm htype]
      exact ⟨rfl, Iff.rfl⟩
  · rintro (hnone | htype)
    · rw [hdelay, rxDelay_without_model ch _ _ _ hnone]
    · rw [hdelay]
      exact rxDelay_second_link_nonneg ch _ _ _ htype
  · intro hmodel
    rw [hdelay]
    cases hm : ch.m_propagationDelay with
    | none => rw [rxDelay_without_model ch _ _ _ hm]
    | some GetDelay =>
      by_cases htype : ch.m_channelType = ChannelType_t.RETURN_FEEDER_CH ∨
          ch.m_channelType = ChannelType_t.FORWARD_USER_CH
      · exact rxDelay_second_link_nonneg ch _ _ _ htype
      · rw [rxDelay_other_link ch _ _ _ GetDelay hm (not_or.1 htype)]
        exact hmodel GetDelay hm

/-- The claim C21 as stated fails: on `RETURN_USER_CH`, a channel type without the
subtraction of the duration, with a propagation delay model that hands out the delay -3,
`ScheduleRx` schedules the reception with the delay -3. -/
theorem C21_counterexample :
    (ScheduleRx
      { exampleChannel RxMode.ALL_BEAMS ChannelType_t.RETURN_USER_CH with
        m_propagationDelay := some (fun _ _ => -3) }
      (exampleTx []) 0 (exampleRx 1 1)).delay = -3 ∧
    ¬ 0 ≤ (ScheduleRx
      { exampleChannel RxMode.ALL_BEAMS ChannelType_t.RETURN_USER_CH with
        m_propagationDelay := some (fun _ _ => -3) }
      (exampleTx []) 0 (exampleRx 1 1)).delay :=
  ⟨rfl, by decide⟩

/-- Witness of the amended C21: on the example channels the propagation delay is 10 and the
duration of the transmission 4: the delay is 6 on `FORWARD_USER_CH` and 10 on
`RETURN_USER_CH`, not negative as the propagation delay is not. -/
theorem C21_reception_delay_is_not_negative_witness :
    (ScheduleRx (exampleChannel RxMode.ALL_BEAMS ChannelType_t.FORWARD_USER_CH)
      (exampleTx []) 0 (exampleRx 1 1)).delay = 6 ∧
    (ScheduleRx (exampleChannel RxMode.ALL_BEAMS ChannelType_t.RETURN_USER_CH)
      (exampleTx []) 0 (exampleRx 1 1)).delay = 10 ∧
    0 ≤ (ScheduleRx (exampleChannel RxMode.ALL_BEAMS ChannelType_t.FORWARD_USER_CH)
      (exampleTx []) 0 (exampleRx 1 1)).delay ∧
    0 ≤ (ScheduleRx (exampleChannel RxMode.ALL_BEAMS ChannelType_t.RETURN_USER_CH)
      (exampleTx []) 0 (exampleRx 1 1)).delay :=
  ⟨rfl, rfl,
   (C21_reception_delay_is_not_negative
      (exampleChannel RxMode.ALL_BEAMS ChannelType_t.FORWARD_USER_CH) (exampleTx []) 0
      (exampleRx 1 1)).2.2.1 (Or.inr (Or.inr rfl)),
   (C21_reception_delay_is_not_negative
      (exampleChannel RxMode.ALL_BEAMS ChannelType_t.RETURN_USER_CH) (exampleTx []) 0
      (exampleRx 1 1)).2.2.2
      (by
        intro GetDelay h
        simp only [exampleChannel, Option.some.injEq] at h
        rw [← h]
        decide)⟩

end SatChannel

namespace SatConf

/-! ## The checks of `Configure` (C22) -/

section

variable {α : Type} [NatCast α] [Div α]

/-- What `Configure` returns, check by check. -/
theorem Configure_eq (cmp : Comparison α) (s : State α) (wfConf : String) :
    Configure cmp s wfConf =
      if cmp.ne (fwdFeederLinkChannelBandwidthHz s) (fwdUserLinkChannelBandwidthHz s) then
        .error Fault.fwdChannelBandwidthsNotEqual
      else if cmp.gt s.m_fwdCarrierAllocatedBandwidthHz
          (fwdFeederLinkChannelBandwidthHz s) then
        .error Fault.fwdCarrierExceedsChannel
      else if cmp.ne (rtnFeederLinkBandwidthHz s) (rtnUserLinkBandwidthHz s) then
        .error Fault.rtnBandwidthsNotEqual
      else
        .ok { s with
          m_forwardLinkCarrierConf := s.m_forwardLinkCarrierConf ++
            [{ allocatedBandwidthHz := s.m_fwdCarrierAllocatedBandwidthHz
               rollOffFactor := s.m_fwdCarrierRollOffFactor
               spacingFactor := s.m_fwdCarrierSpacingFactor }]
          m_superframeSeq := some
            { waveformConfs := [wfConf]
              superframes := [{ configuration := s.m_SuperFrameConfForSeq0
                                bandwidthHz := rtnUserLinkBandwidthHz s
                                waveformConf := wfConf }] } } := rfl

end

/-- Claim C22: `SatConf::Configure` ends in a fatal error when the forward feeder
per-channel bandwidth (link bandwidth / feeder channel count) differs from the forward user
per-channel bandwidth (link bandwidth / user channel count), when the allocated forward
carrier bandwidth exceeds that channel bandwidth, or when the return feeder and return user
per-channel bandwidths differ, and in no other case; when none of these holds it returns
with exactly one forward-link carrier configuration appended, made of the allocated
bandwidth, the roll-off factor and the spacing factor, so that `GetFwdLinkCarrierCount`
grows by one (the count staying in the range of `uint32_t`). "Differs" and "exceeds" are
the comparisons `!=` and `>` of the type `double`, of which nothing is assumed: a NaN
differs from itself. -/
theorem C22_configure_checks_bandwidths {α : Type} [NatCast α] [Div α]
    (cmp : Comparison α) (s : State α) (wfConf : String) :
    (cmp.ne (fwdFeederLinkChannelBandwidthHz s) (fwdUserLinkChannelBandwidthHz s) = true →
      Configure cmp s wfConf = .error Fault.fwdChannelBandwidthsNotEqual) ∧
    (cmp.gt s.m_fwdCarrierAllocatedBandwidthHz (fwdFeederLinkChannelBandwidthHz s) = true →
      ∃ f, Configure cmp s wfConf = .error f) ∧
    (cmp.ne (rtnFeederLinkBandwidthHz s) (rtnUserLinkBandwidthHz s) = true →
      ∃ f, Configure cmp s wfConf = .error f) ∧
    ((∃ f, Configure cmp s wfConf = .error f) ↔
      (cmp.ne (fwdFeederLinkChannelBandwidthHz s) (fwdUserLinkChannelBandwidthHz s) = true ∨
        cmp.gt s.m_fwdCarrierAllocatedBandwidthHz (fwdFeederLinkChannelBandwidthHz s) = true ∨
        cmp.ne (rtnFeederLinkBandwidthHz s) (rtnUserLinkBandwidthHz s) = true)) ∧
    (cmp.ne (fwdFeederLinkChannelBandwidthHz s) (fwdUserLinkChannelBandwidthHz s) = false →
      cmp.gt s.m_fwdCarrierAllocatedBandwidthHz (fwdFeederLinkChannelBandwidthHz s) = false →
      cmp.ne (rtnFeederLinkBandwidthHz s) (rtnUserLinkBandwidthHz s) = false →
      ∃ s1, Configure cmp s wfConf = .ok s1 ∧
        s1.m_forwardLinkCarrierConf = s.m_forwardLinkCarrierConf ++
          [{ allocatedBandwidthHz := s.m_fwdCarrierAllocatedBandwidthHz
             rollOffFactor := s.m_fwdCarrierRollOffFactor
             spacingFactor := s.m_fwdCarrierSpacingFactor }] ∧
        s1.m_forwardLinkCarrierConf.length = s.m_forwardLinkCarrierConf.length + 1 ∧
        (s.m_forwardLinkCarrierConf.length + 1 < 4294967296 →
          GetFwdLinkCarrierCount s1 = GetFwdLinkCarrierCount s + 1)) := by
  have hiff : (∃ f, Configure cmp s wfConf = .error f) ↔
      (cmp.ne (fwdFeederLinkChannelBandwidthHz s) (fwdUserLinkChannelBandwidthHz s) = true ∨
        cmp.gt s.m_fwdCarrierAllocatedBandwidthHz (fwdFeederLinkChannelBandwidthHz s) = true ∨
        cmp.ne (rtnFeederLinkBandwidthHz s) (rtnUserLinkBandwidthHz s) = true) := by
    rw [Configure_eq]
    by_cases h1 : cmp.ne (fwdFeederLinkChannelBandwidthHz s)
        (fwdUserLinkChannelBandwidthHz s) = true
    · rw [if_pos h1]
      exact ⟨fun _ => Or.inl h1, fun _ => ⟨_, rfl⟩⟩
    · rw [if_neg h1]
      by_cases h2 : cmp.gt s.m_fwdCarrierAllocatedBandwidthHz
          (fwdFeederLinkChannelBandwidthHz s) = true
      · rw [if_pos h2]
        exact ⟨fun _ => Or.inr (Or.inl h2), fun _ => ⟨_, rfl⟩⟩
      · rw [if_neg h2]
        by_cases h3 : cmp.ne (rtnFeederLinkBandwidthHz s) (rtnUserLinkBandwidthHz s) = true
        · rw [if_pos h3]
          exact ⟨fun _ => Or.inr (Or.inr h3), fun _ => ⟨_, rfl⟩⟩
        · rw [if_neg h3]
          constructor
          · rintro ⟨f, hf⟩
            cases hf
          · rintro (h | h | h)
            · exact absurd h h1
            · exact absurd h h2
            · exact absurd h h3
  refine ⟨?_, ?_, ?_, hiff, ?_⟩
  · intro h1
    rw [Configure_eq, if_pos h1]
  · intro h2
    exact hiff.2 (Or.inr (Or.inl h2))
  · intro h3
    exact hiff.2 (Or.inr (Or.inr h3))
  · intro h1 h2 h3
    refine ⟨{ s with
        m_forwardLinkCarrierConf := s.m_forwardLinkCarrierConf ++
          [{ allocatedBandwidthHz := s.m_fwdCarrierAllocatedBandwidthHz
             rollOffFactor := s.m_fwdCarrierRollOffFactor
             spacingFactor := s.m_fwdCarrierSpacingFactor }]
        m_superframeSeq := some
          { waveformConfs := [wfConf]
            superframes := [{ configuration := s.m_SuperFrameConfForSeq0
                              bandwidthHz := rtnUserLinkBandwidthHz s
                              waveformConf := wfConf }] } }, ?_, rfl, ?_, ?_⟩
    · rw [Configure_eq, if_neg (by rw [h1]; simp), if_neg (by rw [h2]; simp),
        if_neg (by rw [h3]; simp)]
    · simp
    · intro hlen
      simp only [GetFwdLinkCarrierCount, u32, List.length_append, List.length_singleton]
      omega

set_option maxRecDepth 100000 in
/-- Witness of C22, in the arithmetic of `double`: with the default values of the
attributes the channel bandwidths are 125 MHz on all four links and the carrier takes the
whole channel: one carrier configuration is appended; with carriers of 126 MHz `Configure`
ends in the fatal error of the carrier bandwidth; and on the members as the constructor
leaves them the channel bandwidths are `0.0 / 0`, a NaN, which differs from itself:
`Configure` ends in the fatal error of the forward channel bandwidths. -/
theorem C22_configure_checks_bandwidths_witness :
    Configure doubleComparison
        { defaultConf with
          m_fwdCarrierAllocatedBandwidthHz := ((126000000 : Nat) : IEEE754.Binary64) } "wf" =
      .error Fault.fwdCarrierExceedsChannel ∧
    fwdFeederLinkChannelBandwidthHz constructorState = IEEE754.Binary64.nan ∧
    Configure doubleComparison constructorState "wf" =
      .error Fault.fwdChannelBandwidthsNotEqual ∧
    ∃ s1, Configure doubleComparison defaultConf "wf" = .ok s1 ∧
      s1.m_forwardLinkCarrierConf = defaultConf.m_forwardLinkCarrierConf ++
        [{ allocatedBandwidthHz := defaultConf.m_fwdCarrierAllocatedBandwidthHz
           rollOffFactor := defaultConf.m_fwdCarrierRollOffFactor
           spacingFactor := defaultConf.m_fwdCarrierSpacingFactor }] ∧
      s1.m_forwardLinkCarrierConf.length = defaultConf.m_forwardLinkCarrierConf.length + 1 ∧
      (defaultConf.m_forwardLinkCarrierConf.length + 1 < 4294967296 →
        GetFwdLinkCarrierCount s1 = GetFwdLinkCarrierCount defaultConf + 1) :=
  ⟨by rfl, by decide,
   (C22_configure_checks_bandwidths doubleComparison constructorState "wf").1 (by decide),
   (C22_configure_checks_bandwidths doubleComparison defaultConf "wf").2.2.2.2
    (by decide) (by decide) (by decide)⟩

end SatConf
